import Mathlib

/-!
# goBlockchain: proof-of-work predicate, mempool and block bookkeeping

A shallow embedding of the parts of `database/block.go`, `database/database.go`,
`node/node.go` and `node/handlers.go` that the properties below talk about,
followed by the properties themselves.

Conventions of the embedding:

* a Go array index that is out of range (a run-time panic) makes the embedded
  function return `none`;
* Go functions with an `error` result return an `Option Error` (`none` is `nil`);
* a method with a pointer receiver takes the receiver and returns the new one;
* Go maps are finite maps (`Finmap`), so that two maps with the same entries
  are equal whatever the order of insertion;
* a file is the list of its bytes, and a function that opens or closes files takes
  and returns the files and the number of open handles.
-/

namespace GoBlockchain

/-! ## database/block.go : hashes -/

/-- A byte. -/
abbrev Byte := Fin 256

/-- The Go type `Hash [32]byte`. -/
structure Hash where
  bytes : List Byte
  len : bytes.length = 32
deriving DecidableEq

/-- The zero value `Hash{}`. -/
def Hash.zero : Hash := ⟨List.replicate 32 0, by simp⟩

/-- The indexing expression `h[i]`; `none` when the index is out of range. -/
def Hash.index (h : Hash) (i : Nat) : Option Byte := h.bytes[i]?

/-- The assignment `h[i] = v` (only used with an index that is in range). -/
def Hash.set (h : Hash) (i : Nat) (v : Byte) : Hash :=
  ⟨h.bytes.set i v, by simp [h.len]⟩

/-- The table `hextable = "0123456789abcdef"` of `encoding/hex`, indexed by a nibble. -/
def hextable (n : Nat) : Char := Nat.digitChar n

/-- The characters of `hex.EncodeToString(src)`: for every byte `v` the two
characters `hextable[v>>4]` and `hextable[v&0x0f]`. -/
def hexEncode (src : List Byte) : List Char :=
  src.flatMap (fun v => [hextable (v.val / 16), hextable (v.val % 16)])

/-- The method `Hash.Hex`, as the list of its characters. -/
def Hash.hexDigits (h : Hash) : List Char := hexEncode h.bytes

/-- The method `Hash.Hex`: `hex.EncodeToString(h[:])`. -/
def Hash.Hex (h : Hash) : String := String.mk h.hexDigits

/-- The function `fromHexChar` of `encoding/hex`. -/
def fromHexChar (c : Char) : Option Nat :=
  if '0' ≤ c ∧ c ≤ '9' then some (c.toNat - '0'.toNat)
  else if 'a' ≤ c ∧ c ≤ 'f' then some (c.toNat - 'a'.toNat + 10)
  else if 'A' ≤ c ∧ c ≤ 'F' then some (c.toNat - 'A'.toNat + 10)
  else none

/-- The errors of `encoding/hex`. -/
inductive HexError where
  | InvalidByteError (c : Char)
  | ErrLength
deriving DecidableEq, Repr

/-- The loop of `hex.Decode(dst, src)` with `dst = h[:]`, started with `i` bytes
already written: returns the destination, the number of bytes written and the
error; `none` when a write `dst[i] = ...` is out of range. -/
def hexDecodeLoop (dst : Hash) (i : Nat) : List Char → Option (Hash × Nat × Option HexError)
  | [] => some (dst, i, none)
  | [p] =>
    match fromHexChar p with
    | none => some (dst, i, some (HexError.InvalidByteError p))
    | some _ => some (dst, i, some HexError.ErrLength)
  | p :: q :: rest =>
    match fromHexChar p with
    | none => some (dst, i, some (HexError.InvalidByteError p))
    | some a =>
      match fromHexChar q with
      | none => some (dst, i, some (HexError.InvalidByteError q))
      | some b =>
        if i < 32 then hexDecodeLoop (dst.set i (Fin.ofNat (a * 16 + b))) (i + 1) rest
        else none

/-- The call `hex.Decode(h[:], src)`. -/
def hexDecode (dst : Hash) (src : List Char) : Option (Hash × Nat × Option HexError) :=
  hexDecodeLoop dst 0 src

/-- The hash the tests obtain by `hash := database.Hash{}; hex.Decode(hash[:], []byte(s))`
(the result of `hex.Decode` is ignored there); `Hash{}` when the call panics. -/
def hashOfHex (s : String) : Hash :=
  match hexDecode Hash.zero s.toList with
  | some (h, _, _) => h
  | none => Hash.zero

/-! ## database/block.go : the proof-of-work predicate -/

/-- The Go expression `fmt.Sprintf("%x", b)` for an unsigned integer `b`:
its lower-case hexadecimal digits, without padding. -/
def sprintfX (b : Nat) : String := String.mk (Nat.toDigits 16 b)

/-- The body of the `for` loop of `IsBlockHashValid` at index `i`. -/
def zeroesStep (h : Hash) (zeroesCount i : Nat) : Option Nat := do
  let b ← h.index i
  if sprintfX b.val = "0" then pure (zeroesCount + 1) else pure zeroesCount

/-- The function `IsBlockHashValid(h, miningDifficulty)`; `none` is the panic of
an index out of range. -/
def IsBlockHashValid (h : Hash) (miningDifficulty : Nat) : Option Bool := do
  let zeroesCount ← (List.range miningDifficulty).foldlM (zeroesStep h) 0
  let b ← h.index miningDifficulty
  if sprintfX b.val = "0" then pure false
  else pure (decide (zeroesCount = miningDifficulty))

/-- The predicate in the words of the specification: the first `k` hex digits of
the textual form of `h` are `'0'` and the `k+1`-th hex digit is not `'0'`. -/
def hexPrefixValid (h : Hash) (k : Nat) : Bool :=
  (h.hexDigits.take k).all (fun c => c == '0') &&
    (match h.hexDigits[k]? with
     | some c => c != '0'
     | none => false)

/-- The predicate the code decides, on the textual form: the first `2 * k` hex
digits are `'0'` (the first `k` bytes are zero) and the two hex digits of byte `k`
are not both `'0'`. -/
def hexBytePrefixValid (h : Hash) (k : Nat) : Bool :=
  (h.hexDigits.take (2 * k)).all (fun c => c == '0') &&
    !((h.hexDigits.drop (2 * k)).take 2 == ['0', '0'])

/-- The hash of `TestValidBlockHash`. -/
def testValidHash : Hash :=
  hashOfHex "0000fa04f8160395c387277f8b2f14837603383d33809a4db586086168edfa"

/-- The hash of `TestInvalidBlockHash`. -/
def testInvalidHash : Hash :=
  hashOfHex "0001fa04f8160395c387277f8b2f14837603383d33809a4db586086168edfa"

/-! ## database : transactions, blocks and the state

`database/tx.go` and `database/state.go` are not among the sources at hand; the
types and functions of these files are modelled from the specification. -/

/-- The type `common.Address` (`[20]byte`) of go-ethereum, as the number its bytes spell. -/
abbrev Address := Fin (2 ^ 160)

/-- Modelled from the spec: the kinds of Go `error` values the code returns
(section 7); `IOFailure` is the kind of a file or encoding failure, `RewardTx`
the rejection of a reward-tagged transaction (step 3 of `apply_tx`). -/
inductive Error where
  | Forged
  | BadNonce
  | Insufficient
  | RewardTx
  | BadChain
  | NotFound
  | Canceled
  | IOFailure
deriving DecidableEq, Repr

/-- Modelled from the spec: the unsigned transaction `Tx` of `database/tx.go`
(fields of section 3, named as the tests name them). -/
structure Tx where
  From : Address
  To : Address
  Value : Nat
  Nonce : Nat
  Data : String
  Time : Nat
  Gas : Nat
  GasPrice : Nat
deriving DecidableEq

/-- Modelled from the spec: the type `SignedTx` of `database/tx.go`, a transaction
with its signature. -/
structure SignedTx extends Tx where
  Sig : List Byte
deriving DecidableEq

/-- The Go type `BlockHeader`. -/
structure BlockHeader where
  Parent : Hash
  Number : Nat
  Nonce : Nat
  Time : Nat
  Miner : Address
deriving DecidableEq

/-- The Go type `Block`. -/
structure Block where
  Header : BlockHeader
  Txs : List SignedTx
deriving DecidableEq

/-- The Go type `BlockFS`. -/
structure BlockFS where
  Key : Hash
  Value : Block
deriving DecidableEq

/-- The Go function `NewBlock`. -/
def NewBlock (parent : Hash) (number nonce time : Nat) (miner : Address)
    (txs : List SignedTx) : Block :=
  { Header := { Parent := parent, Number := number, Nonce := nonce, Time := time, Miner := miner },
    Txs := txs }

/-- The library functions the code calls and that are taken as given:
`json.Marshal` on a signed transaction and on a block, `sha256.Sum256`, and the
recovery of the signer of a transaction from its signature. -/
structure Primitives where
  jsonMarshalTx : SignedTx → Except Error (List Byte)
  jsonMarshalBlock : Block → Except Error (List Byte)
  sha256Sum256 : List Byte → Hash
  recoverSigner : Tx → List Byte → Option Address

/-- The method `Block.Hash`: the SHA-256 digest of the JSON form of the block,
`Hash{}` with the error when the encoding fails. -/
def Block.Hash (P : Primitives) (b : Block) : Hash × Option Error :=
  match P.jsonMarshalBlock b with
  | .error err => (Hash.zero, some err)
  | .ok blockJson => (P.sha256Sum256 blockJson, none)

/-- Modelled from the spec: the method `SignedTx.Hash` of `database/tx.go`, the
SHA-256 digest of the JSON serialization of the signed transaction; it has the
shape of `Block.Hash`. -/
def SignedTx.Hash (P : Primitives) (tx : SignedTx) : Hash × Option Error :=
  match P.jsonMarshalTx tx with
  | .error err => (Hash.zero, some err)
  | .ok txJson => (P.sha256Sum256 txJson, none)

/-- Modelled from the spec: the method `SignedTx.IsAuthentic` of `database/tx.go`:
the address recovered from the signature equals `From`. -/
def SignedTx.IsAuthentic (P : Primitives) (tx : SignedTx) : Bool :=
  decide (P.recoverSigner tx.toTx tx.Sig = some tx.From)

/-- A Go map from `K` to `V`. -/
abbrev GoMap (K V : Type) := Finmap (fun _ : K => V)

/-- The value of the index expression `m[k]` on a map of unsigned integers
(zero for an absent key). -/
def GoMap.at {K : Type} [DecidableEq K] (m : GoMap K Nat) (k : K) : Nat :=
  (m.lookup k).getD 0

/-- Modelled from the spec: the type `State` of `database/state.go` (section 3).
`dbFile` is the content of the block log as seen through the append handle,
`none` when the state holds no handle. -/
structure State where
  Balances : GoMap Address Nat
  Account2Nonce : GoMap Address Nat
  latestBlock : Block
  latestBlockHash : Hash
  hasGenesisBlock : Bool
  HashCache : GoMap String Nat
  HeightCache : GoMap Nat Nat
  dbFile : Option (List Byte)
  miningDifficulty : Nat
  forkTIP1 : Nat
deriving DecidableEq

/-- The constant `BlockReward`. -/
def BlockReward : Nat := 100

/-- Modelled from the spec: the legacy fee constant `TxFee` (50 coin units). -/
def TxFee : Nat := 50

/-- The size of the Go type `uint` (64 bits). -/
def uintSize : Nat := 2 ^ 64

/-- Modelled from the spec: `is_tip1_fork`, `latest_block.number >= fork_tip1_height`. -/
def State.IsTIP1Fork (s : State) : Bool := decide (s.forkTIP1 ≤ s.latestBlock.Header.Number)

/-- Modelled from the spec: `tx.gas_cost() = gas * gas_price`, in `uint` arithmetic. -/
def Tx.GasCost (t : Tx) : Nat := (t.Gas * t.GasPrice) % uintSize

/-- Modelled from the spec: `tx.cost(is_tip1) = value + (is_tip1 ? gas*gas_price : TX_FEE)`. -/
def Tx.Cost (t : Tx) (isTip1Fork : Bool) : Nat :=
  if isTip1Fork then (t.Value + t.GasCost) % uintSize else (t.Value + TxFee) % uintSize

/-- Modelled from the spec: `apply_tx(tx, state)` of section 4.6, the function
`ApplyTx` of `database/state.go`: steps 1 to 6 in order; the state is returned
unchanged with the error when a check fails. -/
def specApplyTx (P : Primitives) (tx : SignedTx) (s : State) : State × Option Error :=
  if ¬ tx.IsAuthentic P = true then (s, some Error.Forged)
  else if tx.Nonce ≠ s.Account2Nonce.at tx.From + 1 then (s, some Error.BadNonce)
  else if tx.Data = "reward" ∧ s.IsTIP1Fork = true then (s, some Error.RewardTx)
  else if ¬ tx.Data = "reward" ∧ s.Balances.at tx.From < tx.Cost s.IsTIP1Fork then
    (s, some Error.Insufficient)
  else
    let b1 := s.Balances.insert tx.From
      ((s.Balances.at tx.From + uintSize - tx.Cost s.IsTIP1Fork) % uintSize)
    let b2 := b1.insert tx.To ((GoMap.at b1 tx.To + tx.Value) % uintSize)
    ({ s with Balances := b2, Account2Nonce := s.Account2Nonce.insert tx.From tx.Nonce }, none)

/-- Modelled from the spec: the clone for the pending state (section 4.6): the
balances, the nonces and the latest-block cursor are copied, the file handle
and the indexes are not. -/
def specCopy (s : State) : State :=
  { s with HashCache := ∅, HeightCache := ∅, dbFile := none }

/-- Modelled from the spec: the chain rule of section 4.3. -/
def specChainRule (P : Primitives) (s : State) (b : Block) : Bool :=
  if s.hasGenesisBlock = false then
    decide (b.Header.Number = 0) && decide (b.Header.Parent = Hash.zero)
  else
    decide (b.Header.Number = s.latestBlock.Header.Number + 1) &&
    decide (b.Header.Parent = s.latestBlockHash) &&
    decide (IsBlockHashValid (Block.Hash P b).1 s.miningDifficulty = some true)

/-- Modelled from the spec: step 2 of `apply_block`, the transactions applied in order. -/
def specApplyTxs (P : Primitives) : List SignedTx → State → State × Option Error
  | [], s => (s, none)
  | tx :: rest, s =>
    match specApplyTx P tx s with
    | (_, some err) => (s, some err)
    | (s1, none) => specApplyTxs P rest s1

/-- The bytes of a string. -/
def stringBytes (t : String) : List Byte := t.toList.map (fun c => Fin.ofNat c.toNat)

/-- Modelled from the spec: a line of the block log (section 6),
the JSON record with the fields `hash` and `block`, and the line feed. -/
def specLogLine (key : Hash) (blockJson : List Byte) : List Byte :=
  stringBytes "\x7b\"hash\":\"" ++ stringBytes key.Hex ++ stringBytes "\",\"block\":" ++
    blockJson ++ stringBytes "\x7d\n"

/-- Modelled from the spec: `apply_block(b, state)` of section 4.6, the method
`State.AddBlock` of `database/state.go`: chain rule, transactions in order on a
scratch copy, reward of the miner, then the commit with the record appended
to the log and its offset entered in both indexes. -/
def specAddBlock (P : Primitives) (s : State) (b : Block) : State × Hash × Option Error :=
  match P.jsonMarshalBlock b with
  | .error err => (s, Hash.zero, some err)
  | .ok blockJson =>
    let blockHash := P.sha256Sum256 blockJson
    if specChainRule P s b = false then (s, Hash.zero, some Error.BadChain)
    else
      match specApplyTxs P b.Txs s with
      | (_, some err) => (s, Hash.zero, some err)
      | (s1, none) =>
        let fees := if s.IsTIP1Fork then (b.Txs.map (fun tx => tx.GasCost)).sum
                    else TxFee * b.Txs.length
        let balances := s1.Balances.insert b.Header.Miner
          ((s1.Balances.at b.Header.Miner + BlockReward + fees) % uintSize)
        let log := s.dbFile.getD []
        ({ s1 with
            Balances := balances
            latestBlock := b
            latestBlockHash := blockHash
            hasGenesisBlock := true
            HashCache := s.HashCache.insert blockHash.Hex log.length
            HeightCache := s.HeightCache.insert b.Header.Number log.length
            dbFile := some (log ++ specLogLine blockHash blockJson) },
         blockHash, none)

/-! ## node/node.go -/

/-- The functions of the `database` package that `node.go` calls and whose source
is not at hand (`ApplyTx`, `State.AddBlock`, `State.Copy`), together with the
library primitives. A function that takes a `*State` returns the state it leaves. -/
structure Env where
  prim : Primitives
  ApplyTx : SignedTx → State → State × Option Error
  AddBlock : State → Block → State × Hash × Option Error
  Copy : State → State

/-- The environment in which the functions of `database/state.go` are the ones
modelled from the specification. -/
def specEnv (P : Primitives) : Env :=
  { prim := P, ApplyTx := specApplyTx P, AddBlock := specAddBlock P, Copy := specCopy }

/-- The Go type `PeerNode`. -/
structure PeerNode where
  IP : String
  Port : Nat
  IsBootstrap : Bool
  Account : Address
  connected : Bool
deriving DecidableEq

/-- The Go function `NewPeerNode`. -/
def NewPeerNode (ip : String) (port : Nat) (isBootstrap : Bool) (acc : Address)
    (connected : Bool) : PeerNode :=
  { IP := ip, Port := port, IsBootstrap := isBootstrap, Account := acc, connected := connected }

/-- The method `PeerNode.TcpAddress`: `fmt.Sprintf("%s:%d", pn.IP, pn.Port)`. -/
def PeerNode.TcpAddress (pn : PeerNode) : String := pn.IP ++ ":" ++ toString pn.Port

/-- The Go type `Node`, for a node whose `Run` has set `state` and `pendingState`.
A channel is the list of the values sent on it and not yet received, oldest
first (its buffer). No statement of `node.go` or `handlers.go` receives from
`newPendingTXs`. -/
structure Node where
  dataDir : String
  info : PeerNode
  state : State
  pendingState : State
  knownPeers : GoMap String PeerNode
  pendingTXs : GoMap String SignedTx
  archivedTXs : GoMap String SignedTx
  newSyncedBlocks : List Block
  newPendingTXs : List SignedTx
  miningDifficulty : Nat
  isMining : Bool
deriving DecidableEq

/-- The key under which the node files a transaction: `txHash.Hex()` for
`txHash, _ := tx.Hash()`. -/
def txKey (E : Env) (tx : SignedTx) : String := (tx.Hash E.prim).1.Hex

/-- The method `Node.validateTxBeforeAddingToMempool`: `database.ApplyTx(tx, n.pendingState)`. -/
def validateTxBeforeAddingToMempool (E : Env) (n : Node) (tx : SignedTx) : Node × Option Error :=
  let r := E.ApplyTx tx n.pendingState
  ({ n with pendingState := r.1 }, r.2)

/-- The capacity of the channel `newPendingTXs`: `make(chan database.SignedTx, 10000)`
in `New`. -/
def newPendingTXsCap : Nat := 10000

/-- The send `ch <- v` on a channel with a buffer of `cap` values from which no
goroutine is receiving: the buffer with `v` appended, `none` when the buffer is
full and the send waits. -/
def chanSend {α : Type} (cap : Nat) (ch : List α) (v : α) : Option (List α) :=
  if ch.length < cap then some (ch ++ [v]) else none

/-- The ways a call of `AddPendingTX` ends: it returns its `error` value, or it
waits in the send on the channel. -/
inductive Completion where
  | returned (err : Option Error)
  | blocked
deriving DecidableEq

/-- The method `Node.AddPendingTX`: the node it leaves and how the call ends. The
mempool is written before the send `n.newPendingTXs <- tx`; when the buffer of
the channel is full the call waits there. -/
def AddPendingTX (E : Env) (n : Node) (tx : SignedTx) (_fromPeer : PeerNode) :
    Node × Completion :=
  match tx.Hash E.prim with
  | (_, some err) => (n, Completion.returned (some err))
  | (txHash, none) =>
    match E.prim.jsonMarshalTx tx with
    | .error err => (n, Completion.returned (some err))
    | .ok _ =>
      match validateTxBeforeAddingToMempool E n tx with
      | (n1, some err) => (n1, Completion.returned (some err))
      | (n1, none) =>
        let isAlreadyPending := (n1.pendingTXs.lookup txHash.Hex).isSome
        let isArchived := (n1.archivedTXs.lookup txHash.Hex).isSome
        if !isAlreadyPending && !isArchived then
          let n2 := { n1 with pendingTXs := n1.pendingTXs.insert txHash.Hex tx }
          match chanSend newPendingTXsCap n2.newPendingTXs tx with
          | none => (n2, Completion.blocked)
          | some ch => ({ n2 with newPendingTXs := ch }, Completion.returned none)
        else (n1, Completion.returned none)

/-- The body of the loop of `Node.removeMinedPendingTXs` for one transaction of the block. -/
def removeMinedPendingTX (E : Env) (n : Node) (tx : SignedTx) : Node :=
  let txHash := (tx.Hash E.prim).1
  if (n.pendingTXs.lookup txHash.Hex).isSome then
    { n with
        archivedTXs := n.archivedTXs.insert txHash.Hex tx
        pendingTXs := n.pendingTXs.erase txHash.Hex }
  else n

/-- The method `Node.removeMinedPendingTXs`. -/
def removeMinedPendingTXs (E : Env) (n : Node) (block : Block) : Node :=
  block.Txs.foldl (removeMinedPendingTX E) n

/-- The method `Node.addBlock`. -/
def addBlock (E : Env) (n : Node) (block : Block) : Node × Option Error :=
  match E.AddBlock n.state block with
  | (s, _, some err) => ({ n with state := s }, some err)
  | (s, _, none) => ({ n with state := s, pendingState := E.Copy s }, none)

/-- The variables of `Node.mine` that a step of its loop reads and writes: the node
and whether the cancel function `stopCurrentMining` of the running mining
attempt has been called. -/
structure MineLoop where
  node : Node
  miningCancelled : Bool
deriving DecidableEq

/-- The case `block, _ := <-n.newSyncedBlocks` of the `select` in `Node.mine`,
for the received block. -/
def mineOnSyncedBlock (E : Env) (l : MineLoop) (block : Block) : MineLoop :=
  if l.node.isMining then
    { node := removeMinedPendingTXs E l.node block, miningCancelled := true }
  else l

/-! ## Fixtures

Stand-ins for the library primitives, with which the functions above can be
evaluated on concrete nodes, and the accounts, transactions and block of
`TestNode_MiningStopsOnNewSyncedBlock` (legacy case). -/

/-- The low byte of a number. -/
def lowByte (n : Nat) : Byte := Fin.ofNat n

/-- A stand-in for the signature of a transaction: it names the signer and binds
the nonce, the value and the time of the transaction. -/
def demoSig (signer : Address) (t : Tx) : List Byte :=
  [lowByte signer.val, lowByte t.Nonce, lowByte t.Value, lowByte t.Time]

/-- A stand-in for the recovery of the signer from a signature made by `demoSig`. -/
def demoRecoverSigner (t : Tx) (sig : List Byte) : Option Address :=
  match sig with
  | [a, n, v, tm] =>
    if n = lowByte t.Nonce ∧ v = lowByte t.Value ∧ tm = lowByte t.Time then
      some (Fin.ofNat a.val)
    else none
  | _ => none

/-- A stand-in for `json.Marshal` on a signed transaction. -/
def demoMarshalTx (tx : SignedTx) : List Byte :=
  [lowByte tx.Nonce, lowByte tx.Value, lowByte tx.From.val, lowByte tx.To.val,
   lowByte tx.Time, lowByte tx.Gas, lowByte tx.GasPrice] ++ tx.Sig

/-- A stand-in for `json.Marshal` on a block; the nonce of the header comes first. -/
def demoMarshalBlock (b : Block) : List Byte :=
  [lowByte (b.Header.Nonce / 65536), lowByte (b.Header.Nonce / 256), lowByte b.Header.Nonce,
   lowByte b.Header.Number, lowByte b.Header.Miner.val, lowByte b.Header.Time] ++
    b.Header.Parent.bytes ++ (b.Txs.map demoMarshalTx).flatten

/-- A stand-in for `sha256.Sum256`: the first 32 bytes of the input, padded with zeros. -/
def demoDigest (l : List Byte) : Hash :=
  ⟨(l ++ List.replicate 32 0).take 32, by simp⟩

/-- The stand-ins together. -/
def demoPrimitives : Primitives :=
  { jsonMarshalTx := fun tx => .ok (demoMarshalTx tx)
    jsonMarshalBlock := fun b => .ok (demoMarshalBlock b)
    sha256Sum256 := demoDigest
    recoverSigner := demoRecoverSigner }

/-- The environment of the examples. -/
def demoEnv : Env := specEnv demoPrimitives

/-- The account of the sender of the test transactions. -/
def spongebob : Address := 1

/-- The account of the receiver of the test transactions. -/
def patrick : Address := 2

/-- A transaction signed by its sender with the stand-in signature. -/
def demoSignTx (t : Tx) : SignedTx := { toTx := t, Sig := demoSig t.From t }

/-- The transaction `tx1` of the test: 1 coin from spongebob to patrick, nonce 1. -/
def signedTx1 : SignedTx :=
  demoSignTx { From := spongebob, To := patrick, Value := 1, Nonce := 1, Data := "",
               Time := 10, Gas := 0, GasPrice := 0 }

/-- The transaction `tx2` of the test: 2 coins from spongebob to patrick, nonce 2. -/
def signedTx2 : SignedTx :=
  demoSignTx { From := spongebob, To := patrick, Value := 2, Nonce := 2, Data := "",
               Time := 11, Gas := 0, GasPrice := 0 }

/-- A transaction of patrick, who owns nothing (as in `TestNode_Mining`). -/
def signedTxPoor : SignedTx :=
  demoSignTx { From := patrick, To := spongebob, Value := 50, Nonce := 1, Data := "",
               Time := 12, Gas := 0, GasPrice := 0 }

/-- The state of the test before the first block: spongebob owns 1000000 coins,
the fork is at height 35, the difficulty is 2. -/
def genesisState : State :=
  { Balances := Finmap.singleton spongebob 1000000
    Account2Nonce := ∅
    latestBlock := NewBlock Hash.zero 0 0 0 0 []
    latestBlockHash := Hash.zero
    hasGenesisBlock := false
    HashCache := ∅
    HeightCache := ∅
    dbFile := some []
    miningDifficulty := 2
    forkTIP1 := 35 }

/-- The peer of the test. -/
def demoPeer : PeerNode := NewPeerNode "127.0.0.1" 8085 false 0 true

/-- The node of patrick once `Run` has loaded the state, mining. -/
def node0 : Node :=
  { dataDir := "/tmp/test"
    info := NewPeerNode "127.0.0.1" 8085 false patrick true
    state := genesisState
    pendingState := specCopy genesisState
    knownPeers := ∅
    pendingTXs := ∅
    archivedTXs := ∅
    newSyncedBlocks := []
    newPendingTXs := []
    miningDifficulty := 2
    isMining := true }

/-- The node after `AddPendingTX(signedTx1)`. -/
def node1 : Node := (AddPendingTX demoEnv node0 signedTx1 demoPeer).1

/-- The node after `AddPendingTX(signedTx1)` and `AddPendingTX(signedTx2)`. -/
def node2 : Node := (AddPendingTX demoEnv node1 signedTx2 demoPeer).1

/-- The block of the peer: number 0 on the empty chain, mined by spongebob, holding
`signedTx1`; with nonce 1 its stand-in hash starts with two zero bytes. -/
def syncedBlock : Block := NewBlock Hash.zero 0 1 20 spongebob [signedTx1]

/-- A block that does not fit the empty chain (its number is 7). -/
def strayBlock : Block := NewBlock Hash.zero 7 1 20 spongebob [signedTx1]

/-- The node after the block of the peer went through `removeMinedPendingTXs` and `addBlock`. -/
def node3 : Node := (addBlock demoEnv (removeMinedPendingTXs demoEnv node2 syncedBlock) syncedBlock).1

/-- The node `node1` with 10000 transactions waiting in the channel `newPendingTXs`,
as many as its buffer holds. -/
def fullNode : Node := { node1 with newPendingTXs := List.replicate newPendingTXsCap signedTx1 }

/-- A block without transactions that fits the empty chain. -/
def emptyBlock : Block := NewBlock Hash.zero 0 1 20 spongebob []

/-- The node `node1` after `addBlock(emptyBlock)`: `signedTx1` is still in the
mempool and the pending state is a fresh copy of the confirmed state. -/
def nodeReset : Node := (addBlock demoEnv node1 emptyBlock).1

/-! ## database/block.go : the textual form of a hash -/

/-- The method `Hash.MarshalText`: the bytes of `h.Hex()` and a nil error. -/
def Hash.MarshalText (h : Hash) : List Char × Option Error := (h.Hex.toList, none)

/-- The method `Hash.UnmarshalText`: `_, err := hex.Decode(h[:], data)`; the
receiver it leaves and the error, `none` when `hex.Decode` panics. -/
def Hash.UnmarshalText (h : Hash) (data : List Char) : Option (Hash × Option HexError) :=
  (hexDecode h data).map (fun r => (r.1, r.2.2))

/-- The method `Hash.IsEmpty`. -/
def Hash.IsEmpty (h : Hash) : Bool := decide (Hash.zero.bytes = h.bytes)

/-- The digits of lower-case hexadecimal notation. -/
def lowerHexDigits : List Char := "0123456789abcdef".toList

/-! ## database/block.go : the gas reward -/

/-- The method `Block.GasReward`: the costs `tx.GasCost()` added up in a `uint`. -/
def Block.GasReward (b : Block) : Nat :=
  b.Txs.foldl (fun reward tx => (reward + tx.GasCost) % uintSize) 0

/-! ## node/miner.go

The file is not among the sources at hand; the miner is modelled from the
specification (section 4.3). -/

/-- Modelled from the spec: the type `PendingBlock` of `node/miner.go`, the
template `{parent, number, miner, txs, time}` of the block to mine. -/
structure PendingBlock where
  parent : Hash
  number : Nat
  time : Nat
  miner : Address
  txs : List SignedTx
deriving DecidableEq

/-- Modelled from the spec: the function `NewPendingBlock` of `node/miner.go`; the
time of the template is the time `now` of the call. -/
def NewPendingBlock (now : Nat) (parent : Hash) (number : Nat) (miner : Address)
    (txs : List SignedTx) : PendingBlock :=
  { parent := parent, number := number, time := now, miner := miner, txs := txs }

/-- The ways a run of the miner ends: with a block and no error, with an error,
with the panic of an index out of range, or not yet (the attempts granted to the
run are used up and the search goes on). -/
inductive MineResult where
  | mined (block : Block)
  | failed (err : Error)
  | panicked
  | searching
deriving DecidableEq

/-- The size of the Go type `uint32`, the type of the nonce of a block header. -/
def uint32Size : Nat := 2 ^ 32

/-- Modelled from the spec: the loop of `Mine` from attempt `i` on. The cancellation
signal is looked at once per attempt (`cancelled i` tells whether it has fired by
attempt `i`); the nonce of the header goes from 0 upward in a `uint32`; the block
hash is recomputed and the first block whose hash satisfies the proof-of-work
predicate is returned. -/
def specMineLoop (P : Primitives) (cancelled : Nat → Bool) (pb : PendingBlock)
    (miningDifficulty : Nat) : (attempts : Nat) → (i : Nat) → MineResult
  | 0, _ => MineResult.searching
  | attempts + 1, i =>
    if cancelled i then MineResult.failed Error.Canceled
    else
      let block := NewBlock pb.parent pb.number (i % uint32Size) pb.time pb.miner pb.txs
      match block.Hash P with
      | (_, some err) => MineResult.failed err
      | (hash, none) =>
        match IsBlockHashValid hash miningDifficulty with
        | none => MineResult.panicked
        | some true => MineResult.mined block
        | some false => specMineLoop P cancelled pb miningDifficulty attempts (i + 1)

/-- Modelled from the spec: the function `Mine(ctx, pb, miningDifficulty)` of
`node/miner.go`, run for at most `attempts` nonces. -/
def specMine (P : Primitives) (cancelled : Nat → Bool) (pb : PendingBlock)
    (miningDifficulty : Nat) (attempts : Nat) : MineResult :=
  specMineLoop P cancelled pb miningDifficulty attempts 0

/-! ## database/database.go : reading the block log -/

/-- The files of the machine by path, and the number of file handles that are open. -/
structure OS where
  files : String → Option (List Byte)
  openHandles : Nat

/-- An open file: its content and the offset of the next read. -/
structure File where
  content : List Byte
  offset : Nat
deriving DecidableEq

/-- Modelled from the spec: the function `getBlocksDbFilePath` of `database/fs.go`
(not at hand): the block log is `<datadir>/database/block.db`. -/
def getBlocksDbFilePath (dataDir : String) : String := dataDir ++ "/database/block.db"

/-- The call `os.OpenFile(path, os.O_RDONLY, 0600)`: a new handle on the file, or
an error when there is no file at the path. -/
def OS.OpenFile (os : OS) (path : String) : Except Error (OS × File) :=
  match os.files path with
  | none => .error Error.IOFailure
  | some content => .ok ({ os with openHandles := os.openHandles + 1 }, ⟨content, 0⟩)

/-- The call `f.Close()`. -/
def OS.Close (os : OS) : OS := { os with openHandles := os.openHandles - 1 }

/-- The call `f.Seek(off, 0)` for an offset that is not negative. -/
def File.Seek (f : File) (off : Nat) : File := { f with offset := off }

/-- The bytes of the file that are still to be read. -/
def File.unread (f : File) : List Byte := f.content.drop f.offset

/-- The line feed. -/
def lineFeed : Byte := 10

/-- The carriage return. -/
def carriageReturn : Byte := 13

/-- The constant `bufio.MaxScanTokenSize`. -/
def MaxScanTokenSize : Nat := 64 * 1024

/-- The segments of a list between the occurrences of a separator (one more than
there are separators), as `strings.Split` and the line splitting see them. -/
def splitSep {α : Type} [DecidableEq α] (sep : α) : List α → List (List α)
  | [] => [[]]
  | a :: rest =>
    if a = sep then [] :: splitSep sep rest
    else
      match splitSep sep rest with
      | [] => [[a]]
      | s :: ss => (a :: s) :: ss

/-- The function `dropCR` of `bufio`: a trailing carriage return is dropped. -/
def dropCR (data : List Byte) : List Byte :=
  if data.getLast? = some carriageReturn then data.dropLast else data

/-- The lines of the input as `bufio.ScanLines` delimits them, end-of-line markers
apart: the segments between line feeds, without the last one when it is empty. -/
def scanLines (data : List Byte) : List (List Byte) :=
  let segs := splitSep lineFeed data
  if segs.getLast? = some [] then segs.dropLast else segs

/-- The errors of a `bufio.Scanner`. -/
inductive ScanError where
  | ErrTooLong
deriving DecidableEq, Repr

/-- A `bufio.Scanner` with the split function `ScanLines` and the default buffer,
on input that is read without I/O error. `tokens` are the values of
`scanner.Bytes()` after the successive calls of `scanner.Scan()` that return
true; after them `Scan` returns false and `scanner.Err()` returns `err`. While
`Scan` returns true, `Err()` is nil. -/
structure Scanner where
  tokens : List (List Byte)
  err : Option ScanError
deriving DecidableEq

/-- The call `bufio.NewScanner(f)`. A line is yielded without its end-of-line
marker. A line of `MaxScanTokenSize` bytes or more does not fit in the buffer
of the scanner: there `Scan` returns false for good and the error is
`ErrTooLong`. -/
def NewScanner (f : File) : Scanner :=
  let lines := scanLines f.unread
  let fitting := lines.takeWhile (fun line => decide (line.length < MaxScanTokenSize))
  { tokens := fitting.map dropCR
    err := if fitting.length < lines.length then some ScanError.ErrTooLong else none }

/-- The zero value `BlockFS{}`. -/
def BlockFS.zero : BlockFS := ⟨Hash.zero, NewBlock Hash.zero 0 0 0 0 []⟩

/-- The decoding of a line of the block log, taken as given:
`json.Unmarshal(line, &blockFS)` for a variable `blockFS` that holds the zero
value; the value it leaves in the variable and the error. -/
structure Json where
  unmarshalBlockFS : List Byte → BlockFS × Option Error

/-- The `for scanner.Scan()` loop of `GetBlocksAfter` on the lines still to come;
the result is the pair returned when the loop is left (`none` is a nil slice).
The check of `scanner.Err()` in the body finds nil. -/
def getBlocksAfterLoop (J : Json) (blockHash : Hash) :
    List (List Byte) → Bool → List Block → Option (List Block) × Option Error
  | [], _, blocks => (some blocks, none)
  | line :: rest, shouldStartCollecting, blocks =>
    match J.unmarshalBlockFS line with
    | (_, some err) => (none, some err)
    | (blockFS, none) =>
      if shouldStartCollecting then
        getBlocksAfterLoop J blockHash rest true (blocks ++ [blockFS.Value])
      else if blockHash = blockFS.Key then
        getBlocksAfterLoop J blockHash rest true blocks
      else
        getBlocksAfterLoop J blockHash rest false blocks

/-- The function `GetBlocksAfter(blockHash, dataDir)`. The file is opened and not
closed; when `Scan` returns false the loop is left and `blocks, nil` is returned
without a look at `scanner.Err()`. -/
def GetBlocksAfter (J : Json) (os : OS) (blockHash : Hash) (dataDir : String) :
    OS × Option (List Block) × Option Error :=
  match os.OpenFile (getBlocksDbFilePath dataDir) with
  | .error err => (os, none, some err)
  | .ok (os1, f) =>
    let shouldStartCollecting := decide (blockHash = Hash.zero)
    let scanner := NewScanner f
    (os1, getBlocksAfterLoop J blockHash scanner.tokens shouldStartCollecting [])

/-- The first lines of `GetBlockByHeightOrHash`: the offset `key` and the flag `ok`
after `key, ok := state.HeightCache[height]` and, for a hash that is not empty,
`key, ok = state.HashCache[hash]`. -/
def cacheLookup (state : State) (height : Nat) (hash : String) : Nat × Bool :=
  let r := ((state.HeightCache.lookup height).getD 0, (state.HeightCache.lookup height).isSome)
  if hash ≠ "" then
    ((state.HashCache.lookup hash).getD 0, (state.HashCache.lookup hash).isSome)
  else r

/-- The function `GetBlockByHeightOrHash(state, height, hash, dataDir)`. The error
of an unknown hash or height is of the kind `NotFound`. The file is closed
on return (`defer f.Close()`); when `Scan` returns false the zero record is
returned with a nil error. -/
def GetBlockByHeightOrHash (J : Json) (os : OS) (state : State) (height : Nat) (hash : String)
    (dataDir : String) : OS × BlockFS × Option Error :=
  let block := BlockFS.zero
  match cacheLookup state height hash with
  | (_, false) =>
    if hash ≠ "" then (os, block, some Error.NotFound)
    else (os, block, some Error.NotFound)
  | (key, true) =>
    match os.OpenFile (getBlocksDbFilePath dataDir) with
    | .error err => (os, block, some err)
    | .ok (os1, f) =>
      let scanner := NewScanner (f.Seek key)
      match scanner.tokens with
      | [] => (os1.Close, block, none)
      | line :: _ =>
        match J.unmarshalBlockFS line with
        | (b, some err) => (os1.Close, b, some err)
        | (b, none) => (os1.Close, b, none)

/-- The bytes of a block log whose lines are `lines`, each followed by a line feed. -/
def logBytes (lines : List (List Byte)) : List Byte :=
  (lines.map (fun line => line ++ [lineFeed])).flatten

/-- A well-formed block log: line by line, the JSON records `recs`; a line holds
no line feed, does not end with a carriage return, and decodes to its record. -/
def WellFormedLog (J : Json) (lines : List (List Byte)) (recs : List BlockFS) : Prop :=
  List.Forall₂ (fun line rec => lineFeed ∉ line ∧ dropCR line = line ∧
    J.unmarshalBlockFS line = (rec, none)) lines recs

/-- The blocks of the records that come after the first record with the key `h`
(of all records for the empty hash), in the order of the log. -/
def blocksAfter (h : Hash) (recs : List BlockFS) : List Block :=
  if h = Hash.zero then recs.map (fun r => r.Value)
  else ((recs.dropWhile (fun r => decide (r.Key ≠ h))).drop 1).map (fun r => r.Value)
/-! ## Fixtures for the miner -/

/-- The template the miner of the test gets: `signedTx1` on the empty chain. -/
def demoPendingBlock : PendingBlock := NewPendingBlock 20 Hash.zero 0 spongebob [signedTx1]

/-- A context that is never cancelled. -/
def neverCancelled : Nat → Bool := fun _ => false

/-! ## Fixtures for the block log -/

/-- An empty block with number `n` and nonce 1. -/
def demoBlock (n : Nat) : Block := NewBlock Hash.zero n 1 0 0 []

/-- The record of `demoBlock n`, under the hash of the block. -/
def demoRecord (n : Nat) : BlockFS := ⟨((demoBlock n).Hash demoPrimitives).1, demoBlock n⟩

/-- A stand-in for the decoding of a line of the log: the first byte of the line is
the number of the block of the record; an empty line does not decode. -/
def demoUnmarshalBlockFS (line : List Byte) : BlockFS × Option Error :=
  match line with
  | [] => (BlockFS.zero, some Error.IOFailure)
  | n :: _ => (demoRecord n.val, none)

/-- The stand-in decoder. -/
def demoJson : Json := ⟨demoUnmarshalBlockFS⟩

/-- The line of the record of block `n`: the number and a closing brace. -/
def demoLine (n : Nat) : List Byte := [lowByte n, 125]

/-- A line of 65537 bytes for the record of block `n`: the number, blanks and a
closing brace. -/
def demoLongLine (n : Nat) : List Byte := (lowByte n :: List.replicate 65535 32) ++ [125]

/-- A machine whose block log under the data directory `data` has the given content. -/
def demoOS (content : List Byte) : OS :=
  { files := fun path => if path = getBlocksDbFilePath "data" then some content else none
    openHandles := 0 }

/-- The lines of a log of three short records. -/
def demoLines : List (List Byte) := [demoLine 0, demoLine 1, demoLine 2]

/-- The records of `demoLines`. -/
def demoRecs : List BlockFS := [demoRecord 0, demoRecord 1, demoRecord 2]

/-- The lines of a log whose second record takes a line of more than 64 KiB. -/
def longLines : List (List Byte) := [demoLine 0, demoLongLine 1]

/-- The records of `longLines`. -/
def longRecs : List BlockFS := [demoRecord 0, demoRecord 1]

/-- A state whose two indexes hold, for block 1 of `longLines`, the offset 3 at
which its record starts. -/
def longIndexState : State :=
  { genesisState with
      HeightCache := Finmap.singleton 1 3
      HashCache := Finmap.singleton (demoRecord 1).Key.Hex 3 }

/-- A state whose two indexes hold, for block 1 of `demoLines`, the offset 3 at
which its record starts. -/
def demoIndexState : State :=
  { genesisState with
      HeightCache := Finmap.singleton 1 3
      HashCache := Finmap.singleton (demoRecord 1).Key.Hex 3 }

/-! ## node/reqRes.go and node/handlers.go -/

/-- The errors of `strconv`. -/
inductive NumError where
  | ErrSyntax
  | ErrRange
deriving DecidableEq, Repr

/-- A Go `error` value that reaches a handler: one made from a text by `errors.New`
or `fmt.Errorf`, or an error of the `database` package, of `encoding/hex` or
of `strconv`. -/
inductive ErrValue where
  | New (text : String)
  | Database (err : Error)
  | Hex (err : HexError)
  | Num (err : NumError)
deriving DecidableEq

/-- The values the handlers encode as JSON into the body of a response. -/
inductive Content where
  | ErrRes (Error : ErrValue)
  | BlockFS (block : BlockFS)
  | SyncRes (Blocks : Option (List Block))
  | TxAddRes (Success : Bool)
deriving DecidableEq

/-- An `http.ResponseWriter`: the header map, the status code once it is written,
and the JSON documents written to the body, in order. -/
structure ResponseWriter where
  header : GoMap String String
  status : Option Nat
  body : List Content
deriving DecidableEq

/-- The call `w.Header().Set(key, value)`. -/
def ResponseWriter.SetHeader (w : ResponseWriter) (key value : String) : ResponseWriter :=
  { w with header := w.header.insert key value }

/-- The call `w.WriteHeader(code)`: the first status code written is the one of the
response, a later call changes nothing. -/
def ResponseWriter.WriteHeader (w : ResponseWriter) (code : Nat) : ResponseWriter :=
  match w.status with
  | some _ => w
  | none => { w with status := some code }

/-- The call `w.Write(json)` with the encoding of `content`: the status 200 is
written first if none was written yet. -/
def ResponseWriter.Write (w : ResponseWriter) (content : Content) : ResponseWriter :=
  let w1 := w.WriteHeader 200
  { w1 with body := w1.body ++ [content] }

/-- The constants `http.StatusBadRequest` and `http.StatusOK`. -/
def StatusBadRequest : Nat := 400

/-- The constant `http.StatusOK`. -/
def StatusOK : Nat := 200

/-- The encoding of the responses, taken as given: the error of
`json.Marshal(content)`, `none` when the content encodes. -/
structure ResCodec where
  marshalError : Content → Option ErrValue

/-- The function `writeErrRes`. -/
def writeErrRes (w : ResponseWriter) (err : ErrValue) : ResponseWriter :=
  ((w.SetHeader "Content-Type" "application/json").WriteHeader StatusBadRequest).Write
    (Content.ErrRes err)

/-- The function `writeRes`. -/
def writeRes (M : ResCodec) (w : ResponseWriter) (content : Content) : ResponseWriter :=
  match M.marshalError content with
  | some err => writeErrRes w err
  | none =>
    ((w.SetHeader "Content-Type" "application/json").WriteHeader StatusOK).Write content

/-- The function `enableCors`. -/
def enableCors (w : ResponseWriter) : ResponseWriter :=
  w.SetHeader "Access-Control-Allow-Origin" "*"

/-- The function `unicode.IsSpace`. -/
def isSpace (c : Char) : Bool :=
  let n := c.toNat
  (9 ≤ n && n ≤ 13) || n == 32 || n == 0x85 || n == 0xA0 || n == 0x1680 ||
  (0x2000 ≤ n && n ≤ 0x200a) || n == 0x2028 || n == 0x2029 || n == 0x202f ||
  n == 0x205f || n == 0x3000

/-- The function `strings.TrimSpace`. -/
def TrimSpace (s : List Char) : List Char :=
  ((s.dropWhile isSpace).reverse.dropWhile isSpace).reverse

/-- The largest `uint64`. -/
def maxUint64 : Nat := 2 ^ 64 - 1

/-- The loop of `strconv.ParseUint(s, 10, 64)` over the characters still to read,
`n` being the number read so far. -/
def parseUintLoop : List Char → Nat → Nat × Option NumError
  | [], n => (n, none)
  | c :: rest, n =>
    if '0' ≤ c ∧ c ≤ '9' then
      if maxUint64 / 10 + 1 ≤ n then (maxUint64, some NumError.ErrRange)
      else
        let n1 := n * 10 + (c.toNat - '0'.toNat)
        if maxUint64 < n1 then (maxUint64, some NumError.ErrRange)
        else parseUintLoop rest n1
    else (0, some NumError.ErrSyntax)

/-- The call `strconv.ParseUint(s, 10, 64)`. -/
def ParseUint (s : List Char) : Nat × Option NumError :=
  if s = [] then (0, some NumError.ErrSyntax) else parseUintLoop s 0

/-- The end of `getBlockByNumberOrHashHandler`: the response to the result of the
lookup. -/
def blockResponse (M : ResCodec) (w : ResponseWriter) (r : OS × BlockFS × Option Error) :
    OS × ResponseWriter :=
  match r with
  | (os, _, some err) => (os, writeErrRes w (ErrValue.Database err))
  | (os, block, none) => (os, writeRes M w (Content.BlockFS block))

/-- The error `errorParamsRequired` of `getBlockByNumberOrHashHandler`. -/
def errorParamsRequired : ErrValue := ErrValue.New "height or hash param is required"

/-- The function `getBlockByNumberOrHashHandler` for a request with the URL path
`urlPath`. -/
def getBlockByNumberOrHashHandler (J : Json) (M : ResCodec) (os : OS) (w : ResponseWriter)
    (urlPath : String) (node : Node) : OS × ResponseWriter :=
  let w := enableCors w
  let params := (splitSep '/' urlPath.toList).drop 1
  if params.length < 2 then (os, writeErrRes w errorParamsRequired)
  else
    let p := TrimSpace (params.getD 1 [])
    if p.length = 0 then (os, writeErrRes w errorParamsRequired)
    else
      let r := ParseUint p
      let hash := if r.2.isSome then String.mk p else ""
      blockResponse M w (GetBlockByHeightOrHash J os node.state r.1 hash node.dataDir)

/-! ## Fixtures for the handlers -/

/-- A response writer on which nothing has been written. -/
def emptyWriter : ResponseWriter := { header := ∅, status := none, body := [] }

/-- A response encoding that never fails. -/
def demoResCodec : ResCodec := ⟨fun _ => none⟩

/-- A node whose data directory is `data` and whose state indexes block 1 of
`demoLines`. -/
def explorerNode : Node := { node0 with dataDir := "data", state := demoIndexState }

/-! ## node/node.go : the block template and the creation of a node -/

/-- The zero value `SignedTx{}`. -/
def SignedTx.zero : SignedTx :=
  { From := 0, To := 0, Value := 0, Nonce := 0, Data := "", Time := 0, Gas := 0, GasPrice := 0,
    Sig := [] }

/-- A `for ... range m` loop over a Go map visits every entry of the map once, in
an order that the language leaves open: `order` is such a visit of `m`. -/
def IsRangeOf {V : Type} (order : List (Sigma (fun _ : String => V))) (m : GoMap String V) :
    Prop :=
  (order : Multiset (Sigma (fun _ : String => V))) = m.entries

instance {V : Type} [DecidableEq V] (order : List (Sigma (fun _ : String => V)))
    (m : GoMap String V) : Decidable (IsRangeOf order m) := by
  unfold IsRangeOf
  infer_instance

/-- The body `txs[i] = tx; i++` of the loop of `Node.getPendingTXsAsArray`, on the
pair of `txs` and `i`; `none` is the panic of an index out of range. -/
def pendingTXsStep (st : List SignedTx × Nat) (entry : Sigma (fun _ : String => SignedTx)) :
    Option (List SignedTx × Nat) :=
  if st.2 < st.1.length then some (st.1.set st.2 entry.2, st.2 + 1) else none

/-- The method `Node.getPendingTXsAsArray`, for the order in which the `range` loop
visits the mempool. -/
def getPendingTXsAsArray (n : Node) (order : List (Sigma (fun _ : String => SignedTx))) :
    Option (List SignedTx) :=
  let txs := List.replicate n.pendingTXs.keys.card SignedTx.zero
  (order.foldlM pendingTXsStep (txs, 0)).map Prod.fst

/-- The size of the Go type `uint64`, the type of the number of a block. -/
def uint64Size : Nat := 2 ^ 64

/-- The template `blockToMine` of `Node.minePendingTXs`. The function
`NewPendingBlock` of `node/miner.go` is taken as given. -/
def blockToMine {PB : Type} (newPendingBlock : Hash → Nat → Address → List SignedTx → PB)
    (n : Node) (order : List (Sigma (fun _ : String => SignedTx))) : Option PB :=
  (getPendingTXsAsArray n order).map (fun txs =>
    newPendingBlock n.state.latestBlockHash
      ((n.state.latestBlock.Header.Number + 1) % uint64Size) n.info.Account txs)

/-- The method `Node.minePendingTXs`. The functions `NewPendingBlock` and `Mine` of
`node/miner.go` are taken as given: `mine pb difficulty` is what the call
`Mine(ctx, pb, difficulty)` returns. -/
def minePendingTXs {PB : Type} (E : Env)
    (newPendingBlock : Hash → Nat → Address → List SignedTx → PB)
    (mine : PB → Nat → Block × Option Error) (n : Node)
    (order : List (Sigma (fun _ : String => SignedTx))) : Option (Node × Option Error) :=
  match blockToMine newPendingBlock n order with
  | none => none
  | some pb =>
    match mine pb n.miningDifficulty with
    | (_, some err) => some (n, some err)
    | (minedBlock, none) =>
      some (addBlock E (removeMinedPendingTXs E n minedBlock) minedBlock)

/-- The function `New`. The fields `state` and `pendingState`, nil in the value
that `New` returns, hold the states that `Run` assigns to them before the node
serves a call. -/
def New (dataDir : String) (ip : String) (port : Nat) (acc : Address) (bootstrap : PeerNode)
    (miningDifficulty : Nat) (state pendingState : State) : Node :=
  { dataDir := dataDir
    info := NewPeerNode ip port false acc true
    state := state
    pendingState := pendingState
    knownPeers := (∅ : GoMap String PeerNode).insert bootstrap.TcpAddress bootstrap
    pendingTXs := ∅
    archivedTXs := ∅
    newSyncedBlocks := []
    newPendingTXs := []
    miningDifficulty := miningDifficulty
    isMining := false }

/-- A call that writes the mempool or the archive of a node. -/
inductive MempoolCall where
  | AddPendingTX (tx : SignedTx) (fromPeer : PeerNode)
  | removeMinedPendingTXs (block : Block)

/-- The node after a call. -/
def MempoolCall.run (E : Env) (n : Node) : MempoolCall → Node
  | .AddPendingTX tx fromPeer => (GoBlockchain.AddPendingTX E n tx fromPeer).1
  | .removeMinedPendingTXs block => GoBlockchain.removeMinedPendingTXs E n block

/-- The node after a sequence of calls. -/
def runCalls (E : Env) (n : Node) (calls : List MempoolCall) : Node :=
  calls.foldl (MempoolCall.run E) n

/-- The visit of the mempool of `node2` that meets `signedTx2` first. -/
def node2Order : List (Sigma (fun _ : String => SignedTx)) :=
  [⟨txKey demoEnv signedTx2, signedTx2⟩, ⟨txKey demoEnv signedTx1, signedTx1⟩]

/-- The visit of the mempool of `node1`. -/
def node1Order : List (Sigma (fun _ : String => SignedTx)) :=
  [⟨txKey demoEnv signedTx1, signedTx1⟩]

/-! ## node/handlers.go : the handlers of `/node/sync` and of `/tx/add` -/

/-- The constant `http.StatusInternalServerError`. -/
def StatusInternalServerError : Nat := 500

/-- The function `syncHandler` for a request whose query parameter `fromBlock` has
the bytes `reqHash`; `none` is the panic of `hex.Decode` on a text too long
for a hash. -/
def syncHandler (J : Json) (M : ResCodec) (os : OS) (w : ResponseWriter) (reqHash : List Char)
    (node : Node) : Option (OS × ResponseWriter) :=
  match Hash.zero.UnmarshalText reqHash with
  | none => none
  | some (_, some err) => some (os, writeErrRes w (ErrValue.Hex err))
  | some (hash, none) =>
    match GetBlocksAfter J os hash node.dataDir with
    | (os1, _, some err) => some (os1, writeErrRes w (ErrValue.Database err))
    | (os1, blocks, none) => some (os1, writeRes M w (Content.SyncRes blocks))

/-- The Go type `TxAddReq`. -/
structure TxAddReq where
  From : String
  FromPwd : String
  To : String
  Gas : Nat
  GasPrice : Nat
  Value : Nat
  Data : String
deriving DecidableEq

/-- The zero value `TxAddReq{}`. -/
def TxAddReq.zero : TxAddReq :=
  { From := "", FromPwd := "", To := "", Gas := 0, GasPrice := 0, Value := 0, Data := "" }

/-- An `http.Request` as `txAddHandler` sees it: what `ioutil.ReadAll(r.Body)` returns. -/
structure Request where
  body : Except ErrValue (List Byte)

/-- The library functions and the functions of `database/tx.go` and
`database/state.go` that `txAddHandler` calls, taken as given:
`err.Error()`, `json.Unmarshal` into a `TxAddReq`, `database.NewAccount`,
`common.HexToAddress`, `Address.String`, `State.GetNextAccountNonce`,
`database.NewTx`, `filepath.Join`, and the signing with the key of the
keystore done by `wallet.SignTxWithKeystoreAccount`. -/
structure TxAddEnv where
  errorText : ErrValue → String
  unmarshalTxAddReq : List Byte → TxAddReq → TxAddReq × Option ErrValue
  NewAccount : String → Address
  HexToAddress : String → Address
  addressString : Address → String
  GetNextAccountNonce : State → Address → Nat
  NewTx : Address → Address → Nat → Nat → Nat → Nat → String → Tx
  filepathJoin : String → String → String
  SignTxWithKeystoreAccount : Tx → Address → String → String → SignedTx × Option ErrValue

/-- The function `readReq` for a `TxAddReq`: the request it leaves in `reqBody`
and the error. -/
def readReq (T : TxAddEnv) (r : Request) (reqBody : TxAddReq) : TxAddReq × Option ErrValue :=
  match r.body with
  | .error err =>
    (reqBody, some (ErrValue.New ("unable to read request body: " ++ T.errorText err)))
  | .ok reqBodyJson =>
    match T.unmarshalTxAddReq reqBodyJson reqBody with
    | (req, some err) =>
      (req, some (ErrValue.New ("unable to umarshal request body: " ++ T.errorText err)))
    | (req, none) => (req, none)

/-- The constant `keystoreDirName` of `wallet/wallet.go`. -/
def keystoreDirName : String := "keystore"

/-- The function `wallet.GetKeystoreDirPath`. -/
def GetKeystoreDirPath (T : TxAddEnv) (dataDir : String) : String :=
  T.filepathJoin dataDir keystoreDirName

/-- The function `txAddHandler`: the node and the response it leaves. After
`err = node.AddPendingTX(signedTx, node.info)` an error is written with
`writeErrRes` and the function goes on to `writeRes(w, TxAddRes{Success: true})`.
While the call of `AddPendingTX` waits in its send, nothing is written on the
response. -/
def txAddHandler (E : Env) (M : ResCodec) (T : TxAddEnv) (w : ResponseWriter) (r : Request)
    (node : Node) : Node × ResponseWriter :=
  match readReq T r TxAddReq.zero with
  | (_, some err) => (node, writeErrRes w err)
  | (req, none) =>
    let sender := T.NewAccount req.From
    if T.addressString sender = T.addressString (T.HexToAddress "") then
      (node, writeErrRes w
        (ErrValue.New (T.addressString sender ++ " is an invalid \x27from\x27 sender")))
    else if req.FromPwd = "" then
      (node, writeErrRes w
        (ErrValue.New ("password to decrypt the " ++ T.addressString sender ++
          " acount is required. \x27from_pwd\x27 is empty")))
    else
      let gas := if req.Gas = 0 then 1 else req.Gas
      let gasPrice := if req.GasPrice = 0 then 21 else req.GasPrice
      let nonce := T.GetNextAccountNonce node.state sender
      let tx := T.NewTx sender (T.NewAccount req.To) gas gasPrice req.Value nonce req.Data
      match T.SignTxWithKeystoreAccount tx sender req.FromPwd
          (GetKeystoreDirPath T node.dataDir) with
      | (_, some err) => (node, writeErrRes w err)
      | (signedTx, none) =>
        match AddPendingTX E node signedTx node.info with
        | (node1, Completion.blocked) => (node1, w)
        | (node1, Completion.returned (some err)) =>
          (node1, writeRes M (writeErrRes w (ErrValue.Database err)) (Content.TxAddRes true))
        | (node1, Completion.returned none) => (node1, writeRes M w (Content.TxAddRes true))

/-- The call `database.GetBlockByHeightOrHash(node.state, height, hash, node.dataDir)`
of `getBlockByNumberOrHashHandler` for the trimmed segment `p`: `height` is what
`strconv.ParseUint(p, 10, 64)` returns, and `hash` is `p` when `ParseUint`
returns an error, the empty string when it does not. -/
def blockLookup (J : Json) (os : OS) (node : Node) (p : List Char) :
    OS × BlockFS × Option Error :=
  let r := ParseUint p
  GetBlockByHeightOrHash J os node.state r.1 (if r.2.isSome then String.mk p else "")
    node.dataDir

/-! ## Fixtures for the handlers of `/node/sync` and of `/tx/add` -/

/-- A machine on which there is no block log. -/
def noLogOS : OS := { files := fun _ => none, openHandles := 0 }

/-- The name under which a stand-in request names the account with the given number. -/
def demoAccountName (b : Byte) : String :=
  if b = 1 then "spongebob" else if b = 2 then "patrick" else ""

/-- A stand-in for `database.NewAccount`. -/
def demoNewAccount (name : String) : Address :=
  if name = "spongebob" then spongebob else if name = "patrick" then patrick else 0

/-- A stand-in for the decoding of the body of a `/tx/add` request: three bytes for
the sender, the receiver and the value. -/
def demoUnmarshalTxAddReq (body : List Byte) (req : TxAddReq) : TxAddReq × Option ErrValue :=
  match body with
  | [f, t, v] =>
    ({ req with From := demoAccountName f, FromPwd := "security123", To := demoAccountName t,
                Value := v.val }, none)
  | _ => (req, some (ErrValue.New "unexpected end of JSON input"))

/-- Modelled from the spec: `nonce = account_nonce + 1` (section 7, `/tx/add`), the
method `State.GetNextAccountNonce` of `database/state.go`. -/
def specGetNextAccountNonce (s : State) (account : Address) : Nat :=
  (s.Account2Nonce.at account + 1) % uintSize

/-- The stand-ins of the `/tx/add` examples; a transaction is stamped with the time 12
and signed with the stand-in signature of the account. -/
def demoTxAddEnv : TxAddEnv :=
  { errorText := fun err => match err with
      | ErrValue.New text => text
      | _ => "error"
    unmarshalTxAddReq := demoUnmarshalTxAddReq
    NewAccount := demoNewAccount
    HexToAddress := demoNewAccount
    addressString := fun a => "0x" ++ String.mk (Nat.toDigits 16 a.val)
    GetNextAccountNonce := specGetNextAccountNonce
    NewTx := fun sender receiver gas gasPrice value nonce data =>
      { From := sender, To := receiver, Value := value, Nonce := nonce, Data := data, Time := 12,
        Gas := gas, GasPrice := gasPrice }
    filepathJoin := fun dir name => dir ++ "/" ++ name
    SignTxWithKeystoreAccount := fun tx acc _ _ => ({ toTx := tx, Sig := demoSig acc tx }, none) }

/-- The request of patrick, who owns nothing, to send 50 coins to spongebob. -/
def poorRequest : Request := ⟨.ok [2, 1, 50]⟩

/-- The request of spongebob to send 1 coin to patrick. -/
def richRequest : Request := ⟨.ok [1, 2, 1]⟩

/-! ## wallet/wallet.go : signing a message and recovering the signer -/

/-- The functions that `Sign` and `Verify` call, taken as given, for the types `Priv`
of the secp256k1 private keys and `Pub` of the public keys: `sha256.Sum256`,
`crypto.Sign` and `crypto.SigToPub` of go-ethereum on the 32 bytes of a digest,
and `err.Error()`. `publicKey` is the public key of a private key
(`privKey.PublicKey`) and `PubkeyToAddress` the account that `TestSign` derives
from a public key. -/
structure Crypto (Priv Pub : Type) where
  sha256Sum256 : List Byte → Hash
  Sign : Hash → Priv → Except ErrValue (List Byte)
  SigToPub : Hash → List Byte → Except ErrValue Pub
  errorText : ErrValue → String
  publicKey : Priv → Pub
  PubkeyToAddress : Pub → Address

/-- The constant `crypto.SignatureLength`. -/
def SignatureLength : Nat := 65

/-- The function `Sign` of `wallet/wallet.go`: the signature, nil with an error, and
the error. -/
def Sign {Priv Pub : Type} (C : Crypto Priv Pub) (msg : List Byte) (privKey : Priv) :
    Option (List Byte) × Option ErrValue :=
  let msgHash := C.sha256Sum256 msg
  match C.Sign msgHash privKey with
  | .error err => (none, some err)
  | .ok sig =>
    if sig.length ≠ SignatureLength then
      (none, some (ErrValue.New ("wrong size for signature: got " ++ toString sig.length ++
        ", want " ++ toString SignatureLength)))
    else (some sig, none)

/-- The function `Verify` of `wallet/wallet.go`: the recovered public key, nil with an
error, and the error. -/
def Verify {Priv Pub : Type} (C : Crypto Priv Pub) (msg sig : List Byte) :
    Option Pub × Option ErrValue :=
  let msgHash := C.sha256Sum256 msg
  match C.SigToPub msgHash sig with
  | .error err =>
    (none, some (ErrValue.New ("unable to verify message signature: " ++ C.errorText err)))
  | .ok recoveredPubKey => (some recoveredPubKey, none)

/-- The contract of the secp256k1 functions of go-ethereum: for every private key
and every digest, `crypto.Sign` returns a signature of `SignatureLength` bytes,
and from the digest and that signature `crypto.SigToPub` recovers the public
key of the private key. -/
def Crypto.RecoversSigner {Priv Pub : Type} (C : Crypto Priv Pub) : Prop :=
  ∀ (digest : Hash) (privKey : Priv), ∃ sig : List Byte,
    C.Sign digest privKey = .ok sig ∧ sig.length = SignatureLength ∧
    C.SigToPub digest sig = .ok (C.publicKey privKey)

/-- A stand-in for the secp256k1 functions, with a byte for a key: the public key of
`k` is `k + 1`; a signature is the public key, the digest and 32 zero bytes,
and the recovery checks the digest. -/
def demoCrypto : Crypto Byte Byte :=
  { sha256Sum256 := demoDigest
    Sign := fun digest privKey =>
      .ok ((privKey + 1) :: (digest.bytes ++ List.replicate 32 0))
    SigToPub := fun digest sig =>
      match sig with
      | [] => .error (ErrValue.New "invalid signature length")
      | pub :: rest =>
        if rest = digest.bytes ++ List.replicate 32 0 then .ok pub
        else .error (ErrValue.New "invalid signature")
    errorText := fun err => match err with
      | ErrValue.New text => text
      | _ => "error"
    publicKey := fun privKey => privKey + 1
    PubkeyToAddress := fun pub => Fin.ofNat pub.val }

/-- Number of zero bytes among the first `k` bytes. -/
def Hash.zeroBytes (h : Hash) (k : Nat) : Nat := (h.bytes.take k).count 0

/-! ## Properties of the proof-of-work predicate -/

set_option maxRecDepth 100000 in
theorem sprintfX_eq_zero_iff : ∀ b : Byte, sprintfX b.val = "0" ↔ b = 0 := by
  decide

theorem Hash.index_lt (h : Hash) {i : Nat} (hi : i < 32) :
    ∃ b, h.index i = some b := by
  have : i < h.bytes.length := by rw [h.len]; exact hi
  exact ⟨h.bytes[i], by simp [Hash.index, List.getElem?_eq_getElem this]⟩

theorem Hash.index_ge (h : Hash) {i : Nat} (hi : 32 ≤ i) : h.index i = none := by
  simp [Hash.index, h.len, hi]

theorem zeroBytes_succ (h : Hash) {k : Nat} {b : Byte} (hb : h.index k = some b) :
    h.zeroBytes (k + 1) = h.zeroBytes k + (if b = 0 then 1 else 0) := by
  unfold Hash.zeroBytes Hash.index at *
  rw [List.take_succ, hb]
  simp only [Option.toList, List.count_append, List.count_singleton, beq_iff_eq]

theorem foldlM_zeroesStep (h : Hash) : ∀ k, k ≤ 32 →
    (List.range k).foldlM (zeroesStep h) 0 = some (h.zeroBytes k) := by
  intro k
  induction k with
  | zero => intro _; simp [Hash.zeroBytes]
  | succ k ih =>
    intro hk
    obtain ⟨b, hb⟩ := h.index_lt (show k < 32 by omega)
    rw [List.range_succ, List.foldlM_append, ih (by omega)]
    simp [zeroesStep, hb, zeroBytes_succ h hb, sprintfX_eq_zero_iff]
    split <;> rfl


theorem IsBlockHashValid_eq (h : Hash) {k : Nat} {b : Byte} (hk : k < 32)
    (hb : h.index k = some b) :
    IsBlockHashValid h k = some (decide (b ≠ 0 ∧ h.zeroBytes k = k)) := by
  unfold IsBlockHashValid
  rw [foldlM_zeroesStep h k (by omega)]
  simp only [Option.bind_eq_bind, Option.some_bind, hb, sprintfX_eq_zero_iff]
  by_cases hb0 : b = 0
  · simp [hb0]
  · simp [hb0]

theorem zeroBytes_eq_iff (h : Hash) {k : Nat} (hk : k ≤ 32) :
    h.zeroBytes k = k ↔ ∀ i, i < k → h.index i = some 0 := by
  unfold Hash.zeroBytes Hash.index
  have hlen : (h.bytes.take k).length = k := by simp [h.len, hk]
  constructor
  · intro hc i hi
    have hall := (List.count_eq_length (a := (0 : Byte)) (l := h.bytes.take k)).1 (by rw [hc, hlen])
    have hi2 : i < (h.bytes.take k).length := by omega
    have hmem : (h.bytes.take k)[i] ∈ h.bytes.take k := List.getElem_mem hi2
    have := hall _ hmem
    rw [List.getElem_take] at this
    rw [List.getElem?_eq_getElem (by rw [h.len]; omega)]
    rw [← this]
  · intro hall
    conv_rhs => rw [← hlen]
    rw [List.count_eq_length]
    intro b hb
    obtain ⟨i, hi, rfl⟩ := List.getElem_of_mem hb
    rw [hlen] at hi
    have := hall i hi
    rw [List.getElem?_eq_getElem (by rw [h.len]; omega)] at this
    rw [List.getElem_take]
    exact (Option.some.inj this).symm


set_option maxRecDepth 100000 in
theorem hextable_zero_iff : ∀ b : Byte,
    (hextable (b.val / 16) = '0' ∧ hextable (b.val % 16) = '0') ↔ b = 0 := by
  decide

theorem hexEncode_cons (b : Byte) (l : List Byte) :
    hexEncode (b :: l) = hextable (b.val / 16) :: hextable (b.val % 16) :: hexEncode l := by
  simp [hexEncode]

theorem hexEncode_take (l : List Byte) (k : Nat) :
    (hexEncode l).take (2 * k) = hexEncode (l.take k) := by
  induction l generalizing k with
  | nil => simp [hexEncode]
  | cons b l ih =>
    cases k with
    | zero => simp [hexEncode]
    | succ k =>
      rw [hexEncode_cons, show 2 * (k + 1) = (2 * k + 1) + 1 by ring, List.take_succ_cons,
        List.take_succ_cons, ih, List.take_succ_cons, hexEncode_cons]

theorem hexEncode_drop (l : List Byte) (k : Nat) :
    (hexEncode l).drop (2 * k) = hexEncode (l.drop k) := by
  induction l generalizing k with
  | nil => simp [hexEncode]
  | cons b l ih =>
    cases k with
    | zero => simp
    | succ k =>
      rw [hexEncode_cons, show 2 * (k + 1) = (2 * k + 1) + 1 by ring, List.drop_succ_cons,
        List.drop_succ_cons, ih, List.drop_succ_cons]

theorem hexEncode_all_zero (l : List Byte) :
    (hexEncode l).all (fun c => c == '0') = decide (l.count 0 = l.length) := by
  induction l with
  | nil => simp [hexEncode]
  | cons b l ih =>
    rw [hexEncode_cons, List.all_cons, List.all_cons, ih]
    by_cases hb : b = 0
    · subst hb
      have hd : Nat.digitChar 0 = '0' := by decide
      simp [hextable, hd]
    · have h1 : ¬ (hextable (b.val / 16) = '0' ∧ hextable (b.val % 16) = '0') :=
        fun hh => hb ((hextable_zero_iff b).1 hh)
      have h2 : List.count 0 (b :: l) ≠ (b :: l).length := by
        have := List.count_le_length (0 : Byte) l
        rw [List.count_cons_of_ne (Ne.symm hb), List.length_cons]
        omega
      have h3 : ((hextable (b.val / 16) == '0') && ((hextable (b.val % 16) == '0') &&
          decide (List.count 0 l = l.length))) = false := by
        by_cases ha : hextable (b.val / 16) = '0'
        · have hc : hextable (b.val % 16) ≠ '0' := fun hc => h1 ⟨ha, hc⟩
          simp [ha, hc]
        · simp [ha]
      rw [h3]
      simpa using h2

theorem hexBytePrefixValid_eq (h : Hash) {k : Nat} {b : Byte} (hk : k < 32)
    (hb : h.index k = some b) :
    hexBytePrefixValid h k = decide (b ≠ 0 ∧ h.zeroBytes k = k) := by
  unfold hexBytePrefixValid Hash.hexDigits
  rw [hexEncode_take, hexEncode_drop, hexEncode_all_zero]
  have hlen : (h.bytes.take k).length = k := by simp [h.len]; omega
  have hdrop : h.bytes.drop k = b :: h.bytes.drop (k + 1) := by
    unfold Hash.index at hb
    have hlt : k < h.bytes.length := by rw [h.len]; exact hk
    rw [List.getElem?_eq_getElem hlt] at hb
    rw [← Option.some.inj hb]
    exact List.drop_eq_getElem_cons hlt
  rw [hdrop, hexEncode_cons, hlen]
  unfold Hash.zeroBytes
  by_cases hb0 : b = 0
  · subst hb0
    have hd : Nat.digitChar 0 = '0' := by decide
    simp [hextable, hd]
  · have h1 : ¬ (hextable (b.val / 16) = '0' ∧ hextable (b.val % 16) = '0') :=
      fun hh => hb0 ((hextable_zero_iff b).1 hh)
    simp [hb0]
    intro _
    by_cases ha : hextable (b.val / 16) = '0'
    · exact Or.inr (fun hc => h1 ⟨ha, hc⟩)
    · exact Or.inl ha

/-- C1 (counterexample): on the hash of `TestValidBlockHash` and difficulty 2 the
code answers true although the third hex digit of the hash is `'0'`, so the
hex-digit reading of the predicate does not describe `IsBlockHashValid`. -/
theorem IsBlockHashValid_not_hexPrefixValid :
    ¬ (IsBlockHashValid testValidHash 2 = some true ↔
        hexPrefixValid testValidHash 2 = true) := by
  decide

/-- C1 (amended): for every hash and every difficulty `k < 32`, `IsBlockHashValid`
returns, and returns true exactly when the first `2 * k` hex digits of the hash are
`'0'` and the two hex digits of byte `k` are not both `'0'`, that is when the
first `k` bytes are zero and byte `k` is not. -/
theorem IsBlockHashValid_eq_hexBytePrefixValid (h : Hash) (k : Nat) (hk : k < 32) :
    IsBlockHashValid h k = some (hexBytePrefixValid h k) ∧
    (hexBytePrefixValid h k = true ↔
      (∀ i, i < k → h.index i = some 0) ∧ h.index k ≠ some 0) := by
  obtain ⟨b, hb⟩ := h.index_lt hk
  rw [IsBlockHashValid_eq h hk hb, hexBytePrefixValid_eq h hk hb]
  refine ⟨rfl, ?_⟩
  rw [decide_eq_true_iff, zeroBytes_eq_iff h (by omega), hb]
  constructor
  · rintro ⟨h0, hz⟩
    exact ⟨hz, fun hh => h0 (Option.some.inj hh)⟩
  · rintro ⟨hz, h0⟩
    exact ⟨fun hh => h0 (by rw [hh]), hz⟩

/-- C1 (witness): the amended statement at the hash of `TestValidBlockHash`, `k = 2`. -/
theorem IsBlockHashValid_eq_hexBytePrefixValid_witness :
    2 < 32 ∧
    (IsBlockHashValid testValidHash 2 = some (hexBytePrefixValid testValidHash 2) ∧
     (hexBytePrefixValid testValidHash 2 = true ↔
       (∀ i, i < 2 → testValidHash.index i = some 0) ∧ testValidHash.index 2 ≠ some 0)) :=
  ⟨by decide, IsBlockHashValid_eq_hexBytePrefixValid testValidHash 2 (by decide)⟩

/-- C2: for every difficulty `k < 32`, a hash whose first `k` bytes are zero and
whose byte `k` is not zero is valid, and a hash with a non-zero byte among its
first `k` bytes is not valid. -/
theorem IsBlockHashValid_leading_zero_bytes (h : Hash) (k : Nat) (hk : k < 32) :
    ((∀ i, i < k → h.index i = some 0) ∧ h.index k ≠ some 0 →
      IsBlockHashValid h k = some true) ∧
    ((∃ i, i < k ∧ h.index i ≠ some 0) → IsBlockHashValid h k = some false) := by
  obtain ⟨b, hb⟩ := h.index_lt hk
  have hzb := zeroBytes_eq_iff h (show k ≤ 32 by omega)
  rw [IsBlockHashValid_eq h hk hb]
  constructor
  · rintro ⟨hz, h0⟩
    have hb0 : b ≠ 0 := fun hh => h0 (by rw [hb, hh])
    rw [Option.some.injEq, decide_eq_true_iff]
    exact ⟨hb0, hzb.2 hz⟩
  · rintro ⟨i, hi, hne⟩
    rw [Option.some.injEq, decide_eq_false_iff_not]
    rintro ⟨_, hz⟩
    exact hne (hzb.1 hz i hi)

/-- C2 (witness): the two hashes of the tests, decoded from
`"0000fa04f816..."` and `"0001fa04f816..."`, at difficulty 2. -/
theorem IsBlockHashValid_leading_zero_bytes_witness :
    2 < 32 ∧
    ((∀ i, i < 2 → testValidHash.index i = some 0) ∧ testValidHash.index 2 ≠ some 0) ∧
    IsBlockHashValid testValidHash 2 = some true ∧
    (∃ i, i < 2 ∧ testInvalidHash.index i ≠ some 0) ∧
    IsBlockHashValid testInvalidHash 2 = some false :=
  ⟨by decide, by decide,
   (IsBlockHashValid_leading_zero_bytes testValidHash 2 (by decide)).1 (by decide),
   ⟨1, by decide, by decide⟩,
   (IsBlockHashValid_leading_zero_bytes testInvalidHash 2 (by decide)).2
     ⟨1, by decide, by decide⟩⟩

/-! ## Properties of the node: admission to the mempool -/

theorem AddPendingTX_of_marshal_error (E : Env) (n : Node) (tx : SignedTx) (p : PeerNode)
    {err : Error} (hj : E.prim.jsonMarshalTx tx = .error err) :
    AddPendingTX E n tx p = (n, Completion.returned (some err)) := by
  simp [AddPendingTX, SignedTx.Hash, hj]

theorem txKey_of_marshal (E : Env) (tx : SignedTx) {j : List Byte}
    (hj : E.prim.jsonMarshalTx tx = .ok j) :
    txKey E tx = (E.prim.sha256Sum256 j).Hex := by
  simp [txKey, SignedTx.Hash, hj]

theorem AddPendingTX_of_rejected (E : Env) (n : Node) (tx : SignedTx) (p : PeerNode)
    {j : List Byte} {err : Error} (hj : E.prim.jsonMarshalTx tx = .ok j)
    (hv : (E.ApplyTx tx n.pendingState).2 = some err) :
    AddPendingTX E n tx p =
      ({ n with pendingState := (E.ApplyTx tx n.pendingState).1 },
        Completion.returned (some err)) := by
  simp [AddPendingTX, SignedTx.Hash, hj, validateTxBeforeAddingToMempool, hv]

theorem AddPendingTX_of_validated (E : Env) (n : Node) (tx : SignedTx) (p : PeerNode)
    {j : List Byte} (hj : E.prim.jsonMarshalTx tx = .ok j)
    (hv : (E.ApplyTx tx n.pendingState).2 = none) :
    AddPendingTX E n tx p =
      if (n.pendingTXs.lookup (txKey E tx)).isSome = false ∧
          (n.archivedTXs.lookup (txKey E tx)).isSome = false then
        if n.newPendingTXs.length < newPendingTXsCap then
          ({ n with
              pendingState := (E.ApplyTx tx n.pendingState).1
              pendingTXs := n.pendingTXs.insert (txKey E tx) tx
              newPendingTXs := n.newPendingTXs ++ [tx] }, Completion.returned none)
        else
          ({ n with
              pendingState := (E.ApplyTx tx n.pendingState).1
              pendingTXs := n.pendingTXs.insert (txKey E tx) tx }, Completion.blocked)
      else ({ n with pendingState := (E.ApplyTx tx n.pendingState).1 },
        Completion.returned none) := by
  rw [txKey_of_marshal E tx hj]
  simp only [AddPendingTX, SignedTx.Hash, hj, validateTxBeforeAddingToMempool, hv, chanSend]
  by_cases h1 : (n.pendingTXs.lookup (E.prim.sha256Sum256 j).Hex).isSome = true <;>
    by_cases h2 : (n.archivedTXs.lookup (E.prim.sha256Sum256 j).Hex).isSome = true <;>
    by_cases h3 : n.newPendingTXs.length < newPendingTXsCap <;>
    simp [h1, h2, h3]

/-- The mempool, the archive and the channel after `AddPendingTX` on a transaction
whose key is already filed, or that validation rejects, are the ones before. -/
theorem AddPendingTX_frame_of_known (E : Env) (n : Node) (tx : SignedTx) (p : PeerNode)
    (hk : (n.pendingTXs.lookup (txKey E tx)).isSome = true ∨
          (n.archivedTXs.lookup (txKey E tx)).isSome = true) :
    (AddPendingTX E n tx p).1.pendingTXs = n.pendingTXs ∧
    (AddPendingTX E n tx p).1.archivedTXs = n.archivedTXs ∧
    (AddPendingTX E n tx p).1.newPendingTXs = n.newPendingTXs := by
  cases hj : E.prim.jsonMarshalTx tx with
  | error err => rw [AddPendingTX_of_marshal_error E n tx p hj]; exact ⟨rfl, rfl, rfl⟩
  | ok j =>
    cases hv : (E.ApplyTx tx n.pendingState).2 with
    | some err => rw [AddPendingTX_of_rejected E n tx p hj hv]; exact ⟨rfl, rfl, rfl⟩
    | none =>
      rw [AddPendingTX_of_validated E n tx p hj hv, if_neg]
      · exact ⟨rfl, rfl, rfl⟩
      · rintro ⟨h1, h2⟩
        rcases hk with hk | hk
        · rw [h1] at hk; exact Bool.false_ne_true hk
        · rw [h2] at hk; exact Bool.false_ne_true hk

/-- C3 (counterexample): `signedTx1` is in the mempool of `node1`, and submitting it
again returns the nonce error of the validation instead of success; on
`nodeReset`, where it is in the mempool and still validates, the call succeeds
but changes the pending state. -/
theorem duplicate_AddPendingTX_not_silent :
    (node1.pendingTXs.lookup (txKey demoEnv signedTx1)).isSome = true ∧
    (AddPendingTX demoEnv node1 signedTx1 demoPeer).2 =
      Completion.returned (some Error.BadNonce) ∧
    (nodeReset.pendingTXs.lookup (txKey demoEnv signedTx1)).isSome = true ∧
    (AddPendingTX demoEnv nodeReset signedTx1 demoPeer).2 = Completion.returned none ∧
    (AddPendingTX demoEnv nodeReset signedTx1 demoPeer).1.pendingState ≠ nodeReset.pendingState := by
  decide

/-- C3 (amended): for a transaction whose hash is already a key of the mempool or of
the archive, `AddPendingTX` leaves the mempool and the archive unchanged and
pushes nothing onto the channel; the validation runs first, so the call returns
the error of `ApplyTx` on the pending state if there is one, no error otherwise,
and the pending state is the one `ApplyTx` leaves. -/
theorem AddPendingTX_duplicate (E : Env) (n : Node) (tx : SignedTx) (p : PeerNode)
    (j : List Byte) (hj : E.prim.jsonMarshalTx tx = .ok j)
    (hk : (n.pendingTXs.lookup (txKey E tx)).isSome = true ∨
          (n.archivedTXs.lookup (txKey E tx)).isSome = true) :
    (AddPendingTX E n tx p).2 = Completion.returned (E.ApplyTx tx n.pendingState).2 ∧
    (AddPendingTX E n tx p).1.pendingState = (E.ApplyTx tx n.pendingState).1 ∧
    (AddPendingTX E n tx p).1.pendingTXs = n.pendingTXs ∧
    (AddPendingTX E n tx p).1.archivedTXs = n.archivedTXs ∧
    (AddPendingTX E n tx p).1.newPendingTXs = n.newPendingTXs := by
  have hnot : ¬ ((n.pendingTXs.lookup (txKey E tx)).isSome = false ∧
      (n.archivedTXs.lookup (txKey E tx)).isSome = false) := by
    rintro ⟨h1, h2⟩
    rcases hk with hk | hk
    · rw [h1] at hk; exact Bool.false_ne_true hk
    · rw [h2] at hk; exact Bool.false_ne_true hk
  refine ⟨?_, ?_, AddPendingTX_frame_of_known E n tx p hk⟩
  · cases hv : (E.ApplyTx tx n.pendingState).2 with
    | some err => rw [AddPendingTX_of_rejected E n tx p hj hv]
    | none => rw [AddPendingTX_of_validated E n tx p hj hv, if_neg hnot]
  · cases hv : (E.ApplyTx tx n.pendingState).2 with
    | some err => rw [AddPendingTX_of_rejected E n tx p hj hv]
    | none => rw [AddPendingTX_of_validated E n tx p hj hv, if_neg hnot]

/-- C3 (witness): the second submission of `signedTx1` to `node1`. -/
theorem AddPendingTX_duplicate_witness :
    ((node1.pendingTXs.lookup (txKey demoEnv signedTx1)).isSome = true ∨
      (node1.archivedTXs.lookup (txKey demoEnv signedTx1)).isSome = true) ∧
    (AddPendingTX demoEnv node1 signedTx1 demoPeer).2 =
      Completion.returned (demoEnv.ApplyTx signedTx1 node1.pendingState).2 ∧
    (AddPendingTX demoEnv node1 signedTx1 demoPeer).1.pendingState =
      (demoEnv.ApplyTx signedTx1 node1.pendingState).1 ∧
    (AddPendingTX demoEnv node1 signedTx1 demoPeer).1.pendingTXs = node1.pendingTXs ∧
    (AddPendingTX demoEnv node1 signedTx1 demoPeer).1.archivedTXs = node1.archivedTXs ∧
    (AddPendingTX demoEnv node1 signedTx1 demoPeer).1.newPendingTXs = node1.newPendingTXs :=
  ⟨Or.inl (by decide),
   AddPendingTX_duplicate demoEnv node1 signedTx1 demoPeer (demoMarshalTx signedTx1) rfl
     (Or.inl (by decide))⟩

/-- C4: when the encoding of the transaction succeeds and `ApplyTx` on the pending
state rejects it, `AddPendingTX` returns exactly the error of `ApplyTx`, the
mempool and the archive are unchanged and nothing is pushed onto the channel. -/
theorem AddPendingTX_rejected (E : Env) (n : Node) (tx : SignedTx) (p : PeerNode)
    (j : List Byte) (err : Error) (hj : E.prim.jsonMarshalTx tx = .ok j)
    (hv : (E.ApplyTx tx n.pendingState).2 = some err) :
    (AddPendingTX E n tx p).2 = Completion.returned (some err) ∧
    (AddPendingTX E n tx p).1.pendingTXs = n.pendingTXs ∧
    (AddPendingTX E n tx p).1.archivedTXs = n.archivedTXs ∧
    (AddPendingTX E n tx p).1.newPendingTXs = n.newPendingTXs := by
  rw [AddPendingTX_of_rejected E n tx p hj hv]
  exact ⟨rfl, rfl, rfl, rfl⟩

/-- C4 (witness): the transaction of patrick, who has no funds, as in `TestNode_Mining`. -/
theorem AddPendingTX_rejected_witness :
    (demoEnv.ApplyTx signedTxPoor node1.pendingState).2 = some Error.Insufficient ∧
    (AddPendingTX demoEnv node1 signedTxPoor demoPeer).2 =
      Completion.returned (some Error.Insufficient) ∧
    (AddPendingTX demoEnv node1 signedTxPoor demoPeer).1.pendingTXs = node1.pendingTXs ∧
    (AddPendingTX demoEnv node1 signedTxPoor demoPeer).1.archivedTXs = node1.archivedTXs ∧
    (AddPendingTX demoEnv node1 signedTxPoor demoPeer).1.newPendingTXs = node1.newPendingTXs :=
  ⟨by decide,
   AddPendingTX_rejected demoEnv node1 signedTxPoor demoPeer (demoMarshalTx signedTxPoor)
     Error.Insufficient rfl (by decide)⟩

theorem GoMap.keys_insert_card {K V : Type} [DecidableEq K] (m : GoMap K V) (k : K) (v : V)
    (hk : m.lookup k = none) : (m.insert k v).keys.card = m.keys.card + 1 := by
  have hnot : k ∉ m.keys := by
    rw [Finmap.mem_keys]; exact Finmap.lookup_eq_none.1 hk
  have : (m.insert k v).keys = insert k m.keys := by
    ext a
    simp [Finmap.mem_keys, Finmap.mem_insert]
  rw [this, Finset.card_insert_of_not_mem hnot]

/-- C5 (counterexample): on `fullNode`, where 10000 transactions wait in the channel,
`signedTx2` validates and its hash is a key of neither the mempool nor the
archive; the call writes the mempool and then waits in the send: it does not
return and nothing is pushed onto the channel. -/
theorem AddPendingTX_blocks_on_full_channel :
    (demoEnv.ApplyTx signedTx2 fullNode.pendingState).2 = none ∧
    fullNode.pendingTXs.lookup (txKey demoEnv signedTx2) = none ∧
    fullNode.archivedTXs.lookup (txKey demoEnv signedTx2) = none ∧
    fullNode.newPendingTXs.length = 10000 ∧
    (AddPendingTX demoEnv fullNode signedTx2 demoPeer).2 = Completion.blocked ∧
    (AddPendingTX demoEnv fullNode signedTx2 demoPeer).2 ≠ Completion.returned none ∧
    (AddPendingTX demoEnv fullNode signedTx2 demoPeer).1.pendingTXs.lookup
      (txKey demoEnv signedTx2) = some signedTx2 ∧
    (AddPendingTX demoEnv fullNode signedTx2 demoPeer).1.newPendingTXs =
      fullNode.newPendingTXs := by
  have hv : (demoEnv.ApplyTx signedTx2 fullNode.pendingState).2 = none := by decide
  have hp : fullNode.pendingTXs.lookup (txKey demoEnv signedTx2) = none := by decide
  have ha : fullNode.archivedTXs.lookup (txKey demoEnv signedTx2) = none := by decide
  have hlen : fullNode.newPendingTXs.length = 10000 := by
    show (List.replicate newPendingTXsCap signedTx1).length = 10000
    rw [List.length_replicate]
    rfl
  have hfull : ¬ fullNode.newPendingTXs.length < newPendingTXsCap := by
    rw [hlen]
    decide
  have hj : demoEnv.prim.jsonMarshalTx signedTx2 = .ok (demoMarshalTx signedTx2) := rfl
  rw [AddPendingTX_of_validated demoEnv fullNode signedTx2 demoPeer hj hv,
    if_pos (by simp [hp, ha]), if_neg hfull]
  refine ⟨hv, hp, ha, hlen, rfl, by simp, ?_, rfl⟩
  exact Finmap.lookup_insert _

/-- C5 (as amended): a transaction that encodes, validates against the pending
state and whose hash is a key of neither the mempool nor the archive is written
to the mempool: the mempool maps its key to it, every other key of the mempool
and the whole archive are as before, and the mempool has one key more. While
fewer than 10000 transactions wait in the channel, the transaction, and only
it, is appended to the channel and the call returns no error; when 10000 wait,
the call waits in the send and the channel is as before. -/
theorem AddPendingTX_admitted (E : Env) (n : Node) (tx : SignedTx) (p : PeerNode)
    (j : List Byte) (hj : E.prim.jsonMarshalTx tx = .ok j)
    (hv : (E.ApplyTx tx n.pendingState).2 = none)
    (hp : n.pendingTXs.lookup (txKey E tx) = none)
    (ha : n.archivedTXs.lookup (txKey E tx) = none) :
    (AddPendingTX E n tx p).1.pendingTXs.lookup (txKey E tx) = some tx ∧
    (∀ k, k ≠ txKey E tx →
      (AddPendingTX E n tx p).1.pendingTXs.lookup k = n.pendingTXs.lookup k) ∧
    (AddPendingTX E n tx p).1.archivedTXs = n.archivedTXs ∧
    (AddPendingTX E n tx p).1.pendingTXs.keys.card = n.pendingTXs.keys.card + 1 ∧
    (n.newPendingTXs.length < newPendingTXsCap →
      (AddPendingTX E n tx p).2 = Completion.returned none ∧
      (AddPendingTX E n tx p).1.newPendingTXs = n.newPendingTXs ++ [tx]) ∧
    (newPendingTXsCap ≤ n.newPendingTXs.length →
      (AddPendingTX E n tx p).2 = Completion.blocked ∧
      (AddPendingTX E n tx p).1.newPendingTXs = n.newPendingTXs) := by
  rw [AddPendingTX_of_validated E n tx p hj hv, if_pos (by simp [hp, ha])]
  by_cases hc : n.newPendingTXs.length < newPendingTXsCap
  · rw [if_pos hc]
    refine ⟨?_, ?_, rfl, ?_, fun _ => ⟨rfl, rfl⟩, fun hge => absurd hc (by omega)⟩
    · exact Finmap.lookup_insert _
    · intro k hk
      exact Finmap.lookup_insert_of_ne _ hk
    · exact GoMap.keys_insert_card _ _ _ hp
  · rw [if_neg hc]
    refine ⟨?_, ?_, rfl, ?_, fun hlt => absurd hlt hc, fun _ => ⟨rfl, rfl⟩⟩
    · exact Finmap.lookup_insert _
    · intro k hk
      exact Finmap.lookup_insert_of_ne _ hk
    · exact GoMap.keys_insert_card _ _ _ hp

/-- C5 (witness): the admission of `signedTx2` by `node1`, whose mempool holds
`signedTx1` and on whose channel one transaction waits. -/
theorem AddPendingTX_admitted_witness :
    (demoEnv.ApplyTx signedTx2 node1.pendingState).2 = none ∧
    node1.pendingTXs.lookup (txKey demoEnv signedTx2) = none ∧
    node1.archivedTXs.lookup (txKey demoEnv signedTx2) = none ∧
    node1.newPendingTXs.length < newPendingTXsCap ∧
    (AddPendingTX demoEnv node1 signedTx2 demoPeer).1.pendingTXs.lookup
       (txKey demoEnv signedTx2) = some signedTx2 ∧
    (∀ k, k ≠ txKey demoEnv signedTx2 →
       (AddPendingTX demoEnv node1 signedTx2 demoPeer).1.pendingTXs.lookup k =
         node1.pendingTXs.lookup k) ∧
    (AddPendingTX demoEnv node1 signedTx2 demoPeer).1.archivedTXs = node1.archivedTXs ∧
    (AddPendingTX demoEnv node1 signedTx2 demoPeer).1.pendingTXs.keys.card =
       node1.pendingTXs.keys.card + 1 ∧
    (AddPendingTX demoEnv node1 signedTx2 demoPeer).2 = Completion.returned none ∧
    (AddPendingTX demoEnv node1 signedTx2 demoPeer).1.newPendingTXs =
       node1.newPendingTXs ++ [signedTx2] :=
  have h := AddPendingTX_admitted demoEnv node1 signedTx2 demoPeer (demoMarshalTx signedTx2) rfl
    (by decide) (by decide) (by decide)
  ⟨by decide, by decide, by decide, by decide, h.1, h.2.1, h.2.2.1, h.2.2.2.1,
   (h.2.2.2.2.1 (by decide)).1, (h.2.2.2.2.1 (by decide)).2⟩

/-! ## Properties of the node: mined transactions and blocks -/

theorem removeMinedPendingTX_eq (E : Env) (n : Node) (tx : SignedTx) :
    removeMinedPendingTX E n tx =
      if (n.pendingTXs.lookup (txKey E tx)).isSome = true then
        { n with
            archivedTXs := n.archivedTXs.insert (txKey E tx) tx
            pendingTXs := n.pendingTXs.erase (txKey E tx) }
      else n := rfl

theorem removeMinedPendingTX_frame (E : Env) (n : Node) (tx : SignedTx) :
    (removeMinedPendingTX E n tx).state = n.state ∧
    (removeMinedPendingTX E n tx).pendingState = n.pendingState ∧
    (removeMinedPendingTX E n tx).newPendingTXs = n.newPendingTXs ∧
    (removeMinedPendingTX E n tx).isMining = n.isMining := by
  rw [removeMinedPendingTX_eq]
  split <;> exact ⟨rfl, rfl, rfl, rfl⟩

theorem removeMinedPendingTX_pending (E : Env) (n : Node) (tx : SignedTx) (k : String) :
    (removeMinedPendingTX E n tx).pendingTXs.lookup k =
      if txKey E tx = k then none else n.pendingTXs.lookup k := by
  rw [removeMinedPendingTX_eq]
  by_cases hm : (n.pendingTXs.lookup (txKey E tx)).isSome = true
  · rw [if_pos hm]
    by_cases hk : txKey E tx = k
    · subst hk
      rw [if_pos rfl]
      exact Finmap.lookup_erase _ _
    · rw [if_neg hk]
      exact Finmap.lookup_erase_ne (Ne.symm hk)
  · rw [if_neg hm]
    by_cases hk : txKey E tx = k
    · subst hk
      rw [if_pos rfl]
      simpa using hm
    · rw [if_neg hk]

theorem removeMinedPendingTX_archived (E : Env) (n : Node) (tx : SignedTx) (k : String) :
    (removeMinedPendingTX E n tx).archivedTXs.lookup k =
      if txKey E tx = k ∧ (n.pendingTXs.lookup k).isSome = true then some tx
      else n.archivedTXs.lookup k := by
  rw [removeMinedPendingTX_eq]
  by_cases hm : (n.pendingTXs.lookup (txKey E tx)).isSome = true
  · rw [if_pos hm]
    by_cases hk : txKey E tx = k
    · subst hk
      rw [if_pos ⟨rfl, hm⟩]
      exact Finmap.lookup_insert _
    · rw [if_neg (fun h => hk h.1)]
      exact Finmap.lookup_insert_of_ne _ (Ne.symm hk)
  · rw [if_neg hm]
    by_cases hk : txKey E tx = k
    · subst hk
      rw [if_neg (fun h => hm h.2)]
    · rw [if_neg (fun h => hk h.1)]

theorem removeLoop_frame (E : Env) (l : List SignedTx) : ∀ n : Node,
    (l.foldl (removeMinedPendingTX E) n).state = n.state ∧
    (l.foldl (removeMinedPendingTX E) n).pendingState = n.pendingState ∧
    (l.foldl (removeMinedPendingTX E) n).newPendingTXs = n.newPendingTXs ∧
    (l.foldl (removeMinedPendingTX E) n).isMining = n.isMining := by
  induction l with
  | nil => intro n; exact ⟨rfl, rfl, rfl, rfl⟩
  | cons tx l ih =>
    intro n
    obtain ⟨h1, h2, h3, h4⟩ := ih (removeMinedPendingTX E n tx)
    obtain ⟨g1, g2, g3, g4⟩ := removeMinedPendingTX_frame E n tx
    rw [List.foldl_cons]
    exact ⟨h1.trans g1, h2.trans g2, h3.trans g3, h4.trans g4⟩

theorem removeLoop_pending (E : Env) (l : List SignedTx) (k : String) : ∀ n : Node,
    (l.foldl (removeMinedPendingTX E) n).pendingTXs.lookup k =
      match l.find? (fun tx => decide (txKey E tx = k)) with
      | some _ => none
      | none => n.pendingTXs.lookup k := by
  induction l with
  | nil => intro n; rfl
  | cons tx l ih =>
    intro n
    rw [List.foldl_cons, ih, removeMinedPendingTX_pending]
    by_cases hk : txKey E tx = k
    · simp only [List.find?_cons, hk, decide_True, if_true]
      cases l.find? (fun tx => decide (txKey E tx = k)) <;> rfl
    · simp [List.find?_cons, hk]

theorem removeLoop_archived (E : Env) (l : List SignedTx) (k : String) : ∀ n : Node,
    (l.foldl (removeMinedPendingTX E) n).archivedTXs.lookup k =
      match l.find? (fun tx => decide (txKey E tx = k)) with
      | some tx => if (n.pendingTXs.lookup k).isSome = true then some tx
                   else n.archivedTXs.lookup k
      | none => n.archivedTXs.lookup k := by
  induction l with
  | nil => intro n; rfl
  | cons tx l ih =>
    intro n
    rw [List.foldl_cons, ih, removeMinedPendingTX_pending, removeMinedPendingTX_archived]
    by_cases hk : txKey E tx = k
    · simp only [List.find?_cons, hk, decide_True, if_true, true_and, Option.isSome_none]
      cases l.find? (fun tx => decide (txKey E tx = k)) <;> simp
    · simp [List.find?_cons, hk]

theorem find_key_none (E : Env) (l : List SignedTx) (k : String) :
    l.find? (fun tx => decide (txKey E tx = k)) = none ↔ ∀ tx ∈ l, txKey E tx ≠ k := by
  simp [List.find?_eq_none]

theorem find_key_some (E : Env) (l : List SignedTx) (k : String) {tx : SignedTx}
    (h : l.find? (fun tx => decide (txKey E tx = k)) = some tx) : tx ∈ l ∧ txKey E tx = k := by
  refine ⟨List.mem_of_find?_eq_some h, ?_⟩
  simpa using List.find?_some h

theorem removeMinedPendingTXs_frame (E : Env) (n : Node) (block : Block) :
    (removeMinedPendingTXs E n block).state = n.state ∧
    (removeMinedPendingTXs E n block).pendingState = n.pendingState ∧
    (removeMinedPendingTXs E n block).newPendingTXs = n.newPendingTXs := by
  obtain ⟨f1, f2, f3, _⟩ := removeLoop_frame E block.Txs n
  exact ⟨f1, f2, f3⟩

theorem removeMinedPendingTXs_pending_none (E : Env) (n : Node) (block : Block)
    (tx : SignedTx) (htx : tx ∈ block.Txs) :
    (removeMinedPendingTXs E n block).pendingTXs.lookup (txKey E tx) = none := by
  unfold removeMinedPendingTXs
  rw [removeLoop_pending]
  cases hf : block.Txs.find? (fun t => decide (txKey E t = txKey E tx)) with
  | some t => rfl
  | none => exact absurd rfl ((find_key_none E _ _).1 hf tx htx)

theorem removeMinedPendingTXs_archived_some (E : Env) (n : Node) (block : Block)
    (tx : SignedTx) (htx : tx ∈ block.Txs)
    (hsome : (n.pendingTXs.lookup (txKey E tx)).isSome = true) :
    ((removeMinedPendingTXs E n block).archivedTXs.lookup (txKey E tx)).isSome = true := by
  unfold removeMinedPendingTXs
  rw [removeLoop_archived]
  cases hf : block.Txs.find? (fun t => decide (txKey E t = txKey E tx)) with
  | some t => simp [hsome]
  | none => exact absurd rfl ((find_key_none E _ _).1 hf tx htx)

/-- C9: after `removeMinedPendingTXs(block)` no transaction of the block is a key of
the mempool; the mempool entries under other keys are as before; a key that was
removed from the mempool is in the archive, which holds under it a transaction
of the block with this hash, the removed transaction itself when no other
transaction has its hash; every other entry of the archive is as before; and
the states and the channel are untouched. -/
theorem removeMinedPendingTXs_spec (E : Env) (n : Node) (block : Block) :
    (∀ tx ∈ block.Txs,
      (removeMinedPendingTXs E n block).pendingTXs.lookup (txKey E tx) = none) ∧
    (∀ k, (∀ tx ∈ block.Txs, txKey E tx ≠ k) →
      (removeMinedPendingTXs E n block).pendingTXs.lookup k = n.pendingTXs.lookup k) ∧
    (∀ k v, n.pendingTXs.lookup k = some v →
      (removeMinedPendingTXs E n block).pendingTXs.lookup k = none →
      ∃ tx ∈ block.Txs, txKey E tx = k ∧
        (removeMinedPendingTXs E n block).archivedTXs.lookup k = some tx ∧
        ((∀ t, txKey E t = k → t = v) →
          (removeMinedPendingTXs E n block).archivedTXs.lookup k = some v)) ∧
    (∀ k, ¬ ((n.pendingTXs.lookup k).isSome = true ∧
          (removeMinedPendingTXs E n block).pendingTXs.lookup k = none) →
      (removeMinedPendingTXs E n block).archivedTXs.lookup k = n.archivedTXs.lookup k) ∧
    (removeMinedPendingTXs E n block).state = n.state ∧
    (removeMinedPendingTXs E n block).pendingState = n.pendingState ∧
    (removeMinedPendingTXs E n block).newPendingTXs = n.newPendingTXs := by
  obtain ⟨f1, f2, f3⟩ := removeMinedPendingTXs_frame E n block
  refine ⟨removeMinedPendingTXs_pending_none E n block, ?_, ?_, ?_, f1, f2, f3⟩ <;>
    unfold removeMinedPendingTXs
  · intro k hk
    rw [removeLoop_pending, (find_key_none E _ _).2 hk]
  · intro k v hv hrem
    rw [removeLoop_pending] at hrem
    rw [removeLoop_archived]
    cases hf : block.Txs.find? (fun t => decide (txKey E t = k)) with
    | none => rw [hf] at hrem; rw [hv] at hrem; exact absurd hrem (by simp)
    | some t =>
      obtain ⟨hmem, hkey⟩ := find_key_some E _ _ hf
      refine ⟨t, hmem, hkey, by simp [hv], ?_⟩
      intro hinj
      simp [hv, hinj t hkey]
  · intro k hk
    rw [removeLoop_archived]
    rw [removeLoop_pending] at hk
    cases hf : block.Txs.find? (fun t => decide (txKey E t = k)) with
    | none => rfl
    | some t =>
      rw [hf] at hk
      by_cases hm : (n.pendingTXs.lookup k).isSome = true
      · exact absurd ⟨hm, rfl⟩ hk
      · simp [hm]

/-- C9 (witness): with `signedTx1` and `signedTx2` in the mempool, the block holding
`signedTx1` leaves exactly `signedTx2` pending and `signedTx1` alone archived. -/
theorem removeMinedPendingTXs_spec_witness :
    (removeMinedPendingTXs demoEnv node2 syncedBlock).pendingTXs =
      Finmap.singleton (txKey demoEnv signedTx2) signedTx2 ∧
    (removeMinedPendingTXs demoEnv node2 syncedBlock).archivedTXs =
      Finmap.singleton (txKey demoEnv signedTx1) signedTx1 ∧
    (∀ tx ∈ syncedBlock.Txs,
      (removeMinedPendingTXs demoEnv node2 syncedBlock).pendingTXs.lookup (txKey demoEnv tx)
        = none) :=
  ⟨by decide, by decide, (removeMinedPendingTXs_spec demoEnv node2 syncedBlock).1⟩

theorem addBlock_frame (E : Env) (n : Node) (block : Block) :
    (addBlock E n block).1.pendingTXs = n.pendingTXs ∧
    (addBlock E n block).1.archivedTXs = n.archivedTXs ∧
    (addBlock E n block).1.newPendingTXs = n.newPendingTXs := by
  unfold addBlock
  split <;> exact ⟨rfl, rfl, rfl⟩

/-- C6 (counterexample): the confirmed state of `node2` accepts `syncedBlock`, whose
transaction `signedTx1` is in the mempool; after the successful `addBlock` it is
still a key of the mempool and not a key of the archive. -/
theorem addBlock_keeps_mempool :
    signedTx1 ∈ syncedBlock.Txs ∧
    (node2.pendingTXs.lookup (txKey demoEnv signedTx1)).isSome = true ∧
    (addBlock demoEnv node2 syncedBlock).2 = none ∧
    ((addBlock demoEnv node2 syncedBlock).1.pendingTXs.lookup
      (txKey demoEnv signedTx1)).isSome = true ∧
    (addBlock demoEnv node2 syncedBlock).1.archivedTXs.lookup
      (txKey demoEnv signedTx1) = none := by
  decide

/-- C6 (amended): `addBlock` changes neither the mempool nor the archive; the move is
made by `removeMinedPendingTXs`, which `minePendingTXs` calls on the mined block
just before `addBlock`: after the two calls none of the transactions of the block
is a key of the mempool, and each of them that was in the mempool is a key of
the archive. -/
theorem removeMinedPendingTXs_then_addBlock (E : Env) (n : Node) (block : Block) :
    ((addBlock E n block).1.pendingTXs = n.pendingTXs ∧
      (addBlock E n block).1.archivedTXs = n.archivedTXs) ∧
    (∀ tx ∈ block.Txs,
      (addBlock E (removeMinedPendingTXs E n block) block).1.pendingTXs.lookup
        (txKey E tx) = none) ∧
    (∀ tx ∈ block.Txs, (n.pendingTXs.lookup (txKey E tx)).isSome = true →
      ((addBlock E (removeMinedPendingTXs E n block) block).1.archivedTXs.lookup
        (txKey E tx)).isSome = true) := by
  obtain ⟨hp, ha, _⟩ := addBlock_frame E n block
  obtain ⟨hp2, ha2, _⟩ := addBlock_frame E (removeMinedPendingTXs E n block) block
  refine ⟨⟨hp, ha⟩, ?_, ?_⟩
  · intro tx htx
    rw [hp2]
    exact removeMinedPendingTXs_pending_none E n block tx htx
  · intro tx htx hsome
    rw [ha2]
    exact removeMinedPendingTXs_archived_some E n block tx htx hsome

/-- C6 (witness): `node2`, whose mempool holds `signedTx1` and `signedTx2`, and
`syncedBlock`, which holds `signedTx1`. -/
theorem removeMinedPendingTXs_then_addBlock_witness :
    (∀ tx ∈ syncedBlock.Txs, (node2.pendingTXs.lookup (txKey demoEnv tx)).isSome = true) ∧
    (addBlock demoEnv (removeMinedPendingTXs demoEnv node2 syncedBlock) syncedBlock).2 = none ∧
    (∀ tx ∈ syncedBlock.Txs,
      (addBlock demoEnv (removeMinedPendingTXs demoEnv node2 syncedBlock)
        syncedBlock).1.pendingTXs.lookup (txKey demoEnv tx) = none) ∧
    (∀ tx ∈ syncedBlock.Txs,
      ((addBlock demoEnv (removeMinedPendingTXs demoEnv node2 syncedBlock)
        syncedBlock).1.archivedTXs.lookup (txKey demoEnv tx)).isSome = true) :=
  ⟨by decide, by decide,
   (removeMinedPendingTXs_then_addBlock demoEnv node2 syncedBlock).2.1,
   fun tx htx =>
     (removeMinedPendingTXs_then_addBlock demoEnv node2 syncedBlock).2.2 tx htx
       (by revert tx; decide)⟩

/-- C7: if `AddBlock` on the confirmed state succeeds, `addBlock` returns no error,
the confirmed state is the one `AddBlock` leaves and the pending state is a copy
of it; if `AddBlock` fails, `addBlock` returns its error and the pending state,
the mempool and the archive are as before. -/
theorem addBlock_pendingState (E : Env) (n : Node) (block : Block) :
    ((E.AddBlock n.state block).2.2 = none →
      (addBlock E n block).2 = none ∧
      (addBlock E n block).1.state = (E.AddBlock n.state block).1 ∧
      (addBlock E n block).1.pendingState = E.Copy (E.AddBlock n.state block).1) ∧
    (∀ err, (E.AddBlock n.state block).2.2 = some err →
      (addBlock E n block).2 = some err ∧
      (addBlock E n block).1.pendingState = n.pendingState ∧
      (addBlock E n block).1.pendingTXs = n.pendingTXs ∧
      (addBlock E n block).1.archivedTXs = n.archivedTXs) := by
  unfold addBlock
  constructor
  · intro h
    split
    · rename_i s hh err heq
      rw [heq] at h
      exact absurd h (by simp)
    · rename_i s hh heq
      rw [heq]
      exact ⟨rfl, rfl, rfl⟩
  · intro err h
    split
    · rename_i s hh err2 heq
      rw [heq] at h
      exact ⟨h, rfl, rfl, rfl⟩
    · rename_i s hh heq
      rw [heq] at h
      exact absurd h (by simp)

/-- C7 (witness): `node2` accepts `syncedBlock` and rejects `strayBlock`. -/
theorem addBlock_pendingState_witness :
    (demoEnv.AddBlock node2.state syncedBlock).2.2 = none ∧
    ((addBlock demoEnv node2 syncedBlock).2 = none ∧
      (addBlock demoEnv node2 syncedBlock).1.state =
        (demoEnv.AddBlock node2.state syncedBlock).1 ∧
      (addBlock demoEnv node2 syncedBlock).1.pendingState =
        demoEnv.Copy (demoEnv.AddBlock node2.state syncedBlock).1) ∧
    (demoEnv.AddBlock node2.state strayBlock).2.2 = some Error.BadChain ∧
    ((addBlock demoEnv node2 strayBlock).2 = some Error.BadChain ∧
      (addBlock demoEnv node2 strayBlock).1.pendingState = node2.pendingState ∧
      (addBlock demoEnv node2 strayBlock).1.pendingTXs = node2.pendingTXs ∧
      (addBlock demoEnv node2 strayBlock).1.archivedTXs = node2.archivedTXs) :=
  ⟨by decide, (addBlock_pendingState demoEnv node2 syncedBlock).1 (by decide),
   by decide, (addBlock_pendingState demoEnv node2 strayBlock).2 Error.BadChain (by decide)⟩

/-- C8 (counterexample): while `node2` is mining, the step for the received
`syncedBlock` cancels the mining and removes `signedTx1` from the mempool, but
the confirmed state is untouched: its tip is not the received block, although
`addBlock` would have made it so, and the pending state is not re-cloned. -/
theorem mineOnSyncedBlock_does_not_apply :
    node2.isMining = true ∧
    (addBlock demoEnv node2 syncedBlock).2 = none ∧
    (addBlock demoEnv node2 syncedBlock).1.state.latestBlock = syncedBlock ∧
    (mineOnSyncedBlock demoEnv ⟨node2, false⟩ syncedBlock).node.state.latestBlock
      ≠ syncedBlock ∧
    (mineOnSyncedBlock demoEnv ⟨node2, false⟩ syncedBlock).node.state.hasGenesisBlock
      = false ∧
    (mineOnSyncedBlock demoEnv ⟨node2, false⟩ syncedBlock).node.pendingState ≠
      demoEnv.Copy (addBlock demoEnv node2 syncedBlock).1.state := by
  decide

/-- C8 (amended): when a block is received on `newSyncedBlocks` while the node is
mining, the step cancels the current mining attempt and removes the transactions
of the block from the mempool through `removeMinedPendingTXs`; it does not apply
the block: the confirmed state and the pending state are as before. -/
theorem mineOnSyncedBlock_mining (E : Env) (l : MineLoop) (block : Block)
    (hm : l.node.isMining = true) :
    (mineOnSyncedBlock E l block).miningCancelled = true ∧
    (mineOnSyncedBlock E l block).node = removeMinedPendingTXs E l.node block ∧
    (∀ tx ∈ block.Txs,
      (mineOnSyncedBlock E l block).node.pendingTXs.lookup (txKey E tx) = none) ∧
    (mineOnSyncedBlock E l block).node.state = l.node.state ∧
    (mineOnSyncedBlock E l block).node.pendingState = l.node.pendingState := by
  obtain ⟨s5, s6, _⟩ := removeMinedPendingTXs_frame E l.node block
  have s1 := removeMinedPendingTXs_pending_none E l.node block
  have heq : mineOnSyncedBlock E l block =
      { node := removeMinedPendingTXs E l.node block, miningCancelled := true } := by
    unfold mineOnSyncedBlock
    rw [if_pos hm]
  rw [heq]
  exact ⟨rfl, rfl, s1, s5, s6⟩

/-- C8 (witness): the step on `node2`, which is mining, for `syncedBlock`. -/
theorem mineOnSyncedBlock_mining_witness :
    node2.isMining = true ∧
    ((mineOnSyncedBlock demoEnv ⟨node2, false⟩ syncedBlock).miningCancelled = true ∧
     (mineOnSyncedBlock demoEnv ⟨node2, false⟩ syncedBlock).node =
        removeMinedPendingTXs demoEnv node2 syncedBlock ∧
     (∀ tx ∈ syncedBlock.Txs,
        (mineOnSyncedBlock demoEnv ⟨node2, false⟩ syncedBlock).node.pendingTXs.lookup
          (txKey demoEnv tx) = none) ∧
     (mineOnSyncedBlock demoEnv ⟨node2, false⟩ syncedBlock).node.state = node2.state ∧
     (mineOnSyncedBlock demoEnv ⟨node2, false⟩ syncedBlock).node.pendingState =
        node2.pendingState) :=
  ⟨by decide, mineOnSyncedBlock_mining demoEnv ⟨node2, false⟩ syncedBlock (by decide)⟩

/-- C10: a transaction whose hash is a key of the archive and not of the mempool is
not admitted again: after `AddPendingTX` it is not in the mempool, which is as
before, and nothing is pushed onto the channel, whatever `ApplyTx` returns. -/
theorem AddPendingTX_archived (E : Env) (n : Node) (tx : SignedTx) (p : PeerNode)
    (ha : (n.archivedTXs.lookup (txKey E tx)).isSome = true)
    (hp : n.pendingTXs.lookup (txKey E tx) = none) :
    (AddPendingTX E n tx p).1.pendingTXs.lookup (txKey E tx) = none ∧
    (AddPendingTX E n tx p).1.pendingTXs = n.pendingTXs ∧
    (AddPendingTX E n tx p).1.newPendingTXs = n.newPendingTXs := by
  obtain ⟨h1, _, h3⟩ := AddPendingTX_frame_of_known E n tx p (Or.inr ha)
  exact ⟨by rw [h1]; exact hp, h1, h3⟩

/-- C10 (witness): `signedTx1` was mined into `syncedBlock` and archived by `node3`;
submitting it again leaves the mempool and the channel as they are. -/
theorem AddPendingTX_archived_witness :
    (node3.archivedTXs.lookup (txKey demoEnv signedTx1)).isSome = true ∧
    node3.pendingTXs.lookup (txKey demoEnv signedTx1) = none ∧
    ((AddPendingTX demoEnv node3 signedTx1 demoPeer).1.pendingTXs.lookup
        (txKey demoEnv signedTx1) = none ∧
     (AddPendingTX demoEnv node3 signedTx1 demoPeer).1.pendingTXs = node3.pendingTXs ∧
     (AddPendingTX demoEnv node3 signedTx1 demoPeer).1.newPendingTXs = node3.newPendingTXs) :=
  ⟨by decide, by decide,
   AddPendingTX_archived demoEnv node3 signedTx1 demoPeer (by decide) (by decide)⟩

/-! ## Properties of the textual form of a hash -/

theorem fromHexChar_hextable : ∀ n, n < 16 → fromHexChar (hextable n) = some n := by
  decide

theorem hextable_lowerHexDigits : ∀ n, n < 16 → lowerHexDigits[n]? = some (hextable n) := by
  decide

theorem byte_of_nibbles (v : Byte) :
    (Fin.ofNat (v.val / 16 * 16 + v.val % 16) : Byte) = v := by
  apply Fin.ext
  have h := v.isLt
  simp only [Fin.ofNat, Fin.val_mk]
  omega

theorem Hash.set_bytes (h : Hash) (i : Nat) (v : Byte) : (h.set i v).bytes = h.bytes.set i v := rfl

theorem Hash.ext_bytes {a b : Hash} (h : a.bytes = b.bytes) : a = b := by
  cases a; cases b; cases h; rfl

theorem take_drop_set {α : Type} (d : List α) (i n : Nat) (v : α) (l : List α)
    (hil : i < d.length) :
    List.take (i + 1) (d.set i v) ++ l ++ List.drop (i + 1 + n) (d.set i v) =
    List.take i d ++ v :: l ++ List.drop (i + (n + 1)) d := by
  rw [List.set_eq_take_append_cons_drop, if_pos hil]
  have h1 : (List.take i d).length = i := by simp; omega
  rw [List.take_append_eq_append_take, List.drop_append_eq_append_drop, h1]
  simp
  rw [show i + 1 + n - i = (n + 1) by omega]
  simp [List.take_of_length_le, h1, Nat.add_comm, Nat.add_left_comm, Nat.add_assoc]

theorem hexDecodeLoop_hexEncode (l : List Byte) : ∀ (dst : Hash) (i : Nat),
    i + l.length ≤ 32 →
    ∃ r : Hash, hexDecodeLoop dst i (hexEncode l) = some (r, i + l.length, none) ∧
      r.bytes = dst.bytes.take i ++ l ++ dst.bytes.drop (i + l.length) := by
  induction l with
  | nil =>
    intro dst i _
    exact ⟨dst, by simp [hexEncode, hexDecodeLoop], by simp⟩
  | cons v l ih =>
    intro dst i hi
    have hv := v.isLt
    have hlen : i + 1 + l.length ≤ 32 := by simp only [List.length_cons] at hi; omega
    obtain ⟨r, hr, hb⟩ := ih (dst.set i (Fin.ofNat (v.val / 16 * 16 + v.val % 16))) (i + 1) hlen
    refine ⟨r, ?_, ?_⟩
    · rw [hexEncode_cons, hexDecodeLoop,
        fromHexChar_hextable _ (by omega), fromHexChar_hextable _ (Nat.mod_lt _ (by decide))]
      simp only []
      rw [if_pos (by omega), hr]
      simp only [List.length_cons]
      congr 3
      omega
    · rw [hb, byte_of_nibbles, Hash.set_bytes]
      have hil : i < dst.bytes.length := by rw [dst.len]; omega
      exact take_drop_set dst.bytes i l.length v l hil

theorem hexEncode_length (l : List Byte) : (hexEncode l).length = 2 * l.length := by
  induction l with
  | nil => rfl
  | cons b l ih => rw [hexEncode_cons, List.length_cons, List.length_cons, ih, List.length_cons]; omega

theorem hexEncode_getElem (l : List Byte) : ∀ (i : Nat) (b : Byte), l[i]? = some b →
    (hexEncode l)[2 * i]? = some (hextable (b.val / 16)) ∧
    (hexEncode l)[2 * i + 1]? = some (hextable (b.val % 16)) := by
  induction l with
  | nil => intro i b h; simp at h
  | cons v l ih =>
    intro i b h
    cases i with
    | zero =>
      simp only [List.getElem?_cons_zero, Option.some.injEq] at h
      subst h
      rw [hexEncode_cons]
      exact ⟨by simp, by simp⟩
    | succ i =>
      rw [List.getElem?_cons_succ] at h
      obtain ⟨h1, h2⟩ := ih i b h
      rw [hexEncode_cons, show 2 * (i + 1) = (2 * i + 1) + 1 by ring]
      rw [List.getElem?_cons_succ, List.getElem?_cons_succ, List.getElem?_cons_succ,
        List.getElem?_cons_succ]
      exact ⟨h1, h2⟩

/-- C20: for every hash `h`, `MarshalText` returns no error and the 64 characters
of the lower-case hexadecimal form of its 32 bytes, two digits per byte and no
prefix, and `UnmarshalText` on that text makes any receiving hash equal to `h`
and returns no error. -/
theorem Hash.UnmarshalText_MarshalText (h dst : Hash) :
    h.MarshalText.2 = none ∧
    h.MarshalText.1.length = 64 ∧
    (∀ i b, h.index i = some b →
      h.MarshalText.1[2 * i]? = lowerHexDigits[b.val / 16]? ∧
      h.MarshalText.1[2 * i + 1]? = lowerHexDigits[b.val % 16]?) ∧
    dst.UnmarshalText h.MarshalText.1 = some (h, none) := by
  have htext : h.MarshalText.1 = hexEncode h.bytes := rfl
  refine ⟨rfl, ?_, ?_, ?_⟩
  · rw [htext, hexEncode_length, h.len]
  · intro i b hb
    have hv := b.isLt
    rw [htext, hextable_lowerHexDigits _ (show b.val / 16 < 16 by omega),
      hextable_lowerHexDigits _ (Nat.mod_lt _ (by decide))]
    exact hexEncode_getElem h.bytes i b hb
  · obtain ⟨r, hr, hb⟩ := hexDecodeLoop_hexEncode h.bytes dst 0 (by rw [h.len])
    have hrh : r = h := by
      apply Hash.ext_bytes
      rw [hb, h.len, List.drop_of_length_le (by rw [dst.len])]
      simp
    rw [htext]
    unfold Hash.UnmarshalText hexDecode
    rw [hr, hrh]
    rfl

/-! ## Properties of the gas reward -/

theorem uintSize_pos : 0 < uintSize := by decide

theorem foldl_GasReward (l : List SignedTx) : ∀ acc : Nat, acc < uintSize →
    l.foldl (fun reward tx => (reward + tx.GasCost) % uintSize) acc =
      (acc + (l.map (fun tx => tx.GasCost)).sum) % uintSize := by
  induction l with
  | nil =>
    intro acc hacc
    simp [Nat.mod_eq_of_lt hacc]
  | cons tx l ih =>
    intro acc _
    rw [List.foldl_cons, ih _ (Nat.mod_lt _ uintSize_pos), List.map_cons, List.sum_cons,
      Nat.mod_add_mod, Nat.add_assoc]

theorem sum_GasCost_mod (l : List SignedTx) :
    (l.map (fun tx => tx.GasCost)).sum % uintSize =
      (l.map (fun tx => tx.Gas * tx.GasPrice)).sum % uintSize := by
  induction l with
  | nil => rfl
  | cons tx l ih =>
    rw [List.map_cons, List.sum_cons, List.map_cons, List.sum_cons, Nat.add_mod, ih,
      ← Nat.add_mod]
    unfold Tx.GasCost
    rw [Nat.mod_add_mod]

/-- C18: the gas reward of a block is the sum of the costs `GasCost` of its
transactions in `uint` arithmetic, where the cost of a transaction is the
product of its gas and its gas price in `uint` arithmetic, and it is 0 for
a block without transactions. -/
theorem Block.GasReward_eq_sum (b : Block) :
    b.GasReward = (b.Txs.map (fun tx => tx.GasCost)).sum % uintSize ∧
    b.GasReward = (b.Txs.map (fun tx => tx.Gas * tx.GasPrice)).sum % uintSize ∧
    (∀ tx ∈ b.Txs, tx.GasCost = (tx.Gas * tx.GasPrice) % uintSize) ∧
    (b.Txs = [] → b.GasReward = 0) := by
  have h1 : b.GasReward = (b.Txs.map (fun tx => tx.GasCost)).sum % uintSize := by
    unfold Block.GasReward
    rw [foldl_GasReward b.Txs 0 uintSize_pos, Nat.zero_add]
  refine ⟨h1, ?_, fun _ _ => rfl, ?_⟩
  · rw [h1]
    exact sum_GasCost_mod b.Txs
  · intro hl
    rw [h1, hl]
    rfl

/-! ## Properties of the miner -/

theorem specMineLoop_mined (P : Primitives) (cancelled : Nat → Bool) (pb : PendingBlock)
    (k : Nat) : ∀ (attempts i : Nat) (b : Block),
    specMineLoop P cancelled pb k attempts i = MineResult.mined b →
    ∃ nonce, b = NewBlock pb.parent pb.number nonce pb.time pb.miner pb.txs ∧
      (b.Hash P).2 = none ∧ IsBlockHashValid (b.Hash P).1 k = some true := by
  intro attempts
  induction attempts with
  | zero => intro i b h; simp [specMineLoop] at h
  | succ n ih =>
    intro i b h
    unfold specMineLoop at h
    by_cases hc : cancelled i = true
    · simp [hc] at h
    · simp only [hc] at h
      generalize hblk : NewBlock pb.parent pb.number (i % uint32Size) pb.time pb.miner pb.txs
        = blk at h
      rcases hh : blk.Hash P with ⟨hash, _ | err⟩
      · rw [hh] at h
        rcases hv : IsBlockHashValid hash k with _ | _ | _
        · simp [hv] at h
        · simp only [hv, Bool.false_eq_true, if_false] at h
          exact ih (i + 1) b h
        · simp only [hv, Bool.false_eq_true, if_false, MineResult.mined.injEq] at h
          subst h
          refine ⟨i % uint32Size, hblk.symm, ?_, ?_⟩
          · rw [hh]
          · rw [hh]; exact hv
      · rw [hh] at h
        simp at h

/-- C11: whenever `Mine` returns a block without error, the hash of the block
satisfies `IsBlockHashValid` at the difficulty of the call, and the miner, the
parent, the number, the time and the transactions of the block are those of
the pending block. -/
theorem specMine_valid (P : Primitives) (cancelled : Nat → Bool) (pb : PendingBlock)
    (k attempts : Nat) (b : Block)
    (h : specMine P cancelled pb k attempts = MineResult.mined b) :
    (b.Hash P).2 = none ∧
    IsBlockHashValid (b.Hash P).1 k = some true ∧
    b.Header.Miner = pb.miner ∧ b.Header.Parent = pb.parent ∧
    b.Header.Number = pb.number ∧ b.Header.Time = pb.time ∧ b.Txs = pb.txs := by
  obtain ⟨nonce, hb, h1, h2⟩ := specMineLoop_mined P cancelled pb k attempts 0 b h
  refine ⟨h1, h2, ?_⟩
  rw [hb]
  exact ⟨rfl, rfl, rfl, rfl, rfl⟩

/-- C11 (witness): at difficulty 2 the miner returns the test template with nonce 1. -/
theorem specMine_valid_witness :
    specMine demoPrimitives neverCancelled demoPendingBlock 2 5 = MineResult.mined syncedBlock ∧
    ((syncedBlock.Hash demoPrimitives).2 = none ∧
     IsBlockHashValid (syncedBlock.Hash demoPrimitives).1 2 = some true ∧
     syncedBlock.Header.Miner = demoPendingBlock.miner ∧
     syncedBlock.Header.Parent = demoPendingBlock.parent ∧
     syncedBlock.Header.Number = demoPendingBlock.number ∧
     syncedBlock.Header.Time = demoPendingBlock.time ∧
     syncedBlock.Txs = demoPendingBlock.txs) :=
  ⟨by decide, specMine_valid demoPrimitives neverCancelled demoPendingBlock 2 5 syncedBlock
    (by decide)⟩

/-! ## Properties of the line scanner -/

theorem splitSep_ne_nil {α : Type} [DecidableEq α] (sep : α) (l : List α) :
    splitSep sep l ≠ [] := by
  cases l with
  | nil => simp [splitSep]
  | cons a rest =>
    unfold splitSep
    by_cases h : a = sep
    · simp [h]
    · simp only [h, if_false]
      split <;> simp

theorem splitSep_append_sep {α : Type} [DecidableEq α] (sep : α) (line rest : List α)
    (h : sep ∉ line) : splitSep sep (line ++ sep :: rest) = line :: splitSep sep rest := by
  induction line with
  | nil => simp [splitSep]
  | cons a line ih =>
    have ha : a ≠ sep := fun e => h (by simp [e])
    have hl : sep ∉ line := fun e => h (List.mem_cons_of_mem _ e)
    rw [List.cons_append, splitSep, if_neg ha, ih hl]

theorem scanLines_nil : scanLines [] = [] := by
  simp [scanLines, splitSep]

theorem scanLines_append_lineFeed (line rest : List Byte) (h : lineFeed ∉ line) :
    scanLines (line ++ lineFeed :: rest) = line :: scanLines rest := by
  unfold scanLines
  simp only [splitSep_append_sep lineFeed line rest h]
  have hne := splitSep_ne_nil lineFeed rest
  obtain ⟨s, ss, hs⟩ := List.exists_cons_of_ne_nil hne
  rw [hs, List.getLast?_cons_cons]
  by_cases hl : (s :: ss).getLast? = some []
  · rw [if_pos hl, if_pos hl, List.dropLast_cons₂]
  · rw [if_neg hl, if_neg hl]

theorem scanLines_logBytes (lines : List (List Byte)) (h : ∀ line ∈ lines, lineFeed ∉ line) :
    scanLines (logBytes lines) = lines := by
  induction lines with
  | nil => exact scanLines_nil
  | cons line lines ih =>
    have h1 : logBytes (line :: lines) = line ++ lineFeed :: logBytes lines := by
      simp [logBytes]
    rw [h1, scanLines_append_lineFeed _ _ (h line (List.mem_cons_self _ _)),
      ih (fun l hl => h l (List.mem_cons_of_mem _ hl))]

theorem map_eq_self_of_forall {α : Type} (f : α → α) (l : List α) (h : ∀ x ∈ l, f x = x) :
    l.map f = l := by
  induction l with
  | nil => rfl
  | cons a l ih =>
    rw [List.map_cons, h a (List.mem_cons_self _ _),
      ih (fun x hx => h x (List.mem_cons_of_mem _ hx))]

theorem WellFormedLog.of_mem {J : Json} {lines : List (List Byte)} {recs : List BlockFS}
    (hw : WellFormedLog J lines recs) :
    ∀ line ∈ lines, lineFeed ∉ line ∧ dropCR line = line := by
  unfold WellFormedLog at hw
  induction hw with
  | nil => intro line h; simp at h
  | cons hab _ ih =>
    intro line h
    rcases List.mem_cons.1 h with rfl | h
    · exact ⟨hab.1, hab.2.1⟩
    · exact ih line h

theorem WellFormedLog.takeWhile {J : Json} {lines : List (List Byte)} {recs : List BlockFS}
    (hw : WellFormedLog J lines recs) (p : List Byte → Bool) :
    WellFormedLog J (lines.takeWhile p) (recs.take (lines.takeWhile p).length) := by
  unfold WellFormedLog at *
  induction hw with
  | nil => exact List.Forall₂.nil
  | @cons line rec lines recs hab _ ih =>
    rw [List.takeWhile_cons]
    by_cases hp : p line = true
    · rw [if_pos hp, List.length_cons, List.take_succ_cons]
      exact List.Forall₂.cons hab ih
    · rw [if_neg hp]
      exact List.Forall₂.nil

/-- The tokens of a scanner on a well-formed log: its lines up to the first one
that does not fit in the buffer. -/
theorem NewScanner_logBytes {J : Json} {lines : List (List Byte)} {recs : List BlockFS}
    (hw : WellFormedLog J lines recs) (f : File) (hf : f.unread = logBytes lines) :
    (NewScanner f).tokens =
      lines.takeWhile (fun line => decide (line.length < MaxScanTokenSize)) := by
  unfold NewScanner
  simp only [hf, scanLines_logBytes lines (fun l hl => (hw.of_mem l hl).1)]
  apply map_eq_self_of_forall
  intro x hx
  exact (hw.of_mem x (List.takeWhile_subset _ hx)).2

theorem getBlocksAfterLoop_wellFormed (J : Json) (h : Hash) {lines : List (List Byte)}
    {recs : List BlockFS} (hw : WellFormedLog J lines recs) :
    ∀ (collecting : Bool) (blocks : List Block),
    getBlocksAfterLoop J h lines collecting blocks =
      (some (blocks ++
        (if collecting then recs.map (fun r => r.Value)
         else ((recs.dropWhile (fun r => decide (r.Key ≠ h))).drop 1).map (fun r => r.Value))),
       none) := by
  unfold WellFormedLog at hw
  induction hw with
  | nil => intro collecting blocks; cases collecting <;> simp [getBlocksAfterLoop]
  | @cons line rec lines recs hab _ ih =>
    intro collecting blocks
    rw [getBlocksAfterLoop, hab.2.2]
    simp only []
    cases collecting with
    | true =>
      rw [if_pos rfl, ih]
      simp
    | false =>
      rw [if_neg (by simp)]
      by_cases hk : h = rec.Key
      · rw [if_pos hk, ih]
        simp [List.dropWhile_cons, hk]
      · rw [if_neg hk, ih]
        have hk2 : ¬ rec.Key = h := fun e => hk e.symm
        simp [List.dropWhile_cons, hk2]

/-- The result of `GetBlocksAfter` on a well-formed log: the blocks after the given
hash among the records that precede the first line too long for the scanner;
the handle it opened stays open. -/
theorem GetBlocksAfter_wellFormed (J : Json) (os : OS) (h : Hash) (dataDir : String)
    {lines : List (List Byte)} {recs : List BlockFS}
    (hf : os.files (getBlocksDbFilePath dataDir) = some (logBytes lines))
    (hw : WellFormedLog J lines recs) :
    (GetBlocksAfter J os h dataDir).2 =
      (some (blocksAfter h (recs.take
        (lines.takeWhile (fun line => decide (line.length < MaxScanTokenSize))).length)), none) ∧
    (GetBlocksAfter J os h dataDir).1.openHandles = os.openHandles + 1 := by
  unfold GetBlocksAfter OS.OpenFile
  rw [hf]
  simp only []
  rw [NewScanner_logBytes hw ⟨logBytes lines, 0⟩ (by simp [File.unread]),
    getBlocksAfterLoop_wellFormed J h (hw.takeWhile _)]
  constructor
  · unfold blocksAfter
    by_cases hz : h = Hash.zero
    · simp [hz]
    · simp [hz]
  · trivial

/-- On a well-formed log all of whose lines fit in the buffer of the scanner,
`GetBlocksAfter` returns without error the blocks of the records after the first
record with the given key, all blocks for the empty hash. -/
theorem GetBlocksAfter_of_fitting (J : Json) (os : OS) (h : Hash) (dataDir : String)
    {lines : List (List Byte)} {recs : List BlockFS}
    (hf : os.files (getBlocksDbFilePath dataDir) = some (logBytes lines))
    (hw : WellFormedLog J lines recs)
    (hfit : ∀ line ∈ lines, line.length < MaxScanTokenSize) :
    (GetBlocksAfter J os h dataDir).2 = (some (blocksAfter h recs), none) := by
  rw [(GetBlocksAfter_wellFormed J os h dataDir hf hw).1]
  have h1 : lines.takeWhile (fun line => decide (line.length < MaxScanTokenSize)) = lines := by
    rw [List.takeWhile_eq_self_iff]
    intro x hx
    simpa using hfit x hx
  have h2 : lines.length = recs.length := List.Forall₂.length_eq hw
  rw [h1, h2, List.take_length]

/-! ## Properties of the readers of the block log -/

theorem demoLines_wellFormed : WellFormedLog demoJson demoLines demoRecs :=
  List.Forall₂.cons ⟨by decide, by decide, rfl⟩
    (List.Forall₂.cons ⟨by decide, by decide, rfl⟩
      (List.Forall₂.cons ⟨by decide, by decide, rfl⟩ List.Forall₂.nil))

theorem demoLongLine_wellFormed (n : Nat) (hn : lowByte n ≠ lineFeed) :
    lineFeed ∉ demoLongLine n ∧ dropCR (demoLongLine n) = demoLongLine n ∧
    demoJson.unmarshalBlockFS (demoLongLine n) = (demoRecord (lowByte n).val, none) := by
  refine ⟨?_, ?_, rfl⟩
  · unfold demoLongLine
    simp only [List.mem_append, List.mem_cons, List.mem_replicate, List.mem_singleton,
      List.not_mem_nil, or_false, not_or]
    exact ⟨⟨fun h => hn h.symm, fun h => absurd h.2 (by decide)⟩, by decide⟩
  · unfold dropCR demoLongLine
    rw [List.getLast?_concat, if_neg (by decide)]

theorem demoLongLine_length (n : Nat) : (demoLongLine n).length = 65537 := by
  unfold demoLongLine
  rw [List.length_append, List.length_cons, List.length_replicate]
  rfl

theorem longLines_wellFormed : WellFormedLog demoJson longLines longRecs :=
  List.Forall₂.cons ⟨by decide, by decide, rfl⟩
    (List.Forall₂.cons (demoLongLine_wellFormed 1 (by decide)) List.Forall₂.nil)

theorem longLines_fitting :
    (longLines.takeWhile (fun line => decide (line.length < MaxScanTokenSize))).length = 1 := by
  have h0 : (demoLine 0).length < MaxScanTokenSize := by decide
  have h1 : ¬ (demoLongLine 1).length < MaxScanTokenSize := by
    rw [demoLongLine_length]; decide
  simp [longLines, List.takeWhile_cons, h0, h1]

theorem blocksAfter_of_unknown (h : Hash) (recs : List BlockFS) (hne : h ≠ Hash.zero)
    (hno : ∀ r ∈ recs, r.Key ≠ h) : blocksAfter h recs = [] := by
  unfold blocksAfter
  rw [if_neg hne]
  have : recs.dropWhile (fun r => decide (r.Key ≠ h)) = [] := by
    rw [List.dropWhile_eq_nil_iff]
    intro x hx
    simpa using hno x hx
  rw [this]
  rfl

/-- C14: on a well-formed block log, for a hash that is not empty and is the key of
no record of the log, `GetBlocksAfter` returns an empty list of blocks and no
error. -/
theorem GetBlocksAfter_unknown_hash (J : Json) (os : OS) (h : Hash) (dataDir : String)
    (lines : List (List Byte)) (recs : List BlockFS)
    (hf : os.files (getBlocksDbFilePath dataDir) = some (logBytes lines))
    (hw : WellFormedLog J lines recs)
    (hne : h ≠ Hash.zero) (hno : ∀ r ∈ recs, r.Key ≠ h) :
    (GetBlocksAfter J os h dataDir).2 = (some [], none) := by
  rw [(GetBlocksAfter_wellFormed J os h dataDir hf hw).1,
    blocksAfter_of_unknown h _ hne (fun r hr => hno r (List.mem_of_mem_take hr))]

/-- C14 (witness): the log of three records and the hash `ff00...00`. -/
theorem GetBlocksAfter_unknown_hash_witness :
    WellFormedLog demoJson demoLines demoRecs ∧
    demoDigest [255] ≠ Hash.zero ∧
    (∀ r ∈ demoRecs, r.Key ≠ demoDigest [255]) ∧
    (GetBlocksAfter demoJson (demoOS (logBytes demoLines)) (demoDigest [255]) "data").2 =
      (some [], none) :=
  ⟨demoLines_wellFormed, by decide, by decide,
   GetBlocksAfter_unknown_hash demoJson (demoOS (logBytes demoLines)) (demoDigest [255]) "data"
     demoLines demoRecs (by decide) demoLines_wellFormed (by decide) (by decide)⟩

/-- C13 (failing input): a well-formed log whose second record takes a line of
more than 64 KiB. With the empty hash `GetBlocksAfter` returns, without error,
the block of the first record alone: the scanner stops at the long line. -/
theorem GetBlocksAfter_empty_hash_long_line :
    WellFormedLog demoJson longLines longRecs ∧
    (GetBlocksAfter demoJson (demoOS (logBytes longLines)) Hash.zero "data").2 =
      (some [(demoRecord 0).Value], none) ∧
    longRecs.map (fun r => r.Value) = [(demoRecord 0).Value, (demoRecord 1).Value] ∧
    (GetBlocksAfter demoJson (demoOS (logBytes longLines)) Hash.zero "data").2 ≠
      (some (longRecs.map (fun r => r.Value)), none) := by
  have hres : (GetBlocksAfter demoJson (demoOS (logBytes longLines)) Hash.zero "data").2 =
      (some [(demoRecord 0).Value], none) := by
    rw [(GetBlocksAfter_wellFormed demoJson (demoOS (logBytes longLines)) Hash.zero "data"
      (by simp [demoOS]) longLines_wellFormed).1, longLines_fitting]
    rfl
  refine ⟨longLines_wellFormed, hres, rfl, ?_⟩
  rw [hres]
  decide

/-- C12 (failing input): on the same log, with the key of the first record,
`GetBlocksAfter` returns without error an empty list, although the record of
block 1 comes after the first record. -/
theorem GetBlocksAfter_known_hash_long_line :
    WellFormedLog demoJson longLines longRecs ∧
    (demoRecord 0).Key ≠ Hash.zero ∧
    (GetBlocksAfter demoJson (demoOS (logBytes longLines)) (demoRecord 0).Key "data").2 =
      (some [], none) ∧
    blocksAfter (demoRecord 0).Key longRecs = [(demoRecord 1).Value] ∧
    (GetBlocksAfter demoJson (demoOS (logBytes longLines)) (demoRecord 0).Key "data").2 ≠
      (some (blocksAfter (demoRecord 0).Key longRecs), none) := by
  have hres :
      (GetBlocksAfter demoJson (demoOS (logBytes longLines)) (demoRecord 0).Key "data").2 =
        (some [], none) := by
    rw [(GetBlocksAfter_wellFormed demoJson (demoOS (logBytes longLines)) (demoRecord 0).Key
      "data" (by simp [demoOS]) longLines_wellFormed).1, longLines_fitting]
    decide
  refine ⟨longLines_wellFormed, by decide, hres, by decide, ?_⟩
  rw [hres]
  decide

theorem NewScanner_tokens_at_line (f : File) (line rest : List Byte)
    (hd : f.unread = line ++ lineFeed :: rest) (hnl : lineFeed ∉ line) :
    (NewScanner f).tokens =
      if line.length < MaxScanTokenSize then
        dropCR line :: ((scanLines rest).takeWhile
          (fun l => decide (l.length < MaxScanTokenSize))).map dropCR
      else [] := by
  unfold NewScanner
  simp only [hd, scanLines_append_lineFeed line rest hnl, List.takeWhile_cons]
  by_cases hl : line.length < MaxScanTokenSize
  · simp [hl]
  · simp [hl]

/-- The result of `GetBlockByHeightOrHash` when the index holds an offset at which a
line of the log starts: the record the line decodes to when the line fits in the
buffer of the scanner, the zero record and no error when it does not; the
handle is closed again. -/
theorem GetBlockByHeightOrHash_at_line (J : Json) (os : OS) (state : State) (height : Nat)
    (hash dataDir : String) (content line rest : List Byte) (key : Nat)
    (hc : cacheLookup state height hash = (key, true))
    (hf : os.files (getBlocksDbFilePath dataDir) = some content)
    (hd : content.drop key = line ++ lineFeed :: rest) (hnl : lineFeed ∉ line) :
    (GetBlockByHeightOrHash J os state height hash dataDir).2 =
      (if line.length < MaxScanTokenSize then J.unmarshalBlockFS (dropCR line)
       else (BlockFS.zero, none)) ∧
    (GetBlockByHeightOrHash J os state height hash dataDir).1.openHandles = os.openHandles := by
  unfold GetBlockByHeightOrHash OS.OpenFile
  rw [hc, hf]
  simp only []
  rw [NewScanner_tokens_at_line (File.Seek ⟨content, 0⟩ key) line rest hd hnl]
  by_cases hl : line.length < MaxScanTokenSize
  · rw [if_pos hl, if_pos hl]
    simp only []
    rcases hu : J.unmarshalBlockFS (dropCR line) with ⟨b, _ | err⟩
    · simp only []
      exact ⟨trivial, rfl⟩
    · simp only []
      exact ⟨trivial, rfl⟩
  · rw [if_neg hl, if_neg hl]
    exact ⟨rfl, rfl⟩

theorem cacheLookup_height (state : State) (height off : Nat)
    (h : state.HeightCache.lookup height = some off) :
    cacheLookup state height "" = (off, true) := by
  simp [cacheLookup, h]

theorem cacheLookup_hash (state : State) (height off : Nat) (hash : String) (hne : hash ≠ "")
    (h : state.HashCache.lookup hash = some off) :
    cacheLookup state height hash = (off, true) := by
  simp [cacheLookup, h, hne]

theorem Hash.Hex_ne_empty (h : Hash) : h.Hex ≠ "" := by
  intro he
  have hl : h.Hex.toList.length = 64 := by
    show (hexEncode h.bytes).length = 64
    rw [hexEncode_length, h.len]
  rw [he] at hl
  exact absurd hl (by decide)

/-- Log/index agreement when the line of the record fits in the buffer of the
scanner: if both indexes hold for the block `b` the offset at which the line of
its record starts, the lookup by the number of `b` and the lookup by its hash
return, without error, the record of `b`. -/
theorem GetBlockByHeightOrHash_agree_of_fitting (J : Json) (os : OS) (state : State)
    (dataDir : String) (content line rest : List Byte) (off height : Nat) (key : Hash)
    (b : Block)
    (hh : state.HeightCache.lookup b.Header.Number = some off)
    (hk : state.HashCache.lookup key.Hex = some off)
    (hf : os.files (getBlocksDbFilePath dataDir) = some content)
    (hd : content.drop off = line ++ lineFeed :: rest)
    (hw : lineFeed ∉ line ∧ dropCR line = line ∧ J.unmarshalBlockFS line = (⟨key, b⟩, none))
    (hfit : line.length < MaxScanTokenSize) :
    (GetBlockByHeightOrHash J os state b.Header.Number "" dataDir).2 = (⟨key, b⟩, none) ∧
    (GetBlockByHeightOrHash J os state height key.Hex dataDir).2 = (⟨key, b⟩, none) := by
  constructor
  · rw [(GetBlockByHeightOrHash_at_line J os state _ "" dataDir content line rest off
      (cacheLookup_height state _ off hh) hf hd hw.1).1, if_pos hfit, hw.2.1, hw.2.2]
  · rw [(GetBlockByHeightOrHash_at_line J os state height key.Hex dataDir content line rest off
      (cacheLookup_hash state height off _ key.Hex_ne_empty hk) hf hd hw.1).1, if_pos hfit,
      hw.2.1, hw.2.2]

/-- C15: when the height is not a key of the height index and the hash is not
a key of the hash index, `GetBlockByHeightOrHash` returns the zero record and
an error of the kind `NotFound`, and opens no file. -/
theorem GetBlockByHeightOrHash_unknown (J : Json) (os : OS) (state : State) (height : Nat)
    (hash dataDir : String)
    (hh : state.HeightCache.lookup height = none)
    (hk : state.HashCache.lookup hash = none) :
    (GetBlockByHeightOrHash J os state height hash dataDir).2 =
      (BlockFS.zero, some Error.NotFound) ∧
    (GetBlockByHeightOrHash J os state height hash dataDir).1.openHandles = os.openHandles := by
  have hc : (cacheLookup state height hash).2 = false := by
    unfold cacheLookup
    by_cases he : hash = ""
    · simp [he, hh]
    · simp [he, hk]
  unfold GetBlockByHeightOrHash
  rcases hcl : cacheLookup state height hash with ⟨key, _ | _⟩
  · simp only []
    split <;> exact ⟨rfl, rfl⟩
  · rw [hcl] at hc
    simp at hc

/-- C15 (witness): height 99 on the chain of `node3`, which holds block 0 alone. -/
theorem GetBlockByHeightOrHash_unknown_witness :
    node3.state.HeightCache.lookup 99 = none ∧
    node3.state.HashCache.lookup "" = none ∧
    ((GetBlockByHeightOrHash demoJson (demoOS (logBytes demoLines)) node3.state 99 ""
        "data").2 = (BlockFS.zero, some Error.NotFound) ∧
     (GetBlockByHeightOrHash demoJson (demoOS (logBytes demoLines)) node3.state 99 ""
        "data").1.openHandles = (demoOS (logBytes demoLines)).openHandles) :=
  ⟨by decide, by decide,
   GetBlockByHeightOrHash_unknown demoJson (demoOS (logBytes demoLines)) node3.state 99 ""
     "data" (by decide) (by decide)⟩

theorem longLines_drop : (logBytes longLines).drop 3 = demoLongLine 1 ++ lineFeed :: [] := by
  simp [logBytes, longLines, demoLine]

/-- C16 (failing input): both indexes of `longIndexState` hold the offset 3 at which
the record of block 1 starts in the log `longLines`; its line has more than
64 KiB. The lookup by the number 1 and the lookup by the hash of the record both
return, without error, the zero record, which is not the record of block 1. -/
theorem GetBlockByHeightOrHash_long_line :
    longIndexState.HeightCache.lookup (demoRecord 1).Value.Header.Number = some 3 ∧
    longIndexState.HashCache.lookup (demoRecord 1).Key.Hex = some 3 ∧
    (logBytes longLines).drop 3 = demoLongLine 1 ++ lineFeed :: [] ∧
    demoJson.unmarshalBlockFS (demoLongLine 1) = (demoRecord 1, none) ∧
    (GetBlockByHeightOrHash demoJson (demoOS (logBytes longLines)) longIndexState 1 ""
        "data").2 = (BlockFS.zero, none) ∧
    (GetBlockByHeightOrHash demoJson (demoOS (logBytes longLines)) longIndexState 0
        (demoRecord 1).Key.Hex "data").2 = (BlockFS.zero, none) ∧
    BlockFS.zero ≠ demoRecord 1 := by
  have hlong : ¬ (demoLongLine 1).length < MaxScanTokenSize := by
    rw [demoLongLine_length]; decide
  have hnl := (demoLongLine_wellFormed 1 (by decide)).1
  refine ⟨by decide, by decide, longLines_drop, rfl, ?_, ?_, by decide⟩
  · rw [(GetBlockByHeightOrHash_at_line demoJson (demoOS (logBytes longLines)) longIndexState
      1 "" "data" (logBytes longLines) (demoLongLine 1) [] 3 (by decide) (by simp [demoOS])
      longLines_drop hnl).1, if_neg hlong]
  · rw [(GetBlockByHeightOrHash_at_line demoJson (demoOS (logBytes longLines)) longIndexState
      0 (demoRecord 1).Key.Hex "data" (logBytes longLines) (demoLongLine 1) [] 3 (by decide)
      (by simp [demoOS]) longLines_drop hnl).1, if_neg hlong]

/-! ## Properties of the block explorer handler -/

theorem String.mk_ne_empty_of_ne_nil (p : List Char) (hp : p ≠ []) : String.mk p ≠ "" := by
  intro h
  apply hp
  have : (String.mk p).data = ("" : String).data := by rw [h]
  exact this

theorem cacheLookup_empty_hash (state : State) (height : Nat) :
    cacheLookup state height "" =
      ((state.HeightCache.lookup height).getD 0, (state.HeightCache.lookup height).isSome) := by
  simp [cacheLookup]

theorem cacheLookup_nonempty_hash (state : State) (height : Nat) (hash : String)
    (hne : hash ≠ "") :
    cacheLookup state height hash =
      ((state.HashCache.lookup hash).getD 0, (state.HashCache.lookup hash).isSome) := by
  simp [cacheLookup, hne]

/-- C17: with `params` the segments of the URL path after the first one and `p`
the second of them, trimmed: when `p` is missing or empty the handler answers
with the error "height or hash param is required" and does no lookup; when
`p` parses as a decimal `uint64`, the handler answers with the result of the
lookup by that height, with an empty hash, which reads the height index; when
`p` does not parse, it answers with the result of the lookup with the hash `p`,
which reads the hash index whatever the height. -/
theorem getBlockByNumberOrHashHandler_lookup (J : Json) (M : ResCodec) (os : OS)
    (w : ResponseWriter) (urlPath : String) (node : Node)
    (params : List (List Char)) (p : List Char)
    (hparams : params = (splitSep '/' urlPath.toList).drop 1)
    (hp : p = TrimSpace (params.getD 1 [])) :
    ((params.length < 2 ∨ p = []) →
      getBlockByNumberOrHashHandler J M os w urlPath node =
        (os, writeErrRes (enableCors w) errorParamsRequired)) ∧
    (2 ≤ params.length → p ≠ [] → ∀ n, ParseUint p = (n, none) →
      getBlockByNumberOrHashHandler J M os w urlPath node =
        blockResponse M (enableCors w)
          (GetBlockByHeightOrHash J os node.state n "" node.dataDir) ∧
      cacheLookup node.state n "" =
        ((node.state.HeightCache.lookup n).getD 0, (node.state.HeightCache.lookup n).isSome)) ∧
    (2 ≤ params.length → p ≠ [] → (ParseUint p).2 ≠ none →
      getBlockByNumberOrHashHandler J M os w urlPath node =
        blockResponse M (enableCors w)
          (GetBlockByHeightOrHash J os node.state (ParseUint p).1 (String.mk p) node.dataDir) ∧
      ∀ height, cacheLookup node.state height (String.mk p) =
        ((node.state.HashCache.lookup (String.mk p)).getD 0,
         (node.state.HashCache.lookup (String.mk p)).isSome)) := by
  subst hparams
  subst hp
  refine ⟨?_, ?_, ?_⟩
  · intro h
    unfold getBlockByNumberOrHashHandler
    simp only []
    by_cases hlen : ((splitSep '/' urlPath.toList).drop 1).length < 2
    · rw [if_pos hlen]
    · rw [if_neg hlen]
      rcases h with h | h
      · exact absurd h hlen
      · rw [if_pos (by rw [h]; rfl)]
  · intro hlen hne n hn
    refine ⟨?_, cacheLookup_empty_hash _ _⟩
    unfold getBlockByNumberOrHashHandler
    simp only []
    rw [if_neg (by omega), if_neg (by simpa using hne), hn]
    rfl
  · intro hlen hne herr
    refine ⟨?_, fun height =>
      cacheLookup_nonempty_hash _ _ _ (String.mk_ne_empty_of_ne_nil _ hne)⟩
    unfold getBlockByNumberOrHashHandler
    simp only []
    rw [if_neg (by omega), if_neg (by simpa using hne)]
    have : (ParseUint (TrimSpace (((splitSep '/' urlPath.toList).drop 1).getD 1 []))).2.isSome
        = true := by
      rcases hq : (ParseUint (TrimSpace (((splitSep '/' urlPath.toList).drop 1).getD 1 []))).2
        with _ | e
      · exact absurd hq herr
      · rfl
    rw [this]
    rfl

/-- C17 (witness): the paths `/block/1`, `/block/<hash of block 1>` and `/block/` on
a node whose indexes know block 1: the first two are answered with the record
of block 1, the third with the error. -/
theorem getBlockByNumberOrHashHandler_lookup_witness :
    (getBlockByNumberOrHashHandler demoJson demoResCodec (demoOS (logBytes demoLines))
        emptyWriter "/block/1" explorerNode =
      blockResponse demoResCodec (enableCors emptyWriter)
        (GetBlockByHeightOrHash demoJson (demoOS (logBytes demoLines)) explorerNode.state 1 ""
          explorerNode.dataDir)) ∧
    (getBlockByNumberOrHashHandler demoJson demoResCodec (demoOS (logBytes demoLines))
        emptyWriter "/block/1" explorerNode).2.body = [Content.BlockFS (demoRecord 1)] ∧
    (getBlockByNumberOrHashHandler demoJson demoResCodec (demoOS (logBytes demoLines))
        emptyWriter "/block/0000010100000000000000000000000000000000000000000000000000000000"
        explorerNode).2.body = [Content.BlockFS (demoRecord 1)] ∧
    (getBlockByNumberOrHashHandler demoJson demoResCodec (demoOS (logBytes demoLines))
        emptyWriter "/block/" explorerNode =
      (demoOS (logBytes demoLines), writeErrRes (enableCors emptyWriter) errorParamsRequired)) :=
  ⟨((getBlockByNumberOrHashHandler_lookup demoJson demoResCodec (demoOS (logBytes demoLines))
      emptyWriter "/block/1" explorerNode ["block".toList, "1".toList] "1".toList
      (by decide) (by decide)).2.1 (by decide) (by decide) 1 (by decide)).1,
   by decide, by decide,
   (getBlockByNumberOrHashHandler_lookup demoJson demoResCodec (demoOS (logBytes demoLines))
      emptyWriter "/block/" explorerNode ["block".toList, []] [] (by decide) (by decide)).1
      (Or.inr rfl)⟩

/-! ## Further properties of the proof-of-work predicate -/

theorem IsBlockHashValid_true_iff (h : Hash) {k : Nat} (hk : k < 32) :
    IsBlockHashValid h k = some true ↔
      (∀ i, i < k → h.index i = some 0) ∧ h.index k ≠ some 0 := by
  obtain ⟨b, hb⟩ := h.index_lt hk
  have hzb := zeroBytes_eq_iff h (show k ≤ 32 by omega)
  rw [IsBlockHashValid_eq h hk hb, Option.some.injEq, decide_eq_true_iff, hb]
  constructor
  · rintro ⟨h0, hz⟩
    exact ⟨hzb.1 hz, fun hh => h0 (Option.some.inj hh)⟩
  · rintro ⟨hz, h0⟩
    exact ⟨fun hh => h0 (by rw [hh]), hzb.2 hz⟩

/-- C27: a hash is valid at no more than one difficulty below 32: if
`IsBlockHashValid` is true at `k1` and at `k2`, then `k1 = k2`. -/
theorem IsBlockHashValid_unique (h : Hash) (k1 k2 : Nat) (h1 : k1 < 32) (h2 : k2 < 32)
    (hv1 : IsBlockHashValid h k1 = some true) (hv2 : IsBlockHashValid h k2 = some true) :
    k1 = k2 := by
  obtain ⟨z1, n1⟩ := (IsBlockHashValid_true_iff h h1).1 hv1
  obtain ⟨z2, n2⟩ := (IsBlockHashValid_true_iff h h2).1 hv2
  rcases Nat.lt_trichotomy k1 k2 with hlt | heq | hgt
  · exact absurd (z2 k1 hlt) n1
  · exact heq
  · exact absurd (z1 k2 hgt) n2

/-- C27 (witness): the hash of `TestValidBlockHash` is valid at difficulty 2, and at
no other difficulty below 32. -/
theorem IsBlockHashValid_unique_witness :
    IsBlockHashValid testValidHash 2 = some true ∧
    (∀ k, k < 32 → IsBlockHashValid testValidHash k = some true → k = 2) :=
  ⟨by decide, fun k hk hv =>
    IsBlockHashValid_unique testValidHash k 2 hk (by decide) hv (by decide)⟩

theorem foldlM_zeroesStep_none (h : Hash) (l : List Nat) (z : Nat) :
    (32 :: l).foldlM (zeroesStep h) z = none := by
  rw [List.foldlM_cons]
  have : zeroesStep h z 32 = none := by
    simp [zeroesStep, Hash.index_ge h (Nat.le_refl 32)]
  rw [this]
  rfl

theorem range_eq_append_of_lt {k : Nat} (hk : 32 < k) :
    ∃ l, List.range k = List.range 32 ++ 32 :: l := by
  refine ⟨(List.range' 33 (k - 33)), ?_⟩
  rw [List.range_eq_range', List.range_eq_range']
  have h1 : List.range' 0 k = List.range' 0 32 ++ List.range' 32 (k - 32) := by
    rw [List.range'_append_1]
    congr 1
    omega
  rw [h1]
  congr 1
  rw [show k - 32 = (k - 33) + 1 by omega]
  rfl

theorem IsBlockHashValid_out_of_range (h : Hash) {k : Nat} (hk : 32 ≤ k) :
    IsBlockHashValid h k = none := by
  unfold IsBlockHashValid
  rcases Nat.eq_or_lt_of_le hk with heq | hlt
  · subst heq
    rw [foldlM_zeroesStep h 32 (Nat.le_refl 32)]
    simp [Hash.index_ge h (Nat.le_refl 32)]
  · obtain ⟨l, hl⟩ := range_eq_append_of_lt hlt
    rw [hl, List.foldlM_append, foldlM_zeroesStep h 32 (Nat.le_refl 32)]
    simp only [Option.bind_eq_bind, Option.some_bind]
    rw [foldlM_zeroesStep_none]
    rfl

/-- C28: `IsBlockHashValid` stays inside the 32 bytes of the hash exactly when the
difficulty is at most 31: for `k ≤ 31` every access is in range and a boolean
is returned, for `k ≥ 32` the evaluation reaches an access out of range. -/
theorem IsBlockHashValid_in_range_iff (h : Hash) (k : Nat) :
    (k ≤ 31 → (∀ i, i ≤ k → ∃ b, h.index i = some b) ∧
      ∃ r, IsBlockHashValid h k = some r) ∧
    (32 ≤ k → IsBlockHashValid h k = none) ∧
    ((∃ r, IsBlockHashValid h k = some r) ↔ k ≤ 31) := by
  have hin : k ≤ 31 → ∃ r, IsBlockHashValid h k = some r := by
    intro hk
    obtain ⟨b, hb⟩ := h.index_lt (show k < 32 by omega)
    exact ⟨_, IsBlockHashValid_eq h (by omega) hb⟩
  refine ⟨fun hk => ⟨fun i hi => h.index_lt (by omega), hin hk⟩,
    fun hk => IsBlockHashValid_out_of_range h hk, ⟨?_, hin⟩⟩
  rintro ⟨r, hr⟩
  by_contra hk
  rw [IsBlockHashValid_out_of_range h (by omega)] at hr
  exact absurd hr (by simp)

/-- C28 (witness): the hash of `TestValidBlockHash` at the difficulties 31 and 32. -/
theorem IsBlockHashValid_in_range_iff_witness :
    (∃ r, IsBlockHashValid testValidHash 31 = some r) ∧
    IsBlockHashValid testValidHash 32 = none :=
  ⟨((IsBlockHashValid_in_range_iff testValidHash 31).1 (by decide)).2,
   (IsBlockHashValid_in_range_iff testValidHash 32).2.1 (by decide)⟩

/-! ## Further properties of the gas reward -/

theorem Block.GasReward_sum_mod (b : Block) :
    b.GasReward = (b.Txs.map (fun tx => tx.GasCost)).sum % uintSize := by
  unfold Block.GasReward
  rw [foldl_GasReward b.Txs 0 uintSize_pos, Nat.zero_add]

/-- C29: the gas reward of a block does not depend on the order of its
transactions, and the gas reward of a block whose transactions are the
concatenation of two lists is the sum, in `uint` arithmetic, of the gas rewards
of the blocks with the two lists. -/
theorem Block.GasReward_perm_append (header : BlockHeader) (txs1 txs2 : List SignedTx) :
    (txs1.Perm txs2 →
      (Block.mk header txs1).GasReward = (Block.mk header txs2).GasReward) ∧
    (Block.mk header (txs1 ++ txs2)).GasReward =
      ((Block.mk header txs1).GasReward + (Block.mk header txs2).GasReward) % uintSize := by
  constructor
  · intro hp
    rw [Block.GasReward_sum_mod, Block.GasReward_sum_mod]
    simp only []
    rw [(hp.map (fun tx => tx.GasCost)).sum_eq]
  · rw [Block.GasReward_sum_mod, Block.GasReward_sum_mod, Block.GasReward_sum_mod]
    simp only [List.map_append, List.sum_append]
    rw [← Nat.add_mod]

/-- C29 (witness): the two orders of `signedTx1` and `signedTx2`. -/
theorem Block.GasReward_perm_append_witness :
    [signedTx1, signedTx2].Perm [signedTx2, signedTx1] ∧
    (Block.mk syncedBlock.Header [signedTx1, signedTx2]).GasReward =
      (Block.mk syncedBlock.Header [signedTx2, signedTx1]).GasReward :=
  ⟨List.Perm.swap _ _ _,
   (Block.GasReward_perm_append syncedBlock.Header [signedTx1, signedTx2]
      [signedTx2, signedTx1]).1 (List.Perm.swap _ _ _)⟩

/-! ## Properties of the block template -/

theorem foldlM_pendingTXsStep (rest : List (Sigma (fun _ : String => SignedTx))) :
    ∀ (done : List SignedTx),
      rest.foldlM pendingTXsStep (done ++ List.replicate rest.length SignedTx.zero, done.length) =
        some (done ++ rest.map (fun e => e.2), done.length + rest.length) := by
  induction rest with
  | nil => intro done; simp
  | cons e rest ih =>
    intro done
    rw [List.foldlM_cons]
    have hlt : done.length < (done ++ List.replicate (e :: rest).length SignedTx.zero).length := by
      simp
    have hstep : pendingTXsStep
        (done ++ List.replicate (e :: rest).length SignedTx.zero, done.length) e =
        some ((done ++ [e.2]) ++ List.replicate rest.length SignedTx.zero,
          (done ++ [e.2]).length) := by
      unfold pendingTXsStep
      rw [if_pos hlt]
      simp [List.replicate_succ]
    rw [hstep]
    simp only [Option.bind_eq_bind, Option.some_bind]
    rw [ih (done ++ [e.2])]
    simp only [List.append_assoc, List.singleton_append, List.map_cons, List.length_append,
      List.length_cons, List.length_nil]
    congr 2
    omega

theorem IsRangeOf.length {order : List (Sigma (fun _ : String => SignedTx))}
    {m : GoMap String SignedTx} (h : IsRangeOf order m) : order.length = m.keys.card := by
  unfold IsRangeOf at h
  have : m.keys.card = Multiset.card m.entries := by
    simp [Finmap.keys, Multiset.keys]
  rw [this, ← h]
  rfl

theorem getPendingTXsAsArray_eq (n : Node) (order : List (Sigma (fun _ : String => SignedTx)))
    (h : IsRangeOf order n.pendingTXs) :
    getPendingTXsAsArray n order = some (order.map (fun e => e.2)) := by
  unfold getPendingTXsAsArray
  have := foldlM_pendingTXsStep order []
  simp only [List.nil_append, List.length_nil] at this
  simp only []
  rw [← h.length, this]
  rfl

theorem blockToMine_eq {PB : Type}
    (newPendingBlock : Hash → Nat → Address → List SignedTx → PB) (n : Node)
    (order : List (Sigma (fun _ : String => SignedTx))) (h : IsRangeOf order n.pendingTXs) :
    blockToMine newPendingBlock n order = some (newPendingBlock n.state.latestBlockHash
      ((n.state.latestBlock.Header.Number + 1) % uint64Size) n.info.Account
      (order.map (fun e => e.2))) := by
  unfold blockToMine
  rw [getPendingTXsAsArray_eq n order h]
  rfl

theorem node1Order_isRangeOf : IsRangeOf node1Order node1.pendingTXs := by
  decide

theorem node2Order_isRangeOf : IsRangeOf node2Order node2.pendingTXs := by
  decide

/-- C22 (as amended): for a node whose confirmed state holds no block yet (the
latest hash is empty and the latest block is the zero block, of number 0), the
template that `minePendingTXs` builds is `NewPendingBlock` of the empty parent
hash, the number 1, the account of the node and the transactions of the
mempool. -/
theorem blockToMine_first_block {PB : Type}
    (newPendingBlock : Hash → Nat → Address → List SignedTx → PB) (n : Node)
    (order : List (Sigma (fun _ : String => SignedTx)))
    (h : IsRangeOf order n.pendingTXs) (hh : n.state.latestBlockHash = Hash.zero)
    (hn : n.state.latestBlock.Header.Number = 0) :
    blockToMine newPendingBlock n order =
      some (newPendingBlock Hash.zero 1 n.info.Account (order.map (fun e => e.2))) := by
  rw [blockToMine_eq newPendingBlock n order h, hh, hn]
  rfl

/-- C22 (witness): the node `node1`, on the empty chain with `signedTx1` pending;
the template has the number 1 and the empty parent hash. -/
theorem blockToMine_first_block_witness :
    IsRangeOf node1Order node1.pendingTXs ∧ node1.state.latestBlockHash = Hash.zero ∧
    node1.state.latestBlock.Header.Number = 0 ∧
    blockToMine (NewPendingBlock 20) node1 node1Order =
      some (NewPendingBlock 20 Hash.zero 1 node1.info.Account
        (node1Order.map (fun e => e.2))) :=
  ⟨by decide, by decide, by decide,
   blockToMine_first_block (NewPendingBlock 20) node1 node1Order (by decide) (by decide)
     (by decide)⟩

/-- C22 (counterexample): the confirmed state of `node1` holds no block (no genesis
block, empty latest hash), and the template built for it has the number 1,
not 0. -/
theorem blockToMine_number_not_zero :
    node1.state.hasGenesisBlock = false ∧ node1.state.latestBlockHash = Hash.zero ∧
    IsRangeOf node1Order node1.pendingTXs ∧
    blockToMine (NewPendingBlock 20) node1 node1Order =
      some (NewPendingBlock 20 Hash.zero 1 patrick [signedTx1]) ∧
    (NewPendingBlock 20 Hash.zero 1 patrick [signedTx1]).number = 1 ∧
    (NewPendingBlock 20 Hash.zero 1 patrick [signedTx1]).number ≠ 0 := by
  decide

/-- C23: the template that `minePendingTXs` builds and hands to the miner is
`NewPendingBlock` of the latest block hash of the confirmed state as parent,
the number of the latest block plus 1 (in `uint64` arithmetic) as number, the
account of the node as miner, and as transactions the values of the mempool,
each once, in the order of the visit; the list is as long as the mempool is
large. -/
theorem blockToMine_spec {PB : Type} (E : Env)
    (newPendingBlock : Hash → Nat → Address → List SignedTx → PB) (n : Node)
    (order : List (Sigma (fun _ : String => SignedTx)))
    (h : IsRangeOf order n.pendingTXs) :
    ∃ (number : Nat) (txs : List SignedTx),
      blockToMine newPendingBlock n order =
        some (newPendingBlock n.state.latestBlockHash number n.info.Account txs) ∧
      number = (n.state.latestBlock.Header.Number + 1) % uint64Size ∧
      (n.state.latestBlock.Header.Number + 1 < uint64Size →
        number = n.state.latestBlock.Header.Number + 1) ∧
      (txs : Multiset SignedTx) = n.pendingTXs.entries.map (fun e => e.2) ∧
      txs.length = n.pendingTXs.keys.card ∧
      ∀ mine : PB → Nat → Block × Option Error,
        minePendingTXs E newPendingBlock mine n order =
          match mine (newPendingBlock n.state.latestBlockHash number n.info.Account txs)
              n.miningDifficulty with
          | (_, some err) => some (n, some err)
          | (minedBlock, none) =>
            some (addBlock E (removeMinedPendingTXs E n minedBlock) minedBlock) := by
  refine ⟨_, _, blockToMine_eq newPendingBlock n order h, rfl, ?_, ?_, ?_, ?_⟩
  · intro hlt
    exact Nat.mod_eq_of_lt hlt
  · have he : n.pendingTXs.entries = (order : Multiset _) := h.symm
    rw [he]
    rfl
  · simp [h.length]
  · intro mine
    unfold minePendingTXs
    rw [blockToMine_eq newPendingBlock n order h]

/-- C23 (witness): the node `node2`, whose mempool holds `signedTx1` and `signedTx2`,
visited with `signedTx2` first, and the template as a record of its parts. -/
theorem blockToMine_spec_witness :
    IsRangeOf node2Order node2.pendingTXs ∧
    ∃ (number : Nat) (txs : List SignedTx),
      blockToMine (NewPendingBlock 20) node2 node2Order =
        some (NewPendingBlock 20 node2.state.latestBlockHash number node2.info.Account txs) ∧
      number = (node2.state.latestBlock.Header.Number + 1) % uint64Size ∧
      (node2.state.latestBlock.Header.Number + 1 < uint64Size →
        number = node2.state.latestBlock.Header.Number + 1) ∧
      (txs : Multiset SignedTx) = node2.pendingTXs.entries.map (fun e => e.2) ∧
      txs.length = node2.pendingTXs.keys.card ∧
      ∀ mine : PendingBlock → Nat → Block × Option Error,
        minePendingTXs demoEnv (NewPendingBlock 20) mine node2 node2Order =
          match mine (NewPendingBlock 20 node2.state.latestBlockHash number
              node2.info.Account txs) node2.miningDifficulty with
          | (_, some err) => some (node2, some err)
          | (minedBlock, none) =>
            some (addBlock demoEnv (removeMinedPendingTXs demoEnv node2 minedBlock) minedBlock) :=
  ⟨by decide, blockToMine_spec demoEnv (NewPendingBlock 20) node2 node2Order (by decide)⟩

/-! ## The read handles of the block log -/

theorem GetBlocksAfter_openHandles (J : Json) (os : OS) (h : Hash) (dataDir : String)
    {content : List Byte} (hf : os.files (getBlocksDbFilePath dataDir) = some content) :
    (GetBlocksAfter J os h dataDir).1.openHandles = os.openHandles + 1 := by
  unfold GetBlocksAfter OS.OpenFile
  rw [hf]

theorem GetBlockByHeightOrHash_openHandles (J : Json) (os : OS) (state : State) (height : Nat)
    (hash dataDir : String) :
    (GetBlockByHeightOrHash J os state height hash dataDir).1.openHandles = os.openHandles := by
  unfold GetBlockByHeightOrHash OS.OpenFile
  simp only []
  split
  · split <;> rfl
  · split
    · rfl
    · rename_i heq
      split at heq
      · exact absurd heq (by simp)
      · simp only [Except.ok.injEq, Prod.mk.injEq] at heq
        obtain ⟨h1, -⟩ := heq
        subst h1
        split
        · simp [OS.Close]
        · split <;> simp [OS.Close]

/-- C25: on the log of three records `GetBlocksAfter` returns all three blocks
without error and leaves open the handle it opened: no handle is open before
the call, one is open after it. -/
theorem GetBlocksAfter_leaves_handle_open :
    (demoOS (logBytes demoLines)).openHandles = 0 ∧
    (GetBlocksAfter demoJson (demoOS (logBytes demoLines)) Hash.zero "data").2 =
      (some (demoRecs.map (fun r => r.Value)), none) ∧
    (GetBlocksAfter demoJson (demoOS (logBytes demoLines)) Hash.zero "data").1.openHandles = 1 := by
  decide

/-! ## The mempool and the archive -/

theorem AddPendingTX_disjoint (E : Env) (n : Node) (tx : SignedTx) (p : PeerNode)
    (h : Disjoint n.pendingTXs.keys n.archivedTXs.keys) :
    Disjoint (AddPendingTX E n tx p).1.pendingTXs.keys
      (AddPendingTX E n tx p).1.archivedTXs.keys := by
  rcases hj : E.prim.jsonMarshalTx tx with err | j
  · rw [AddPendingTX_of_marshal_error E n tx p hj]
    exact h
  · rcases hv : (E.ApplyTx tx n.pendingState).2 with _ | err
    · rw [AddPendingTX_of_validated E n tx p hj hv]
      split
      · rename_i hc
        have hins : Disjoint (n.pendingTXs.insert (txKey E tx) tx).keys n.archivedTXs.keys := by
          rw [Finset.disjoint_left] at h ⊢
          intro key hk ha
          simp only [Finmap.mem_keys, Finmap.mem_insert] at hk ha
          rcases hk with rfl | hk
          · have := (Finmap.lookup_isSome.2 ha)
            rw [hc.2] at this
            exact absurd this (by simp)
          · exact h (Finmap.mem_keys.2 hk) (Finmap.mem_keys.2 ha)
        split
        · exact hins
        · exact hins
      · exact h
    · rw [AddPendingTX_of_rejected E n tx p hj hv]
      exact h

theorem removeMinedPendingTX_disjoint (E : Env) (n : Node) (tx : SignedTx)
    (h : Disjoint n.pendingTXs.keys n.archivedTXs.keys) :
    Disjoint (removeMinedPendingTX E n tx).pendingTXs.keys
      (removeMinedPendingTX E n tx).archivedTXs.keys := by
  rw [removeMinedPendingTX_eq]
  split
  · rw [Finset.disjoint_left] at h ⊢
    intro key hk ha
    simp only [Finmap.mem_keys, Finmap.mem_insert, Finmap.mem_erase] at hk ha
    rcases ha with rfl | ha
    · exact hk.1 rfl
    · exact h (Finmap.mem_keys.2 hk.2) (Finmap.mem_keys.2 ha)
  · exact h

theorem removeMinedPendingTXs_disjoint (E : Env) (block : Block) :
    ∀ n : Node, Disjoint n.pendingTXs.keys n.archivedTXs.keys →
      Disjoint (removeMinedPendingTXs E n block).pendingTXs.keys
        (removeMinedPendingTXs E n block).archivedTXs.keys := by
  unfold removeMinedPendingTXs
  induction block.Txs with
  | nil => intro n h; exact h
  | cons tx rest ih =>
    intro n h
    rw [List.foldl_cons]
    exact ih _ (removeMinedPendingTX_disjoint E n tx h)

theorem runCalls_disjoint (E : Env) (calls : List MempoolCall) :
    ∀ n : Node, Disjoint n.pendingTXs.keys n.archivedTXs.keys →
      Disjoint (runCalls E n calls).pendingTXs.keys (runCalls E n calls).archivedTXs.keys := by
  unfold runCalls
  induction calls with
  | nil => intro n h; exact h
  | cons c rest ih =>
    intro n h
    rw [List.foldl_cons]
    apply ih
    cases c with
    | AddPendingTX tx p => exact AddPendingTX_disjoint E n tx p h
    | removeMinedPendingTXs block => exact removeMinedPendingTXs_disjoint E block n h

/-- C26: from a node as `New` creates it, after every sequence of calls of
`AddPendingTX` and `removeMinedPendingTXs` the key sets of the mempool and of the
archive are disjoint. -/
theorem mempool_archive_disjoint (E : Env) (dataDir ip : String) (port : Nat) (acc : Address)
    (bootstrap : PeerNode) (miningDifficulty : Nat) (state pendingState : State)
    (calls : List MempoolCall) :
    Disjoint
      (runCalls E (New dataDir ip port acc bootstrap miningDifficulty state pendingState)
        calls).pendingTXs.keys
      (runCalls E (New dataDir ip port acc bootstrap miningDifficulty state pendingState)
        calls).archivedTXs.keys := by
  apply runCalls_disjoint
  simp [New]

/-! ## The responses of the handlers -/

theorem writeErrRes_fresh (w : ResponseWriter) (err : ErrValue) (hs : w.status = none) :
    (writeErrRes w err).status = some StatusBadRequest ∧
    (writeErrRes w err).body = w.body ++ [Content.ErrRes err] := by
  simp [writeErrRes, ResponseWriter.Write, ResponseWriter.WriteHeader, ResponseWriter.SetHeader, hs]

theorem writeRes_fresh (M : ResCodec) (w : ResponseWriter) (content : Content)
    (hs : w.status = none) (hm : M.marshalError content = none) :
    (writeRes M w content).status = some StatusOK ∧
    (writeRes M w content).body = w.body ++ [content] := by
  simp [writeRes, hm, ResponseWriter.Write, ResponseWriter.WriteHeader,
    ResponseWriter.SetHeader, hs]

/-- C24: the request of patrick, who owns nothing, is rejected by `AddPendingTX` with
the error of insufficient funds; the response of `txAddHandler` has the status
400 and a body of two documents, the error and then `TxAddRes` with
`Success: true`; the mempool stays empty. The request of spongebob, which is
admitted, is answered with the status 200 and `TxAddRes` alone. -/
theorem txAddHandler_rejected_writes_success :
    (txAddHandler demoEnv demoResCodec demoTxAddEnv emptyWriter poorRequest node0).2.status =
      some StatusBadRequest ∧
    (txAddHandler demoEnv demoResCodec demoTxAddEnv emptyWriter poorRequest node0).2.body =
      [Content.ErrRes (ErrValue.Database Error.Insufficient), Content.TxAddRes true] ∧
    (txAddHandler demoEnv demoResCodec demoTxAddEnv emptyWriter poorRequest node0).1.pendingTXs =
      ∅ ∧
    (txAddHandler demoEnv demoResCodec demoTxAddEnv emptyWriter richRequest node0).2.status =
      some StatusOK ∧
    (txAddHandler demoEnv demoResCodec demoTxAddEnv emptyWriter richRequest node0).2.body =
      [Content.TxAddRes true] := by
  decide

theorem enableCors_fresh (w : ResponseWriter) :
    (enableCors w).status = w.status ∧ (enableCors w).body = w.body := by
  simp [enableCors, ResponseWriter.SetHeader]

theorem writeErrRes_empty (w : ResponseWriter) (err : ErrValue) (hs : w.status = none)
    (hb : w.body = []) :
    (writeErrRes w err).status = some StatusBadRequest ∧
    (writeErrRes w err).body = [Content.ErrRes err] := by
  have h := writeErrRes_fresh w err hs
  rw [hb] at h
  exact h

theorem writeRes_of_marshal_error (M : ResCodec) (w : ResponseWriter) (content : Content)
    (err : ErrValue) (hm : M.marshalError content = some err) :
    writeRes M w content = writeErrRes w err := by
  simp [writeRes, hm]

theorem writeRes_empty (M : ResCodec) (w : ResponseWriter) (content : Content)
    (hs : w.status = none) (hb : w.body = []) (hm : M.marshalError content = none) :
    (writeRes M w content).status = some StatusOK ∧ (writeRes M w content).body = [content] := by
  have h := writeRes_fresh M w content hs hm
  rw [hb] at h
  exact h

theorem syncHandler_of_hex_error (J : Json) (M : ResCodec) (os : OS) (w : ResponseWriter)
    (reqHash : List Char) (node : Node) (h : Hash) (err : HexError)
    (hu : Hash.zero.UnmarshalText reqHash = some (h, some err)) :
    syncHandler J M os w reqHash node = some (os, writeErrRes w (ErrValue.Hex err)) := by
  unfold syncHandler
  simp only [hu]

theorem syncHandler_of_log_error (J : Json) (M : ResCodec) (os : OS) (w : ResponseWriter)
    (reqHash : List Char) (node : Node) (hash : Hash) (blocks : Option (List Block))
    (err : Error) (hu : Hash.zero.UnmarshalText reqHash = some (hash, none))
    (hg : (GetBlocksAfter J os hash node.dataDir).2 = (blocks, some err)) :
    syncHandler J M os w reqHash node =
      some ((GetBlocksAfter J os hash node.dataDir).1,
        writeErrRes w (ErrValue.Database err)) := by
  unfold syncHandler
  simp only [hu]
  rcases hr : GetBlocksAfter J os hash node.dataDir with ⟨os1, b, e⟩
  rw [hr] at hg
  simp only [Prod.mk.injEq] at hg
  obtain ⟨rfl, rfl⟩ := hg
  rfl

theorem syncHandler_of_blocks (J : Json) (M : ResCodec) (os : OS) (w : ResponseWriter)
    (reqHash : List Char) (node : Node) (hash : Hash) (blocks : Option (List Block))
    (hu : Hash.zero.UnmarshalText reqHash = some (hash, none))
    (hg : (GetBlocksAfter J os hash node.dataDir).2 = (blocks, none)) :
    syncHandler J M os w reqHash node =
      some ((GetBlocksAfter J os hash node.dataDir).1,
        writeRes M w (Content.SyncRes blocks)) := by
  unfold syncHandler
  simp only [hu]
  rcases hr : GetBlocksAfter J os hash node.dataDir with ⟨os1, b, e⟩
  rw [hr] at hg
  simp only [Prod.mk.injEq] at hg
  obtain ⟨rfl, rfl⟩ := hg
  rfl

theorem GetBlocksAfter_of_no_log (J : Json) (os : OS) (hash : Hash) (dataDir : String)
    (hf : os.files (getBlocksDbFilePath dataDir) = none) :
    GetBlocksAfter J os hash dataDir = (os, none, some Error.IOFailure) := by
  unfold GetBlocksAfter OS.OpenFile
  rw [hf]

theorem GetBlockByHeightOrHash_of_no_log (J : Json) (os : OS) (state : State) (height : Nat)
    (hash dataDir : String) (hc : (cacheLookup state height hash).2 = true)
    (hf : os.files (getBlocksDbFilePath dataDir) = none) :
    GetBlockByHeightOrHash J os state height hash dataDir =
      (os, BlockFS.zero, some Error.IOFailure) := by
  unfold GetBlockByHeightOrHash OS.OpenFile
  rcases hl : cacheLookup state height hash with ⟨key, ok⟩
  rw [hl] at hc
  simp only [] at hc
  subst hc
  simp only [hf]

theorem getBlockByNumberOrHashHandler_of_no_param (J : Json) (M : ResCodec) (os : OS)
    (w : ResponseWriter) (urlPath : String) (node : Node)
    (h : ((splitSep '/' urlPath.toList).drop 1).length < 2 ∨
      TrimSpace (((splitSep '/' urlPath.toList).drop 1).getD 1 []) = []) :
    getBlockByNumberOrHashHandler J M os w urlPath node =
      (os, writeErrRes (enableCors w) errorParamsRequired) := by
  unfold getBlockByNumberOrHashHandler
  simp only []
  by_cases hlen : ((splitSep '/' urlPath.toList).drop 1).length < 2
  · rw [if_pos hlen]
  · rw [if_neg hlen]
    rcases h with h | h
    · exact absurd h hlen
    · rw [if_pos (by rw [h]; rfl)]

theorem getBlockByNumberOrHashHandler_of_param (J : Json) (M : ResCodec) (os : OS)
    (w : ResponseWriter) (urlPath : String) (node : Node)
    (hlen : 2 ≤ ((splitSep '/' urlPath.toList).drop 1).length)
    (hne : TrimSpace (((splitSep '/' urlPath.toList).drop 1).getD 1 []) ≠ []) :
    getBlockByNumberOrHashHandler J M os w urlPath node =
      blockResponse M (enableCors w)
        (blockLookup J os node
          (TrimSpace (((splitSep '/' urlPath.toList).drop 1).getD 1 []))) := by
  unfold getBlockByNumberOrHashHandler blockLookup
  simp only []
  rw [if_neg (by omega), if_neg (by simpa using hne)]

theorem blockResponse_of_error (M : ResCodec) (w : ResponseWriter)
    (r : OS × BlockFS × Option Error) (block : BlockFS) (err : Error)
    (hr : r.2 = (block, some err)) :
    (blockResponse M w r).2 = writeErrRes w (ErrValue.Database err) := by
  obtain ⟨os1, b, e⟩ := r
  simp only [Prod.mk.injEq] at hr
  obtain ⟨rfl, rfl⟩ := hr
  rfl

theorem blockResponse_of_block (M : ResCodec) (w : ResponseWriter)
    (r : OS × BlockFS × Option Error) (block : BlockFS) (hr : r.2 = (block, none)) :
    (blockResponse M w r).2 = writeRes M w (Content.BlockFS block) := by
  obtain ⟨os1, b, e⟩ := r
  simp only [Prod.mk.injEq] at hr
  obtain ⟨rfl, rfl⟩ := hr
  rfl

theorem status_ne_500_of_400 {s : Option Nat} (h : s = some StatusBadRequest) :
    s ≠ some StatusInternalServerError := by
  rw [h]
  decide

theorem status_ne_500_of_200 {s : Option Nat} (h : s = some StatusOK) :
    s ≠ some StatusInternalServerError := by
  rw [h]
  decide

theorem writeRes_status_ne_500 (M : ResCodec) (w : ResponseWriter) (content : Content)
    (hs : w.status = none) (hb : w.body = []) :
    (writeRes M w content).status ≠ some StatusInternalServerError := by
  rcases hm : M.marshalError content with _ | err
  · exact status_ne_500_of_200 (writeRes_empty M w content hs hb hm).1
  · rw [writeRes_of_marshal_error M w content err hm]
    exact status_ne_500_of_400 (writeErrRes_empty w err hs hb).1

/-- C21 (as amended): the responses of `syncHandler` (to `/node/sync`) and of
`getBlockByNumberOrHashHandler` (to `/block/`), on a response on which nothing
is written yet. Every failure is answered with the status 400 and the one
document `ErrRes` of its error: a parameter that is missing or does not decode,
an error of the read of the block log (of which a log that cannot be opened is
one), an error of the encoding of the result. A request without failure is
answered with the status 200 and the result. Neither handler answers with the
status 500. -/
theorem handlers_report_failures_with_400 (J : Json) (M : ResCodec) (os : OS)
    (w : ResponseWriter) (hs : w.status = none) (hb : w.body = []) :
    (∀ reqHash node h err, Hash.zero.UnmarshalText reqHash = some (h, some err) →
      (syncHandler J M os w reqHash node).map (fun r => (r.2.status, r.2.body)) =
        some (some StatusBadRequest, [Content.ErrRes (ErrValue.Hex err)])) ∧
    (∀ reqHash node hash, Hash.zero.UnmarshalText reqHash = some (hash, none) →
      (∀ blocks err, (GetBlocksAfter J os hash node.dataDir).2 = (blocks, some err) →
        (syncHandler J M os w reqHash node).map (fun r => (r.2.status, r.2.body)) =
          some (some StatusBadRequest, [Content.ErrRes (ErrValue.Database err)])) ∧
      (∀ blocks, (GetBlocksAfter J os hash node.dataDir).2 = (blocks, none) →
        (∀ err, M.marshalError (Content.SyncRes blocks) = some err →
          (syncHandler J M os w reqHash node).map (fun r => (r.2.status, r.2.body)) =
            some (some StatusBadRequest, [Content.ErrRes err])) ∧
        (M.marshalError (Content.SyncRes blocks) = none →
          (syncHandler J M os w reqHash node).map (fun r => (r.2.status, r.2.body)) =
            some (some StatusOK, [Content.SyncRes blocks]))) ∧
      (os.files (getBlocksDbFilePath node.dataDir) = none →
        (GetBlocksAfter J os hash node.dataDir).2 = (none, some Error.IOFailure))) ∧
    (∀ reqHash node r, syncHandler J M os w reqHash node = some r →
      r.2.status ≠ some StatusInternalServerError) ∧
    (∀ urlPath node params p, params = (splitSep '/' urlPath.toList).drop 1 →
      p = TrimSpace (params.getD 1 []) →
      ((params.length < 2 ∨ p = []) →
        (getBlockByNumberOrHashHandler J M os w urlPath node).2.status =
          some StatusBadRequest ∧
        (getBlockByNumberOrHashHandler J M os w urlPath node).2.body =
          [Content.ErrRes errorParamsRequired]) ∧
      (2 ≤ params.length → p ≠ [] →
        (∀ block err, (blockLookup J os node p).2 = (block, some err) →
          (getBlockByNumberOrHashHandler J M os w urlPath node).2.status =
            some StatusBadRequest ∧
          (getBlockByNumberOrHashHandler J M os w urlPath node).2.body =
            [Content.ErrRes (ErrValue.Database err)]) ∧
        (∀ block, (blockLookup J os node p).2 = (block, none) →
          (∀ err, M.marshalError (Content.BlockFS block) = some err →
            (getBlockByNumberOrHashHandler J M os w urlPath node).2.status =
              some StatusBadRequest ∧
            (getBlockByNumberOrHashHandler J M os w urlPath node).2.body =
              [Content.ErrRes err]) ∧
          (M.marshalError (Content.BlockFS block) = none →
            (getBlockByNumberOrHashHandler J M os w urlPath node).2.status = some StatusOK ∧
            (getBlockByNumberOrHashHandler J M os w urlPath node).2.body =
              [Content.BlockFS block])))) ∧
    (∀ (node : Node) (height : Nat) (hash : String),
      (cacheLookup node.state height hash).2 = true →
      os.files (getBlocksDbFilePath node.dataDir) = none →
      (GetBlockByHeightOrHash J os node.state height hash node.dataDir).2 =
        (BlockFS.zero, some Error.IOFailure)) ∧
    (∀ urlPath node,
      (getBlockByNumberOrHashHandler J M os w urlPath node).2.status ≠
        some StatusInternalServerError) := by
  have hs1 : (enableCors w).status = none := by rw [(enableCors_fresh w).1, hs]
  have hb1 : (enableCors w).body = [] := by rw [(enableCors_fresh w).2, hb]
  refine ⟨?_, ?_, ?_, ?_, ?_, ?_⟩
  · intro reqHash node h err hu
    rw [syncHandler_of_hex_error J M os w reqHash node h err hu]
    simp only [Option.map_some']
    rw [(writeErrRes_empty w _ hs hb).1, (writeErrRes_empty w _ hs hb).2]
  · intro reqHash node hash hu
    refine ⟨?_, ?_, ?_⟩
    · intro blocks err hg
      rw [syncHandler_of_log_error J M os w reqHash node hash blocks err hu hg]
      simp only [Option.map_some']
      rw [(writeErrRes_empty w _ hs hb).1, (writeErrRes_empty w _ hs hb).2]
    · intro blocks hg
      rw [syncHandler_of_blocks J M os w reqHash node hash blocks hu hg]
      simp only [Option.map_some']
      constructor
      · intro err hm
        rw [writeRes_of_marshal_error M w _ err hm, (writeErrRes_empty w _ hs hb).1,
          (writeErrRes_empty w _ hs hb).2]
      · intro hm
        rw [(writeRes_empty M w _ hs hb hm).1, (writeRes_empty M w _ hs hb hm).2]
    · intro hf
      rw [GetBlocksAfter_of_no_log J os hash node.dataDir hf]
  · intro reqHash node r hr
    rcases hu : Hash.zero.UnmarshalText reqHash with _ | ⟨hash, _ | herr⟩
    · simp [syncHandler, hu] at hr
    · rcases hg : (GetBlocksAfter J os hash node.dataDir).2 with ⟨blocks, _ | err⟩
      · rw [syncHandler_of_blocks J M os w reqHash node hash blocks hu hg] at hr
        simp only [Option.some.injEq] at hr
        subst hr
        exact writeRes_status_ne_500 M w _ hs hb
      · rw [syncHandler_of_log_error J M os w reqHash node hash blocks err hu hg] at hr
        simp only [Option.some.injEq] at hr
        subst hr
        exact status_ne_500_of_400 (writeErrRes_empty w _ hs hb).1
    · rw [syncHandler_of_hex_error J M os w reqHash node hash herr hu] at hr
      simp only [Option.some.injEq] at hr
      subst hr
      exact status_ne_500_of_400 (writeErrRes_empty w _ hs hb).1
  · intro urlPath node params p hparams hp
    subst hparams
    subst hp
    refine ⟨?_, ?_⟩
    · intro h
      rw [getBlockByNumberOrHashHandler_of_no_param J M os w urlPath node h]
      exact writeErrRes_empty _ _ hs1 hb1
    · intro hlen hne
      rw [getBlockByNumberOrHashHandler_of_param J M os w urlPath node hlen hne]
      refine ⟨?_, ?_⟩
      · intro block err hl
        rw [blockResponse_of_error M _ _ block err hl]
        exact writeErrRes_empty _ _ hs1 hb1
      · intro block hl
        rw [blockResponse_of_block M _ _ block hl]
        constructor
        · intro err hm
          rw [writeRes_of_marshal_error M _ _ err hm]
          exact writeErrRes_empty _ _ hs1 hb1
        · intro hm
          exact writeRes_empty M _ _ hs1 hb1 hm
  · intro node height hash hc hf
    rw [GetBlockByHeightOrHash_of_no_log J os node.state height hash node.dataDir hc hf]
  · intro urlPath node
    by_cases h : ((splitSep '/' urlPath.toList).drop 1).length < 2 ∨
        TrimSpace (((splitSep '/' urlPath.toList).drop 1).getD 1 []) = []
    · rw [getBlockByNumberOrHashHandler_of_no_param J M os w urlPath node h]
      exact status_ne_500_of_400 (writeErrRes_empty _ _ hs1 hb1).1
    · rw [not_or] at h
      rw [getBlockByNumberOrHashHandler_of_param J M os w urlPath node (by omega) h.2]
      rcases hl : (blockLookup J os node
          (TrimSpace (((splitSep '/' urlPath.toList).drop 1).getD 1 []))).2
        with ⟨block, _ | err⟩
      · rw [blockResponse_of_block M _ _ block hl]
        exact writeRes_status_ne_500 M _ _ hs1 hb1
      · rw [blockResponse_of_error M _ _ block err hl]
        exact status_ne_500_of_400 (writeErrRes_empty _ _ hs1 hb1).1

/-- C21 (witness): the response to `/node/sync` on a machine without block log: the
read of the log returns the I/O error and the answer has the status 400. -/
theorem handlers_report_failures_with_400_witness :
    emptyWriter.status = none ∧ emptyWriter.body = [] ∧
    Hash.zero.UnmarshalText [] = some (Hash.zero, none) ∧
    (GetBlocksAfter demoJson noLogOS Hash.zero explorerNode.dataDir).2 =
      (none, some Error.IOFailure) ∧
    (syncHandler demoJson demoResCodec noLogOS emptyWriter [] explorerNode).map
        (fun r => (r.2.status, r.2.body)) =
      some (some StatusBadRequest, [Content.ErrRes (ErrValue.Database Error.IOFailure)]) :=
  have h := (handlers_report_failures_with_400 demoJson demoResCodec noLogOS emptyWriter
    rfl rfl).2.1 [] explorerNode Hash.zero (by decide)
  ⟨rfl, rfl, by decide, h.2.2 rfl, h.1 none Error.IOFailure (h.2.2 rfl)⟩

/-- C21 (counterexample): on a machine where the block log cannot be opened, the
responses to `/node/sync` and to `/block/1` have the status 400, not 500, and
the one document `ErrRes` with the I/O error. -/
theorem block_log_io_error_status_400 :
    (syncHandler demoJson demoResCodec noLogOS emptyWriter [] explorerNode).map
        (fun r => (r.2.status, r.2.body)) =
      some (some StatusBadRequest, [Content.ErrRes (ErrValue.Database Error.IOFailure)]) ∧
    (GetBlocksAfter demoJson noLogOS Hash.zero explorerNode.dataDir).2 =
      (none, some Error.IOFailure) ∧
    (getBlockByNumberOrHashHandler demoJson demoResCodec noLogOS emptyWriter "/block/1"
        explorerNode).2.status = some StatusBadRequest ∧
    (getBlockByNumberOrHashHandler demoJson demoResCodec noLogOS emptyWriter "/block/1"
        explorerNode).2.body = [Content.ErrRes (ErrValue.Database Error.IOFailure)] ∧
    (GetBlockByHeightOrHash demoJson noLogOS explorerNode.state 1 "" explorerNode.dataDir).2 =
      (BlockFS.zero, some Error.IOFailure) ∧
    StatusBadRequest ≠ StatusInternalServerError := by
  decide

/-! ## Signing and the recovery of the signer -/

theorem Sign_of_signature {Priv Pub : Type} (C : Crypto Priv Pub) (msg : List Byte)
    (privKey : Priv) (sig : List Byte)
    (hsign : C.Sign (C.sha256Sum256 msg) privKey = .ok sig)
    (hlen : sig.length = SignatureLength) :
    Sign C msg privKey = (some sig, none) := by
  unfold Sign
  simp only [hsign]
  rw [if_neg (by rw [hlen]; exact fun h => h rfl)]

theorem Verify_of_recovered {Priv Pub : Type} (C : Crypto Priv Pub) (msg sig : List Byte)
    (pub : Pub) (hrec : C.SigToPub (C.sha256Sum256 msg) sig = .ok pub) :
    Verify C msg sig = (some pub, none) := by
  unfold Verify
  simp only [hrec]

theorem demoCrypto_recoversSigner : demoCrypto.RecoversSigner := by
  intro digest privKey
  refine ⟨(privKey + 1) :: (digest.bytes ++ List.replicate 32 0), rfl, ?_, ?_⟩
  · rw [List.length_cons, List.length_append, digest.len, List.length_replicate]
    rfl
  · show (if digest.bytes ++ List.replicate 32 0 = digest.bytes ++ List.replicate 32 0
      then (Except.ok (privKey + 1) : Except ErrValue Byte)
      else .error (ErrValue.New "invalid signature")) = .ok (privKey + 1)
    rw [if_pos rfl]

/-- C19: with secp256k1 functions that keep their contract (`crypto.Sign` signs a
digest with a signature of 65 bytes from which `crypto.SigToPub` recovers the
public key of the signer), for every private key and every message `Sign`
returns a signature and no error, `Verify` on the message and that signature
returns no error and the public key of the private key, and the account
derived from the recovered key is the account of the signer. -/
theorem Verify_Sign {Priv Pub : Type} (C : Crypto Priv Pub) (hC : C.RecoversSigner)
    (msg : List Byte) (privKey : Priv) :
    ∃ sig : List Byte,
      Sign C msg privKey = (some sig, none) ∧
      Verify C msg sig = (some (C.publicKey privKey), none) ∧
      ∀ recoveredPubKey, (Verify C msg sig).1 = some recoveredPubKey →
        C.PubkeyToAddress recoveredPubKey = C.PubkeyToAddress (C.publicKey privKey) := by
  obtain ⟨sig, hsign, hlen, hrec⟩ := hC (C.sha256Sum256 msg) privKey
  refine ⟨sig, Sign_of_signature C msg privKey sig hsign hlen,
    Verify_of_recovered C msg sig _ hrec, ?_⟩
  intro recoveredPubKey h
  rw [Verify_of_recovered C msg sig _ hrec] at h
  simp only [Option.some.injEq] at h
  rw [← h]

/-- C19 (witness): the message `testing` of `TestSign`, signed with the key 7 of the
stand-in functions. -/
theorem Verify_Sign_witness :
    demoCrypto.RecoversSigner ∧
    ∃ sig : List Byte,
      Sign demoCrypto (stringBytes "testing") 7 = (some sig, none) ∧
      Verify demoCrypto (stringBytes "testing") sig = (some (demoCrypto.publicKey 7), none) ∧
      ∀ recoveredPubKey,
        (Verify demoCrypto (stringBytes "testing") sig).1 = some recoveredPubKey →
        demoCrypto.PubkeyToAddress recoveredPubKey =
          demoCrypto.PubkeyToAddress (demoCrypto.publicKey 7) :=
  ⟨demoCrypto_recoversSigner,
   Verify_Sign demoCrypto demoCrypto_recoversSigner (stringBytes "testing") 7⟩

end GoBlockchain
